import Mathlib

/-!
# Verification development for `lot` (selector, metadata predicates, operator predicate)

Shallow embedding of `pkg/selector/selector.go`, `pkg/predicates/predicates.go`,
`pkg/operator/options.go`, `pkg/operator/operator.go` and `pkg/reconcile/reconcile-func.go`.

Modelling conventions
* A Go `string` is a Lean `String` (valid UTF-8 text); `len(s)` is `String.utf8ByteSize`.
* A Go `map[string]string` is `StringMap`: `none` is the nil map, `some es` an allocated
  map whose entries are `es`.  The order of `es` stands for the (unspecified) order in
  which `range` visits the map; every statement below holds for every order.
* A Go `error` is `Option GoError`, `none` being the nil error.
* A method with a pointer receiver that changes its receiver returns the changed value.
* A Go slice is a list, the nil slice being the empty list.
-/

namespace Lot

/-! ## Go maps -/

/-- A Go `map[string]string`; `none` is the nil map. -/
abbrev StringMap := Option (List (String × String))

/-- The comma-ok lookup `val, ok := m[k]` on the entries of an allocated map. -/
def get? : List (String × String) → String → Option String
  | [], _ => none
  | (k', v) :: rest, k => if k' = k then some v else get? rest k

/-- The entries visited by `for k, v := range m`; ranging over the nil map visits nothing. -/
def entries : StringMap → List (String × String)
  | none => []
  | some es => es

/-- The assignment `m[k] = v` on the entries of an allocated map: the value under an existing
key is replaced, a new key is added. -/
def assign : List (String × String) → String → String → List (String × String)
  | [], k, v => [(k, v)]
  | (k', v') :: rest, k, v =>
    if k' = k then (k', v) :: rest else (k', v') :: assign rest k v

/-- The loop `for k, v := range src { dst[k] = v }`. -/
def assignAll (dst : List (String × String)) : List (String × String) → List (String × String)
  | [] => dst
  | (k, v) :: rest => assignAll (assign dst k v) rest

/-- Go maps hold each key once. -/
def UniqueKeys (m : StringMap) : Prop := ((entries m).map Prod.fst).Nodup

/-! ## Go errors (`errors.Join`, `field.Error`) -/

/-- The struct `field.Path` of `k8s.io/apimachinery/pkg/util/validation/field`
(`name`, `index`, `parent`); `Path.nil` is the nil pointer. -/
inductive Path where
  | nil
  | node (name : String) (index : String) (parent : Path)
deriving DecidableEq

/-- Go `field.ToPath()` called without options: the nil path. -/
def ToPath : Path := Path.nil

/-- Go `(*Path).Child(name)` with no further names: a fresh path element whose parent is `p`. -/
def Path.Child (p : Path) (name : String) : Path := Path.node name "" p

/-- Go `(*Path).Key(key)`: an index element whose parent is `p`. -/
def Path.Key (p : Path) (key : String) : Path := Path.node "" key p

/-- The elements of a non-nil path rendered from the root down, as in `(*Path).String`. -/
def Path.render : Path → String
  | Path.nil => ""
  | Path.node name index parent =>
    parent.render ++
      (if parent ≠ Path.nil ∧ name.utf8ByteSize > 0 then "." else "") ++
      (if name.utf8ByteSize > 0 then name else "[" ++ index ++ "]")

/-- Go `(*Path).String()`. -/
def Path.String (p : Path) : String :=
  if p = Path.nil then "<nil>" else p.render

/-- The struct `field.Error`; `Type` is always `ErrorTypeInvalid` here and is left out. -/
structure FieldError where
  Field : String
  BadValue : String
  Detail : String
deriving DecidableEq

/-- Go `field.Invalid(field, value, detail)`. -/
def Invalid (field : Path) (value detail : String) : FieldError :=
  ⟨field.String, value, detail⟩

/-- A non-nil Go `error` value: a `*field.Error`, a plain message error, or the
`*joinError` built by `errors.Join`, which wraps the list of its arguments. -/
inductive GoError where
  | fieldError (e : FieldError)
  | errorString (msg : String)
  | joinError (errs : List GoError)

/-- Go `errors.Join(errs...)`: nil arguments are dropped; the result is nil when nothing is left. -/
def errorsJoin (errs : List (Option GoError)) : Option GoError :=
  let kept := errs.filterMap id
  if kept.length = 0 then none else some (GoError.joinError kept)

mutual
/-- The `*field.Error` values reachable from an error through `joinError` wrapping, left to right. -/
def GoError.fieldErrors : GoError → List FieldError
  | GoError.fieldError e => [e]
  | GoError.errorString _ => []
  | GoError.joinError errs => fieldErrorsList errs
/-- The field errors of a list of errors, concatenated. -/
def fieldErrorsList : List GoError → List FieldError
  | [] => []
  | e :: es => e.fieldErrors ++ fieldErrorsList es
end

/-- The field errors held by a possibly nil error. -/
def errorEntries : Option GoError → List FieldError
  | none => []
  | some e => e.fieldErrors

/-! ## `k8s.io/apimachinery/pkg/util/validation` (external dependency of `selector.go`)

The package is not part of the sources.  The definitions of this section follow the format
the specification states for requirement keys and label values (an optional DNS-subdomain
prefix and `/`, a name of at most 63 bytes, the regular expressions) along the functions
`IsQualifiedName` and `IsValidLabelValue` that `selector.go` calls; they agree with the key
and value tables of `selector_test.go`.  Regular expressions are Mathlib's
`RegularExpression Char`, matched over the whole text as `^...$` does. -/

namespace validation

open RegularExpression

/-- A character class `[...]` as a regular expression: the alternation of its characters. -/
def charClass (cs : List Char) : RegularExpression Char :=
  cs.foldr (fun c r => char c + r) 0

/-- The optional group `(r)?`. -/
def opt (r : RegularExpression Char) : RegularExpression Char := 1 + r

/-- Go `regexp.MustCompile("^" + fmt + "$").MatchString(s)`: the whole text is in the language. -/
def MatchString (r : RegularExpression Char) (s : String) : Bool := r.rmatch s.data

/-- The characters `A-Za-z0-9`. -/
def alnumChars : List Char :=
  "ABCDEFGHIJKLMNOPQRSTUVWXYZabcdefghijklmnopqrstuvwxyz0123456789".data

/-- The characters `a-z0-9`. -/
def lowerAlnumChars : List Char := "abcdefghijklmnopqrstuvwxyz0123456789".data

/-- Modelled from the spec: `qnameCharFmt = "[A-Za-z0-9]"`, a constant of the external
validation package, not part of the sources. -/
def qnameCharFmt : RegularExpression Char := charClass alnumChars

/-- Modelled from the spec: `qnameExtCharFmt = "[-A-Za-z0-9_.]"`, a constant of the external
validation package, not part of the sources. -/
def qnameExtCharFmt : RegularExpression Char := charClass ('-' :: alnumChars ++ ['_', '.'])

/-- Modelled from the spec: `qualifiedNameFmt = "(" + qnameCharFmt + qnameExtCharFmt + "*)?" + qnameCharFmt`,
a constant of the external validation package, not part of the sources. -/
def qualifiedNameFmt : RegularExpression Char :=
  opt (qnameCharFmt * star qnameExtCharFmt) * qnameCharFmt

/-- The constant `qualifiedNameMaxLength`. -/
def qualifiedNameMaxLength : Nat := 63

/-- Modelled from the spec: `labelValueFmt = "(" + qualifiedNameFmt + ")?"`, a constant of the
external validation package, not part of the sources. -/
def labelValueFmt : RegularExpression Char := opt qualifiedNameFmt

/-- The constant `LabelValueMaxLength`. -/
def LabelValueMaxLength : Nat := 63

/-- Modelled from the spec: `dns1123LabelFmt = "[a-z0-9]([-a-z0-9]*[a-z0-9])?"`, a constant of
the external validation package, not part of the sources. -/
def dns1123LabelFmt : RegularExpression Char :=
  charClass lowerAlnumChars *
    opt (star (charClass ('-' :: lowerAlnumChars)) * charClass lowerAlnumChars)

/-- Modelled from the spec: `dns1123SubdomainFmt = dns1123LabelFmt + "(\\." + dns1123LabelFmt + ")*"`,
a constant of the external validation package, not part of the sources. -/
def dns1123SubdomainFmt : RegularExpression Char :=
  dns1123LabelFmt * star (char '.' * dns1123LabelFmt)

/-- The constant `DNS1123SubdomainMaxLength`. -/
def DNS1123SubdomainMaxLength : Nat := 253

/-- Go `MaxLenError(length)`. -/
def MaxLenError (length : Nat) : String :=
  "must be no more than " ++ toString length ++ " characters"

/-- Go `EmptyError()`. -/
def EmptyError : String := "must be non-empty"

/-- The loop of `RegexError` over the examples: each one quoted and followed by a comma,
with ` or ` before every example but the first. -/
def regexExamples : List String → Bool → String
  | [], _ => ""
  | e :: es, first => (if first then "" else " or ") ++ "'" ++ e ++ "', " ++ regexExamples es false

/-- Go `RegexError(msg, fmt, examples...)`. -/
def RegexError (msg : String) (fmt : String) (examples : List String) : String :=
  if examples.length = 0 then msg ++ " (regex used for validation is '" ++ fmt ++ "')"
  else msg ++ " (e.g. " ++ regexExamples examples true ++
    "regex used for validation is '" ++ fmt ++ "')"

/-- The text of `qualifiedNameFmt`. -/
def qualifiedNameFmtText : String := "([A-Za-z0-9][-A-Za-z0-9_.]*)?[A-Za-z0-9]"

/-- The constant `qualifiedNameErrMsg`. -/
def qualifiedNameErrMsg : String :=
  "must consist of alphanumeric characters, '-', '_' or '.', and must start and end with an alphanumeric character"

/-- The text of `labelValueFmt`. -/
def labelValueFmtText : String := "(" ++ qualifiedNameFmtText ++ ")?"

/-- The constant `labelValueErrMsg`. -/
def labelValueErrMsg : String :=
  "a valid label must be an empty string or consist of alphanumeric characters, '-', '_' or '.', and must start and end with an alphanumeric character"

/-- The text of `dns1123LabelFmt`. -/
def dns1123LabelFmtText : String := "[a-z0-9]([-a-z0-9]*[a-z0-9])?"

/-- The text of `dns1123SubdomainFmt`. -/
def dns1123SubdomainFmtText : String :=
  dns1123LabelFmtText ++ "(\\." ++ dns1123LabelFmtText ++ ")*"

/-- The constant `dns1123SubdomainErrorMsg`. -/
def dns1123SubdomainErrorMsg : String :=
  "a lowercase RFC 1123 subdomain must consist of lower case alphanumeric characters, '-' or '.', and must start and end with an alphanumeric character"

/-- Go `prefixEach(msgs, prefix)`. -/
def prefixEach (msgs : List String) (pfx : String) : List String :=
  msgs.map (fun m => pfx ++ m)

/-- The pieces of a text between occurrences of a one-character separator. -/
def splitChars (sep : Char) : List Char → List (List Char)
  | [] => [[]]
  | c :: cs =>
    if c = sep then [] :: splitChars sep cs
    else match splitChars sep cs with
      | [] => [[c]]
      | p :: ps => (c :: p) :: ps

/-- Go `strings.Split(s, sep)` for a one-character separator. -/
def Split (s : String) (sep : Char) : List String :=
  (splitChars sep s.data).map String.mk

/-- Modelled from the spec: `validation.IsDNS1123Subdomain`, a function of the external
validation package, not part of the sources: at most 253 bytes and of the DNS-1123
subdomain format. -/
def IsDNS1123Subdomain (value : String) : List String :=
  (if value.utf8ByteSize > DNS1123SubdomainMaxLength
    then [MaxLenError DNS1123SubdomainMaxLength] else []) ++
  (if !MatchString dns1123SubdomainFmt value
    then [RegexError dns1123SubdomainErrorMsg dns1123SubdomainFmtText ["example.com"]]
    else [])

/-- The name-part checks at the end of `IsQualifiedName`. -/
def nameErrs (name : String) : List String :=
  (if name.utf8ByteSize = 0 then ["name part " ++ EmptyError]
   else if name.utf8ByteSize > qualifiedNameMaxLength
    then ["name part " ++ MaxLenError qualifiedNameMaxLength] else []) ++
  (if !MatchString qualifiedNameFmt name
    then ["name part " ++
      RegexError qualifiedNameErrMsg qualifiedNameFmtText ["MyName", "my.name", "123-abc"]]
    else [])

/-- Modelled from the spec: `validation.IsQualifiedName`, a function of the external validation
package, not part of the sources: an optional DNS-subdomain prefix and `/`, then a name of at
most 63 bytes of the qualified-name format.  The returned list holds one message per
violation and is empty exactly for well-formed qualified names. -/
def IsQualifiedName (value : String) : List String :=
  match Split value '/' with
  | [name] => nameErrs name
  | [pfx, name] =>
    (if pfx.utf8ByteSize = 0 then ["prefix part " ++ EmptyError]
     else prefixEach (IsDNS1123Subdomain pfx) "prefix part ") ++ nameErrs name
  | _ => ["a qualified name " ++
      RegexError qualifiedNameErrMsg qualifiedNameFmtText ["MyName", "my.name", "123-abc"] ++
      " with an optional DNS subdomain prefix and '/' (e.g. 'example.com/MyName')"]

/-- Modelled from the spec: `validation.IsValidLabelValue`, a function of the external
validation package, not part of the sources: at most 63 bytes and either empty or of the
qualified-name format. -/
def IsValidLabelValue (value : String) : List String :=
  (if value.utf8ByteSize > LabelValueMaxLength then [MaxLenError LabelValueMaxLength] else []) ++
  (if !MatchString labelValueFmt value
    then [RegexError labelValueErrMsg labelValueFmtText ["MyValue", "my_value", "12345"]]
    else [])

end validation

/-! ## `pkg/selector/selector.go` -/

/-- The constant `keyAbsent state = iota` (a byte). -/
def keyAbsent : Nat := 0

/-- The constant `keyPresent` (a byte). -/
def keyPresent : Nat := 1

/-- Go `func KeyAbsent() string { return string([]state{keyAbsent}) }`: the one-byte string `"\x00"`. -/
def KeyAbsent : String := String.mk [Char.ofNat keyAbsent]

/-- Go `func KeyPresent() string { return string([]state{keyPresent}) }`: the one-byte string `"\x01"`. -/
def KeyPresent : String := String.mk [Char.ofNat keyPresent]

/-- The struct `selector`. -/
structure selector where
  labels : StringMap
  annotations : StringMap

/-- The loop `for k, v := range sel { switch v { ... } }` of `matches`, followed by `return true`. -/
def matchesLoop (data : List (String × String)) : List (String × String) → Bool
  | [] => true
  | (k, v) :: rest =>
    if v = KeyAbsent then
      if (get? data k).isSome then false else matchesLoop data rest
    else if v = KeyPresent then
      if !(get? data k).isSome then false else matchesLoop data rest
    else
      match get? data k with
      | none => false
      | some val => if v ≠ val then false else matchesLoop data rest

/-- Go `func matches(data map[string]string, sel map[string]string) bool`. -/
def «matches» (data sel : StringMap) : Bool :=
  match sel, data with
  | none, _ => false
  | _, none => false
  | some s, some d => if s.length = 0 then true else matchesLoop d s

/-- Go `func (s *selector) MatchesLabels(labels map[string]string) bool`. -/
def selector.MatchesLabels (s : selector) (labels : StringMap) : Bool :=
  «matches» labels s.labels

/-- Go `func (s *selector) MatchesAnnotations(annotations map[string]string) bool`. -/
def selector.MatchesAnnotations (s : selector) (annotations : StringMap) : Bool :=
  «matches» annotations s.annotations

/-- Go `func (s *selector) Matches(labels, annotations map[string]string) bool`. -/
def selector.Matches (s : selector) (labels annotations : StringMap) : Bool :=
  s.MatchesLabels labels && s.MatchesAnnotations annotations

/-- Go `func validateKey(k string, path *field.Path) *field.Error`; `none` is the nil pointer. -/
def validateKey (k : String) (path : Path) : Option FieldError :=
  let errs := validation.IsQualifiedName k
  if errs.length ≠ 0 then some (Invalid path k ("; ".intercalate errs)) else none

/-- Go `func validateLabelValue(k, v string, path *field.Path) *field.Error`. -/
def validateLabelValue (k v : String) (path : Path) : Option FieldError :=
  let errs := validation.IsValidLabelValue v
  if errs.length ≠ 0 then some (Invalid (path.Key k) v ("; ".intercalate errs)) else none

/-- The statement `if err := ...; err != nil { allErrs = errors.Join(allErrs, err) }`. -/
def joinIfErr (allErrs : Option GoError) (err : Option FieldError) : Option GoError :=
  match err with
  | some e => errorsJoin [allErrs, some (GoError.fieldError e)]
  | none => allErrs

/-- The first loop of `NewSelector`: `for k, v := range labels { ... }`, threading `allErrs`. -/
def validateLabels : List (String × String) → Option GoError → Option GoError
  | [], allErrs => allErrs
  | (k, v) :: rest, allErrs =>
    let path := ToPath
    let allErrs := joinIfErr allErrs (validateKey k (path.Child "key"))
    if v = KeyPresent ∨ v = KeyAbsent then
      validateLabels rest allErrs
    else
      let allErrs := joinIfErr allErrs (validateLabelValue k v (path.Child "values"))
      validateLabels rest allErrs

/-- The second loop of `NewSelector`: `for k := range annotations { ... }`, threading `allErrs`. -/
def validateAnnotations : List (String × String) → Option GoError → Option GoError
  | [], allErrs => allErrs
  | (k, _) :: rest, allErrs =>
    let path := ToPath
    let allErrs := joinIfErr allErrs (validateKey k (path.Child "key"))
    validateAnnotations rest allErrs

/-- Go `func NewSelector(labels, annotations map[string]string) (Selector, error)`.
The selector is returned also when the error is not nil. -/
def NewSelector (labels annotations : StringMap) : selector × Option GoError :=
  let allErrs := validateLabels (entries labels) none
  let allErrs := validateAnnotations (entries annotations) allErrs
  (⟨labels, annotations⟩, allErrs)

/-- What it means for one requirement entry `(k, v)` to be satisfied by the data entries `d`:
absence, presence or exact equality, depending on `v`. -/
def Satisfied (d : List (String × String)) (k v : String) : Prop :=
  if v = KeyAbsent then get? d k = none
  else if v = KeyPresent then ∃ val, get? d k = some val
  else get? d k = some v

/-! ## `pkg/predicates/predicates.go` -/

/-- The metadata of a `client.Object` read by the predicates: `GetName()`, `GetNamespace()`,
`GetLabels()` and `GetAnnotations()`; the two maps may be nil. -/
structure Object where
  Name : String
  Namespace : String
  Labels : StringMap
  Annotations : StringMap

/-- The struct `event.CreateEvent`. -/
structure CreateEvent where
  Object : Object

/-- The struct `event.UpdateEvent`. -/
structure UpdateEvent where
  ObjectOld : Object
  ObjectNew : Object

/-- The struct `event.DeleteEvent`. -/
structure DeleteEvent where
  Object : Object

/-- The struct `event.GenericEvent`. -/
structure GenericEvent where
  Object : Object

/-- The struct `predicate.Funcs` of controller-runtime: four optional functions, `none` being
a nil function value. -/
structure Funcs where
  CreateFunc : Option (CreateEvent → Bool)
  DeleteFunc : Option (DeleteEvent → Bool)
  UpdateFunc : Option (UpdateEvent → Bool)
  GenericFunc : Option (GenericEvent → Bool)

/-- Go `func (p Funcs) Create(e event.CreateEvent) bool`: the function when set, else true. -/
def Funcs.Create (p : Funcs) (e : CreateEvent) : Bool :=
  match p.CreateFunc with
  | some f => f e
  | none => true

/-- Go `func (p Funcs) Delete(e event.DeleteEvent) bool`. -/
def Funcs.Delete (p : Funcs) (e : DeleteEvent) : Bool :=
  match p.DeleteFunc with
  | some f => f e
  | none => true

/-- Go `func (p Funcs) Update(e event.UpdateEvent) bool`. -/
def Funcs.Update (p : Funcs) (e : UpdateEvent) : Bool :=
  match p.UpdateFunc with
  | some f => f e
  | none => true

/-- Go `func (p Funcs) Generic(e event.GenericEvent) bool`. -/
def Funcs.Generic (p : Funcs) (e : GenericEvent) : Bool :=
  match p.GenericFunc with
  | some f => f e
  | none => true

/-- The statement `if m = obj.GetX(); m == nil { m = map[string]string{} }`. -/
def orEmpty (m : StringMap) : StringMap :=
  match m with
  | none => some []
  | some es => some es

/-- Go `func CreateOrUpdateByMetadata(labels, annotations map[string]string)
(predicate.Predicate, error)`; the predicate is `none` (nil) when the selector is rejected. -/
def CreateOrUpdateByMetadata (labels annotations : StringMap) : Option Funcs × Option GoError :=
  match NewSelector labels annotations with
  | (_, some err) => (none, some err)
  | (s, none) =>
    (some {
      CreateFunc := some (fun event =>
        let labels := orEmpty event.Object.Labels
        let annotations := orEmpty event.Object.Annotations
        s.Matches labels annotations)
      UpdateFunc := some (fun event =>
        let oldLabels := orEmpty event.ObjectOld.Labels
        let oldAnnotations := orEmpty event.ObjectOld.Annotations
        let newLabels := orEmpty event.ObjectNew.Labels
        let newAnnotations := orEmpty event.ObjectNew.Annotations
        s.Matches oldLabels oldAnnotations || s.Matches newLabels newAnnotations)
      DeleteFunc := none
      GenericFunc := none }, none)

/-- Go `func DeleteByMetadata(labels, annotations map[string]string)
(predicate.Predicate, error)`. -/
def DeleteByMetadata (labels annotations : StringMap) : Option Funcs × Option GoError :=
  match NewSelector labels annotations with
  | (_, some err) => (none, some err)
  | (s, none) =>
    (some {
      CreateFunc := none
      UpdateFunc := none
      DeleteFunc := some (fun event =>
        let labels := orEmpty event.Object.Labels
        let annotations := orEmpty event.Object.Annotations
        s.Matches labels annotations)
      GenericFunc := none }, none)

/-! ## controller-runtime `predicate`, `logr` (external dependencies of `predicates.go`)

The packages are not part of the sources.  An evaluation of a predicate yields `none` when it
calls a method of a nil predicate (a nil-pointer panic), and otherwise the decision together
with the log records written on the way. -/

/-- An event of one of the four kinds handed to a predicate. -/
inductive Event where
  | Create (e : CreateEvent)
  | Update (e : UpdateEvent)
  | Delete (e : DeleteEvent)
  | Generic (e : GenericEvent)

/-- The method of `predicate.Funcs` for the kind of the event. -/
def Funcs.eval (p : Funcs) : Event → Bool
  | Event.Create e => p.Create e
  | Event.Update e => p.Update e
  | Event.Delete e => p.Delete e
  | Event.Generic e => p.Generic e

/-- One call of `Info` on a `logr.Logger`: the names and values the logger carries, its
verbosity level and the message. -/
structure LogRecord where
  names : List String
  level : Nat
  msg : String
  keysAndValues : List (String × String)
deriving DecidableEq

/-- A `logr.Logger`: the names given by `WithName`, the key/value pairs given by
`WithValues` and the verbosity level chosen by `V`. -/
structure Logger where
  names : List String
  keysAndValues : List (String × String)
  level : Nat
deriving DecidableEq

/-- Go `Logger.WithName(name)`. -/
def Logger.WithName (l : Logger) (name : String) : Logger :=
  { l with names := l.names ++ [name] }

/-- Go `Logger.WithValues(keysAndValues...)`. -/
def Logger.WithValues (l : Logger) (kvs : List (String × String)) : Logger :=
  { l with keysAndValues := l.keysAndValues ++ kvs }

/-- Go `Logger.V(level)`: verbosity levels add up. -/
def Logger.V (l : Logger) (level : Nat) : Logger :=
  { l with level := l.level + level }

/-- Go `Logger.Info(msg)`: the record handed to the log sink. -/
def Logger.Info (l : Logger) (msg : String) : LogRecord :=
  ⟨l.names, l.level, msg, l.keysAndValues⟩

/-- The package logger `logf.Log` of controller-runtime. -/
def logfLog : Logger := ⟨[], [], 0⟩

/-- The result of evaluating a predicate on an event: `none` for a nil-pointer panic,
otherwise the decision and the log records written. -/
abbrev Outcome := Option (Bool × List LogRecord)

/-- The decision of an evaluation, when it returns. -/
def Outcome.decision (r : Outcome) : Option Bool := r.map Prod.fst

/-- The log records of an evaluation, when it returns. -/
def Outcome.records (r : Outcome) : List LogRecord :=
  match r with
  | none => []
  | some (_, l) => l

/-- A `predicate.Funcs` whose functions evaluate other predicates and write log records, as
the one built by `Log`. -/
structure EffectFuncs where
  CreateFunc : Option (CreateEvent → Outcome)
  DeleteFunc : Option (DeleteEvent → Outcome)
  UpdateFunc : Option (UpdateEvent → Outcome)
  GenericFunc : Option (GenericEvent → Outcome)

/-- The method of such a `predicate.Funcs` for the kind of the event: the function when set,
else true. -/
def EffectFuncs.eval (p : EffectFuncs) : Event → Outcome
  | Event.Create e => match p.CreateFunc with
    | some f => f e
    | none => some (true, [])
  | Event.Update e => match p.UpdateFunc with
    | some f => f e
    | none => some (true, [])
  | Event.Delete e => match p.DeleteFunc with
    | some f => f e
    | none => some (true, [])
  | Event.Generic e => match p.GenericFunc with
    | some f => f e
    | none => some (true, [])

/-- A value of the interface `predicate.Predicate`: nil, a `predicate.Funcs`, or the
composites `and` and `or` built by `predicate.And` and `predicate.Or`. -/
inductive Predicate where
  | nil
  | funcs (f : Funcs)
  | effectFuncs (f : EffectFuncs)
  | and (predicates : List Predicate)
  | or (predicates : List Predicate)

/-- A possibly nil `predicate.Funcs` returned as a `predicate.Predicate`. -/
def Predicate.ofFuncs : Option Funcs → Predicate
  | none => Predicate.nil
  | some f => Predicate.funcs f

mutual
/-- The method of a predicate for the kind of the event.  The four methods of `and` and of
`or` are the same loop over the same method of their members. -/
def Predicate.eval : Predicate → Event → Outcome
  | Predicate.nil, _ => none
  | Predicate.funcs f, e => some (f.eval e, [])
  | Predicate.effectFuncs f, e => f.eval e
  | Predicate.and ps, e => Predicate.evalAnd ps e
  | Predicate.or ps, e => Predicate.evalOr ps e
/-- Go `for _, p := range a.predicates { if !p.X(e) { return false } }; return true`. -/
def Predicate.evalAnd : List Predicate → Event → Outcome
  | [], _ => some (true, [])
  | p :: ps, e =>
    match Predicate.eval p e with
    | none => none
    | some (false, l) => some (false, l)
    | some (true, l) =>
      match Predicate.evalAnd ps e with
      | none => none
      | some (d, l') => some (d, l ++ l')
/-- Go `for _, p := range o.predicates { if p.X(e) { return true } }; return false`. -/
def Predicate.evalOr : List Predicate → Event → Outcome
  | [], _ => some (false, [])
  | p :: ps, e =>
    match Predicate.eval p e with
    | none => none
    | some (true, l) => some (true, l)
    | some (false, l) =>
      match Predicate.evalOr ps e with
      | none => none
      | some (d, l') => some (d, l ++ l')
end

/-- Go `p.Create(e)`. -/
def Predicate.Create (p : Predicate) (e : CreateEvent) : Outcome := p.eval (Event.Create e)

/-- Go `p.Update(e)`. -/
def Predicate.Update (p : Predicate) (e : UpdateEvent) : Outcome := p.eval (Event.Update e)

/-- Go `p.Delete(e)`. -/
def Predicate.Delete (p : Predicate) (e : DeleteEvent) : Outcome := p.eval (Event.Delete e)

/-- Go `p.Generic(e)`. -/
def Predicate.Generic (p : Predicate) (e : GenericEvent) : Outcome := p.eval (Event.Generic e)

/-! ## `pkg/predicates/predicates.go`: `Log` -/

/-- The closure `logWrapper` of `Log`: the decision is returned unchanged, with the record
written for it. -/
def logWrapper (predicateLog : Logger) (logIgnored : Bool)
    (action : String) (decision : Bool) (o : Object) : Bool × List LogRecord :=
  let eventLog := predicateLog.WithValues
    [("event", action), ("name", o.Name), ("namespace", o.Namespace)]
  let accepted := if decision then [(eventLog.V 1).Info "Event accepted"] else []
  let ignored := if !decision && logIgnored then [(eventLog.V 1).Info "Event ignored"] else []
  (decision, accepted ++ ignored)

/-- The call `logWrapper(action, combined.X(e), o)`: the combined predicate is evaluated,
then the wrapper runs on its decision. -/
def logCall (predicateLog : Logger) (logIgnored : Bool)
    (action : String) (r : Outcome) (o : Object) : Outcome :=
  match r with
  | none => none
  | some (decision, l) =>
    let w := logWrapper predicateLog logIgnored action decision o
    some (w.1, l ++ w.2)

/-- Go `func Log(log logr.Logger, logIgnored bool, p ...predicate.Predicate)
predicate.Predicate`. -/
def Log (log : Logger) (logIgnored : Bool) (p : List Predicate) : Predicate :=
  let combined := Predicate.and p
  let predicateLog := log.WithName "EventFilter"
  Predicate.effectFuncs {
    CreateFunc := some (fun e =>
      logCall predicateLog logIgnored "CREATE" (combined.Create e) e.Object)
    UpdateFunc := some (fun e =>
      logCall predicateLog logIgnored "UPDATE" (combined.Update e) e.ObjectNew)
    DeleteFunc := some (fun e =>
      logCall predicateLog logIgnored "DELETE" (combined.Delete e) e.Object)
    GenericFunc := some (fun e =>
      logCall predicateLog logIgnored "GENERIC" (combined.Generic e) e.Object) }

/-! ## `pkg/reconcile/reconcile-handler.go`, `pkg/operator/options.go`, `pkg/operator/operator.go` -/

/-- The types and functions of controller-runtime that the operator stores and hands on
without looking inside: handler functions, the tracked object, manager options, manager,
client and controller; `defaults.InitManager`, which builds the manager or fails, and
`lot_client.New(mgr.GetClient())`. -/
structure External where
  Handler : Type
  ClientObject : Type
  ManagerOptions : Type
  Manager : Type
  Client : Type
  Controller : Type
  InitManager : Option ManagerOptions → Except GoError Manager
  NewClient : Manager → Client

/-- The struct `reconcile.HandlerFuncs`; `none` is a nil handler. -/
structure HandlerFuncs (H : Type) where
  CreateOrUpdateHandler : Option H
  DeleteHandler : Option H

/-- The struct `OwnsInput`. -/
structure OwnsInput (X : External) where
  object : X.ClientObject
  predicate : Predicate

/-- The struct `constructorOptions`; a nil slice is the empty list. -/
structure constructorOptions (X : External) where
  mgrOpts : Option X.ManagerOptions
  predicates : List Predicate
  ownsInput : List (OwnsInput X)

/-- Go `type ConstructorOption func(options *constructorOptions) error`: the options after
the call and the error returned. -/
abbrev ConstructorOption (X : External) :=
  constructorOptions X → constructorOptions X × Option GoError

/-- Go `func WithCustomPredicate(prct predicate.Predicate) ConstructorOption`. -/
def WithCustomPredicate {X : External} (prct : Predicate) : ConstructorOption X :=
  fun opts => ({ opts with predicates := opts.predicates ++ [prct] }, none)

/-- Go `func WithManagerOptions(mgrOpts *manager.Options) ConstructorOption`. -/
def WithManagerOptions {X : External} (mgrOpts : Option X.ManagerOptions) :
    ConstructorOption X :=
  fun opts =>
    if opts.mgrOpts.isSome then
      (opts, some (GoError.errorString "WithManager(...) should only be called once"))
    else
      match mgrOpts with
      | some m => ({ opts with mgrOpts := some m }, none)
      | none => (opts, none)

/-- Go `func WithOwns(object client.Object, filter predicate.Predicate) ConstructorOption`. -/
def WithOwns {X : External} (object : X.ClientObject) (filter : Predicate) :
    ConstructorOption X :=
  fun opts => ({ opts with ownsInput := opts.ownsInput ++ [⟨object, filter⟩] }, none)

/-- The struct `handlerOptions`. -/
structure handlerOptions where
  labels : StringMap
  annotations : StringMap

/-- Go `type HandlerOption func(options *handlerOptions) error`: the options after the call
and the error returned. -/
abbrev HandlerOption := handlerOptions → handlerOptions × Option GoError

/-- Go `func WithAnnotations(annotations map[string]string) HandlerOption`. -/
def WithAnnotations (annotations : StringMap) : HandlerOption :=
  fun opts =>
    let own := entries (orEmpty opts.annotations)
    ({ opts with annotations := some (assignAll own (entries annotations)) }, none)

/-- Go `func WithLabels(labels map[string]string) HandlerOption`. -/
def WithLabels (labels : StringMap) : HandlerOption :=
  fun opts =>
    let own := entries (orEmpty opts.labels)
    ({ opts with labels := some (assignAll own (entries labels)) }, none)

/-- The struct `operator`; nil slices are empty lists, and the handler table is held by
value. -/
structure operator (X : External) where
  client : X.Client
  object : X.ClientObject
  controller : Option X.Controller
  manager : X.Manager
  predicates : List Predicate
  customPredicates : List Predicate
  ownsInput : List (OwnsInput X)
  reconcileHandlers : HandlerFuncs X.Handler
  errs : Option GoError

/-- The statement `if err != nil { o.errs = errors.Join(o.errs, err) }`. -/
def joinIfNotNil (errs err : Option GoError) : Option GoError :=
  match err with
  | some e => errorsJoin [errs, some e]
  | none => errs

/-- The loop `for _, opt := range opts { err := opt(&options); if err != nil { return nil, err } }`
of `New`: the options built, or the first error. -/
def applyConstructorOptions {X : External} :
    List (ConstructorOption X) → constructorOptions X → Except GoError (constructorOptions X)
  | [], options => Except.ok options
  | opt :: rest, options =>
    match opt options with
    | (_, some err) => Except.error err
    | (options, none) => applyConstructorOptions rest options

/-- Go `func New(object client.Object, opts ...ConstructorOption) (Operator, error)`. -/
def New (X : External) (object : X.ClientObject) (opts : List (ConstructorOption X)) :
    Option (operator X) × Option GoError :=
  match applyConstructorOptions opts ⟨none, [], []⟩ with
  | Except.error err => (none, some err)
  | Except.ok options =>
    let _ownsInput := if options.ownsInput.length > 0 then [] ++ options.ownsInput else []
    match X.InitManager options.mgrOpts with
    | Except.error err => (none, some err)
    | Except.ok mgr =>
      let customPredicates := options.predicates
      let handlerFuncs : HandlerFuncs X.Handler := ⟨none, none⟩
      let cl := X.NewClient mgr
      (some {
        client := cl
        object := object
        controller := none
        manager := mgr
        predicates := []
        customPredicates := customPredicates
        ownsInput := _ownsInput
        reconcileHandlers := handlerFuncs
        errs := none }, none)

/-- The loop `for _, opt := range opts { err := opt(&options); if err != nil { o.errs =
errors.Join(o.errs, err) } }` of `OnCreateOrUpdate` and `OnDelete`. -/
def applyHandlerOptions :
    List HandlerOption → handlerOptions → Option GoError → handlerOptions × Option GoError
  | [], options, errs => (options, errs)
  | opt :: rest, options, errs =>
    let r := opt options
    applyHandlerOptions rest r.1 (joinIfNotNil errs r.2)

/-- Go `func (o *operator) OnCreateOrUpdate(fn reconcile.Handler, opts ...HandlerOption)`:
the operator after the call. -/
def operator.OnCreateOrUpdate {X : External} (o : operator X) (fn : Option X.Handler)
    (opts : List HandlerOption) : operator X :=
  let r := applyHandlerOptions opts ⟨some [], some []⟩ o.errs
  let options := r.1
  let defaultPredicate : Funcs := {
    CreateFunc := some (fun _ => true)
    UpdateFunc := some (fun _ => true)
    DeleteFunc := some (fun _ => false)
    GenericFunc := some (fun _ => false) }
  let m := CreateOrUpdateByMetadata options.labels options.annotations
  let errs := joinIfNotNil r.2 m.2
  let handlerPredicate :=
    Lot.Predicate.and [Lot.Predicate.funcs defaultPredicate, Lot.Predicate.ofFuncs m.1]
  { o with
    predicates := o.predicates ++ [handlerPredicate]
    errs := errs
    reconcileHandlers := { o.reconcileHandlers with CreateOrUpdateHandler := fn } }

/-- Go `func (o *operator) OnDelete(fn reconcile.Handler, opts ...HandlerOption)`: the
operator after the call. -/
def operator.OnDelete {X : External} (o : operator X) (fn : Option X.Handler)
    (opts : List HandlerOption) : operator X :=
  let r := applyHandlerOptions opts ⟨some [], some []⟩ o.errs
  let options := r.1
  let defaultPredicate : Funcs := {
    CreateFunc := some (fun _ => false)
    UpdateFunc := some (fun _ => false)
    DeleteFunc := some (fun _ => true)
    GenericFunc := some (fun _ => false) }
  let m := DeleteByMetadata options.labels options.annotations
  let errs := joinIfNotNil r.2 m.2
  let handlerPredicate :=
    Lot.Predicate.and [Lot.Predicate.funcs defaultPredicate, Lot.Predicate.ofFuncs m.1]
  { o with
    predicates := o.predicates ++ [handlerPredicate]
    errs := errs
    reconcileHandlers := { o.reconcileHandlers with DeleteHandler := fn } }

/-- Go `func (o *operator) Predicate() predicate.Predicate`. -/
def operator.Predicate {X : External} (o : operator X) : Lot.Predicate :=
  let prcts := o.customPredicates
  let prcts :=
    if o.predicates.length > 0 then prcts ++ [Lot.Predicate.or o.predicates] else prcts
  let operatorPredicate := Lot.Predicate.and prcts
  Log logfLog false [operatorPredicate]

/-! ## `pkg/reconcile/reconcile-func.go`, `operator.Build`

The reconcile function acts on a world of some type `W` (the cluster and whatever the handlers
touch).  Its run is recorded as the list of its steps: the log records written, the fetch and
the handler calls, in order. -/

/-- Go `Logger.Info(msg, keysAndValues...)`: the record handed to the log sink. -/
def Logger.InfoKV (l : Logger) (msg : String) (kvs : List (String × String)) : LogRecord :=
  ⟨l.names, l.level, msg, l.keysAndValues ++ kvs⟩

/-- The struct `reconcile.Result`; the duration `RequeueAfter` is a number. -/
structure Result where
  Requeue : Bool
  RequeueAfter : Nat
deriving DecidableEq

/-- The struct `types.NamespacedName`. -/
structure NamespacedName where
  Namespace : String
  Name : String
deriving DecidableEq

/-- Go `(NamespacedName).String()`. -/
def NamespacedName.String (n : NamespacedName) : String := n.Namespace ++ "/" ++ n.Name

/-- The struct `reconcile.Request`. -/
structure Request where
  NamespacedName : NamespacedName
deriving DecidableEq

/-- The struct `schema.GroupVersionKind`. -/
structure GroupVersionKind where
  Group : String
  Version : String
  Kind : String
deriving DecidableEq

/-- The two slots of the handler table. -/
inductive HandlerKind where
  | Delete
  | CreateOrUpdate
deriving DecidableEq

/-- One step of a run of the reconcile function: a log record written, the fetch
`cl.Get(ctx, key, o)`, or the call of a handler with an object. -/
inductive Step (X : External) where
  | log (r : LogRecord)
  | get (key : NamespacedName) (o : X.ClientObject)
  | handler (kind : HandlerKind) (h : X.Handler) (o : X.ClientObject)

/-- What a run of the reconcile function returns and does: the result, the error, the steps
taken and the world left behind. -/
structure Reconciled (X : External) (W : Type) where
  result : Result
  err : Option GoError
  steps : List (Step X)
  world : W

/-- What `builder.ControllerManagedBy(mgr).For(object, WithPredicates(p))` with the `Owns`
calls hands to the controller builder. -/
structure BuilderInput (X : External) where
  manager : X.Manager
  forObject : X.ClientObject
  forPredicate : Predicate
  owns : List (OwnsInput X)

/-- The behaviour of controller-runtime, client-go and the handlers on a world `W`, which the
reconcile function and `Build` rely on without defining it:
the scheme of a manager; whether an object is an `*unstructured.Unstructured`; a new zero
value of the type of a typed object (`reflect.New`); a new unstructured object with a
group-version-kind; `apiutil.GVKForObject`; the text a logger prints for `GetObjectKind()`;
the fetch `cl.Get`, returning its error and the object it filled; `apierrors.IsNotFound`;
the call of a handler function; `bldr.Build(reconciler)`; and `manager.Start`. -/
structure Runtime (X : External) (W : Type) where
  Scheme : Type
  GetScheme : X.Manager → Scheme
  isUnstructured : X.ClientObject → Bool
  newTyped : X.ClientObject → X.ClientObject
  newUnstructured : GroupVersionKind → X.ClientObject
  GVKForObject : X.ClientObject → Scheme → Except GoError GroupVersionKind
  kindText : X.ClientObject → String
  Get : X.Client → NamespacedName → X.ClientObject → W → Option GoError × X.ClientObject × W
  IsNotFound : GoError → Bool
  call : X.Handler → X.ClientObject → X.Client → Scheme → W → Option GoError × W
  BuildController : BuilderInput X → (Request → W → Option (Reconciled X W)) →
    Except GoError X.Controller
  StartManager : X.Manager → W → Option GoError × W

/-- Go `client.IgnoreNotFound(err)` for a non-nil error. -/
def IgnoreNotFound {X : External} {W : Type} (rt : Runtime X W) (err : GoError) :
    Option GoError :=
  if rt.IsNotFound err then none else some err

/-- Go `func copyTypedObject(object client.Object) client.Object`. -/
def copyTypedObject {X : External} {W : Type} (rt : Runtime X W) (object : X.ClientObject) :
    X.ClientObject :=
  rt.newTyped object

/-- Go `func copyUntypedObject(object client.Object, scheme *runtime.Scheme) client.Object`;
`none` is the nil object returned when the group-version-kind cannot be found. -/
def copyUntypedObject {X : External} {W : Type} (rt : Runtime X W) (object : X.ClientObject)
    (scheme : rt.Scheme) : Option X.ClientObject :=
  match rt.GVKForObject object scheme with
  | Except.error _ => none
  | Except.ok gvk => some (rt.newUnstructured gvk)

/-- The statement `switch reflect.TypeOf(obj).String() { ... }` of the reconcile function:
the object to fetch into. -/
def newObject {X : External} {W : Type} (rt : Runtime X W) (obj : X.ClientObject)
    (scheme : rt.Scheme) : Option X.ClientObject :=
  if rt.isUnstructured obj then copyUntypedObject rt obj scheme
  else some (copyTypedObject rt obj)

/-- The statement `if h != nil { if err := h(ctx, o, cl, scheme); err != nil { return ... } }`:
the error of the handler, the step taken and the world after it; nothing for a nil handler. -/
def runHandler {X : External} {W : Type} (rt : Runtime X W) (kind : HandlerKind)
    (h : Option X.Handler) (o : X.ClientObject) (cl : X.Client) (scheme : rt.Scheme) (w : W) :
    Option GoError × List (Step X) × W :=
  match h with
  | none => (none, [], w)
  | some f =>
    let r := rt.call f o cl scheme w
    (r.1, [Step.handler kind f o], r.2)

/-- Go `func WithClient(cl lot_client.Client, obj client.Object, scheme *runtime.Scheme,
fn *HandlerFuncs) Reconciler`: the reconcile function applied to a request in a world.  The
result is `none` when the new object is nil, where `o.GetObjectKind()` panics. -/
def WithClient {X : External} {W : Type} (rt : Runtime X W) (cl : X.Client)
    (obj : X.ClientObject) (scheme : rt.Scheme) (fn : HandlerFuncs X.Handler)
    (request : Request) (w : W) : Option (Reconciled X W) :=
  match newObject rt obj scheme with
  | none => none
  | some o =>
    let log := logfLog.WithName "ReconcileFunc"
    let received := Step.log ((log.V 1).InfoKV "event received for"
      [("namespaceName", request.NamespacedName.String), ("kind", rt.kindText o)])
    match rt.Get cl request.NamespacedName o w with
    | (some err, _, w1) =>
      some ⟨⟨false, 0⟩, IgnoreNotFound rt err,
        [received, Step.get request.NamespacedName o,
          Step.log (log.InfoKV "object not found"
            [("resource", request.NamespacedName.String)])], w1⟩
    | (none, o1, w1) =>
      let d := runHandler rt HandlerKind.Delete fn.DeleteHandler o1 cl scheme w1
      match d.1 with
      | some err =>
        some ⟨⟨false, 0⟩, some err,
          [received, Step.get request.NamespacedName o] ++ d.2.1, d.2.2⟩
      | none =>
        let c := runHandler rt HandlerKind.CreateOrUpdate fn.CreateOrUpdateHandler o1 cl
          scheme d.2.2
        match c.1 with
        | some err =>
          some ⟨⟨false, 0⟩, some err,
            [received, Step.get request.NamespacedName o] ++ d.2.1 ++ c.2.1, c.2.2⟩
        | none =>
          some ⟨⟨false, 0⟩, none,
            [received, Step.get request.NamespacedName o] ++ d.2.1 ++ c.2.1, c.2.2⟩

/-- Go `func (o *operator) reconcileFuncWithClient() reconcile.Reconciler`. -/
def operator.reconcileFuncWithClient {X : External} {W : Type} (rt : Runtime X W)
    (o : operator X) : Request → W → Option (Reconciled X W) :=
  let cl := o.client
  let obj := o.object
  WithClient rt cl obj (rt.GetScheme o.manager) o.reconcileHandlers

/-- Go `func (o *operator) Build() error`: the operator after the call and the error. -/
def operator.Build {X : External} {W : Type} (rt : Runtime X W) (o : operator X) :
    operator X × Option GoError :=
  let owns := if o.ownsInput.length > 0 then o.ownsInput else []
  let bldr : BuilderInput X := ⟨o.manager, o.object, o.Predicate, owns⟩
  match rt.BuildController bldr (o.reconcileFuncWithClient rt) with
  | Except.error err => (o, some err)
  | Except.ok c => ({ o with controller := some c }, none)

/-! ## `operator.Start`, `NewUntyped` -/

/-- The calls `Start` makes on the operator and its manager, in order. -/
inductive StartCall where
  | Build
  | ManagerStart
deriving DecidableEq

/-- What a call of `Start` leaves: the operator after the call, the error returned, the
calls made and the world after them. -/
structure Started (X : External) (W : Type) where
  op : operator X
  err : Option GoError
  calls : List StartCall
  world : W

/-- Go `func (o *operator) Start() error`. -/
def operator.Start {X : External} {W : Type} (rt : Runtime X W) (o : operator X) (w : W) :
    Started X W :=
  match o.errs with
  | some errs => ⟨o, some errs, [], w⟩
  | none =>
    let b := o.Build rt
    match b.2 with
    | some err => ⟨b.1, some err, [StartCall.Build], w⟩
    | none =>
      let s := rt.StartManager b.1.manager w
      match s.1 with
      | some err => ⟨b.1, some err, [StartCall.Build, StartCall.ManagerStart], s.2⟩
      | none => ⟨b.1, none, [StartCall.Build, StartCall.ManagerStart], s.2⟩

/-- Go `func NewUntyped(group, version, kind string, opts ...ConstructorOption)
(Operator, error)`. -/
def NewUntyped {X : External} {W : Type} (rt : Runtime X W) (group version kind : String)
    (opts : List (ConstructorOption X)) : Option (operator X) × Option GoError :=
  match applyConstructorOptions opts ⟨none, [], []⟩ with
  | Except.error err => (none, some err)
  | Except.ok options =>
    let _ownsInput := if options.ownsInput.length > 0 then [] ++ options.ownsInput else []
    match X.InitManager options.mgrOpts with
    | Except.error err => (none, some err)
    | Except.ok mgr =>
      let customPredicates := options.predicates
      let handlerFuncs : HandlerFuncs X.Handler := ⟨none, none⟩
      let cl := X.NewClient mgr
      let gvk : GroupVersionKind := ⟨group, version, kind⟩
      let object := rt.newUnstructured gvk
      (some {
        client := cl
        object := object
        controller := none
        manager := mgr
        predicates := []
        customPredicates := customPredicates
        ownsInput := _ownsInput
        reconcileHandlers := handlerFuncs
        errs := none }, none)

/-! ## Notions used to state the claims -/

/-- A requirement key is a well-formed qualified name: `IsQualifiedName` reports nothing. -/
def ValidKey (k : String) : Prop := validation.IsQualifiedName k = []

/-- A requirement value is a sentinel, `KeyPresent()` or `KeyAbsent()`. -/
def IsSentinel (v : String) : Prop := v = KeyPresent ∨ v = KeyAbsent

/-- A requirement value is a well-formed label value: `IsValidLabelValue` reports nothing. -/
def ValidLabelValue (v : String) : Prop := validation.IsValidLabelValue v = []

instance (k : String) : Decidable (ValidKey k) := by unfold ValidKey; infer_instance

instance (v : String) : Decidable (IsSentinel v) := by unfold IsSentinel; infer_instance

instance (v : String) : Decidable (ValidLabelValue v) := by unfold ValidLabelValue; infer_instance

/-- The entries the aggregate error is expected to hold for a requirement key: one
`field.Invalid` on field `key` when the key is not a qualified name, none otherwise. -/
def keyViolations (k : String) : List FieldError :=
  if ValidKey k then []
  else [⟨"key", k, "; ".intercalate (validation.IsQualifiedName k)⟩]

/-- The entries the aggregate error is expected to hold for a label requirement value: one
`field.Invalid` on field `values[k]` when the value is a literal that is not a well-formed
label value, none otherwise. -/
def valueViolations (k v : String) : List FieldError :=
  if IsSentinel v ∨ ValidLabelValue v then []
  else [⟨"values[" ++ k ++ "]", v, "; ".intercalate (validation.IsValidLabelValue v)⟩]

/-- A text of `n` copies of the character `c`, Go `strings.Repeat(string(c), n)`. -/
def Repeat (c : Char) (n : Nat) : String := String.mk (List.replicate n c)

/-- The characters a regular expression can read. -/
def alphabet : RegularExpression Char → List Char
  | RegularExpression.zero => []
  | RegularExpression.epsilon => []
  | RegularExpression.char a => [a]
  | RegularExpression.plus P Q => alphabet P ++ alphabet Q
  | RegularExpression.comp P Q => alphabet P ++ alphabet Q
  | RegularExpression.star P => alphabet P

/-- The name format in the words of the specification:
`[A-Za-z0-9]([-A-Za-z0-9_.]*[A-Za-z0-9])?`. -/
def specNameFmt : RegularExpression Char :=
  validation.qnameCharFmt *
    validation.opt (RegularExpression.star validation.qnameExtCharFmt * validation.qnameCharFmt)

/-- A DNS subdomain, the form required of the prefix of a qualified name. -/
def DNSSubdomain (pfx : String) : Prop := validation.IsDNS1123Subdomain pfx = []

/-- A qualified name in the words of the specification: an optional DNS-subdomain prefix
followed by `/`, then a name of 1 to 63 characters matching
`[A-Za-z0-9]([-A-Za-z0-9_.]*[A-Za-z0-9])?`. -/
def QualifiedName (k : String) : Prop :=
  ∃ name : String, 1 ≤ name.length ∧ name.length ≤ 63 ∧
    validation.MatchString specNameFmt name = true ∧
    (k = name ∨ ∃ pfx : String, DNSSubdomain pfx ∧ k = pfx ++ "/" ++ name)

/-- The conjunction of a list of decisions as `and` computes it: left to right, stopping at
the first rejection, `none` when a panic is met first. -/
def decideAnd : List (Option Bool) → Option Bool
  | [] => some true
  | none :: _ => none
  | some false :: _ => some false
  | some true :: rest => decideAnd rest

/-- The disjunction of a list of decisions as `or` computes it: left to right, stopping at
the first acceptance, `none` when a panic is met first. -/
def decideOr : List (Option Bool) → Option Bool
  | [] => some false
  | none :: _ => none
  | some true :: _ => some true
  | some false :: rest => decideOr rest

/-- One call of a registration method of the operator. -/
inductive Registration (X : External) where
  | OnCreateOrUpdate (fn : Option X.Handler) (opts : List HandlerOption)
  | OnDelete (fn : Option X.Handler) (opts : List HandlerOption)

/-- The operator after a registration call. -/
def operator.register {X : External} (o : operator X) : Registration X → operator X
  | Registration.OnCreateOrUpdate fn opts => o.OnCreateOrUpdate fn opts
  | Registration.OnDelete fn opts => o.OnDelete fn opts

/-- The handler options passed to a registration call. -/
def Registration.opts {X : External} : Registration X → List HandlerOption
  | Registration.OnCreateOrUpdate _ opts => opts
  | Registration.OnDelete _ opts => opts

/-- The registration is a call of `OnCreateOrUpdate`. -/
def Registration.isCreateOrUpdate {X : External} : Registration X → Bool
  | Registration.OnCreateOrUpdate _ _ => true
  | Registration.OnDelete _ _ => false

/-- The label and annotation requirements a registration call builds from its options,
starting from two empty maps. -/
def Registration.options {X : External} (r : Registration X) : handlerOptions :=
  (applyHandlerOptions r.opts ⟨some [], some []⟩ none).1

/-- The label and annotation options of a registration match the object: the selector built
from them matches its labels and annotations, nil maps read as empty. -/
def Registration.matchesObject {X : External} (r : Registration X) (obj : Object) : Bool :=
  (NewSelector r.options.labels r.options.annotations).1.Matches
    (orEmpty obj.Labels) (orEmpty obj.Annotations)

/-- The decision a registration is expected to take on an event: a Create-or-Update
registration accepts Create events whose object matches and Update events whose old or new
object matches; a Delete registration accepts Delete events whose object matches; nothing
else is accepted. -/
def Registration.accepts {X : External} (r : Registration X) : Event → Bool
  | Event.Create e => r.isCreateOrUpdate && r.matchesObject e.Object
  | Event.Update e =>
    r.isCreateOrUpdate && (r.matchesObject e.ObjectOld || r.matchesObject e.ObjectNew)
  | Event.Delete e => !r.isCreateOrUpdate && r.matchesObject e.Object
  | Event.Generic _ => false

/-- An environment whose types are trivial and whose manager is always built. -/
def unitExternal : External where
  Handler := Unit
  ClientObject := Unit
  ManagerOptions := Unit
  Manager := Unit
  Client := Unit
  Controller := Unit
  InitManager := fun _ => Except.ok ()
  NewClient := fun _ => ()

/-- A `predicate.Funcs` answering `b` on every event, as
`predicate.NewPredicateFuncs(func(client.Object) bool { return b })`. -/
def constFuncs (b : Bool) : Funcs :=
  ⟨some (fun _ => b), some (fun _ => b), some (fun _ => b), some (fun _ => b)⟩

/-- The operator `New` returns without options in the trivial environment. -/
def freshOperator : operator unitExternal :=
  ⟨(), (), none, (), [], [], [], ⟨none, none⟩, none⟩

/-- The operator `New` returns for the custom predicates `cs` in the trivial environment. -/
def customOperator (cs : List Predicate) : operator unitExternal :=
  ⟨(), (), none, (), [], cs, [], ⟨none, none⟩, none⟩

/-- The object of the operator tests carrying the label `labelkey: labelvalue` and the
annotation `annotationkey: annotationvalue`. -/
def testPod : Object :=
  ⟨"baz", "biz", some [("labelkey", "labelvalue")], some [("annotationkey", "annotationvalue")]⟩

/-- The object of the operator tests carrying another label and another annotation. -/
def otherPod : Object :=
  ⟨"baz", "biz", some [("otherlabelkey", "otherlabelvalue")],
    some [("otherannotationkey", "otherannotationvalue")]⟩

/-- The text `Log` records for the kind of an event. -/
def Event.action : Event → String
  | Event.Create _ => "CREATE"
  | Event.Update _ => "UPDATE"
  | Event.Delete _ => "DELETE"
  | Event.Generic _ => "GENERIC"

/-- The object whose name and namespace `Log` records: the object of the event, the new
object for an Update event. -/
def Event.loggedObject : Event → Object
  | Event.Create e => e.Object
  | Event.Update e => e.ObjectNew
  | Event.Delete e => e.Object
  | Event.Generic e => e.Object

/-- The record the wrapper of `Log log` is expected to write for an event: logger name
`EventFilter` added to those of `log`, verbosity one above that of `log`, the message, and
the event kind, object name and object namespace after the values of `log`. -/
def eventRecord (log : Logger) (msg : String) (e : Event) : LogRecord :=
  ⟨log.names ++ ["EventFilter"], log.level + 1, msg,
    log.keysAndValues ++ [("event", e.action), ("name", e.loggedObject.Name),
      ("namespace", e.loggedObject.Namespace)]⟩

/-- The records the wrapper of `Log log logIgnored` is expected to write for a decision. -/
def wrapperRecords (log : Logger) (logIgnored : Bool) (e : Event) (decision : Bool) :
    List LogRecord :=
  if decision then [eventRecord log "Event accepted" e]
  else if logIgnored then [eventRecord log "Event ignored" e]
  else []

/-- The handler calls among the steps of a run, in order: which slot, which handler function,
which object. -/
def handlerCalls {X : External} : List (Step X) → List (HandlerKind × X.Handler × X.ClientObject)
  | [] => []
  | Step.handler kind h o :: rest => (kind, h, o) :: handlerCalls rest
  | Step.log _ :: rest => handlerCalls rest
  | Step.get _ _ :: rest => handlerCalls rest

/-- An environment for examples: a handler is the message of the error it returns (`none`
for success), objects are their metadata, the other types are trivial. -/
def testExternal : External where
  Handler := Option String
  ClientObject := Object
  ManagerOptions := Unit
  Manager := Unit
  Client := Unit
  Controller := Unit
  InitManager := fun _ => Except.ok ()
  NewClient := fun _ => ()

/-- A runtime for examples on a world that is the list of stored objects: the fetch fails
with `resource name may not be empty` for an empty name, with the not-found error `not found`
for a missing object, and otherwise returns the stored object; a handler returns its error;
building the controller succeeds. -/
def testRuntime : Runtime testExternal (List Object) where
  Scheme := Unit
  GetScheme := fun _ => ()
  isUnstructured := fun _ => false
  newTyped := fun _ => ⟨"", "", none, none⟩
  newUnstructured := fun _ => ⟨"", "", none, none⟩
  GVKForObject := fun _ _ => Except.ok ⟨"", "v1", "Pod"⟩
  kindText := fun _ => "Pod"
  Get := fun _ key o w =>
    if key.Name = "" then (some (GoError.errorString "resource name may not be empty"), o, w)
    else match w.find? (fun x => x.Name == key.Name && x.Namespace == key.Namespace) with
      | some x => (none, x, w)
      | none => (some (GoError.errorString "not found"), o, w)
  IsNotFound := fun err =>
    match err with
    | GoError.errorString msg => msg == "not found"
    | _ => false
  call := fun h _ _ _ w => (Option.map GoError.errorString h, w)
  BuildController := fun _ _ => Except.ok ()
  StartManager := fun _ w => (none, w)

/-- The operator `New` returns without options in the environment for examples, tracking
an object without metadata. -/
def testOperator : operator testExternal :=
  ⟨(), ⟨"", "", none, none⟩, none, (), [], [], [], ⟨none, none⟩, none⟩

/-- A predicate writes no log record of its own, on any event. -/
def Silent (p : Predicate) : Prop := ∀ e : Event, (p.eval e).records = []

/-- Go `delete(m, k)` on the entries of an allocated map. -/
def delete : List (String × String) → String → List (String × String)
  | [], _ => []
  | (k', v) :: rest, k => if k' = k then delete rest k else (k', v) :: delete rest k

/-- One call of a handler option of the package: `WithLabels(m)` or `WithAnnotations(m)`.
The struct `handlerOptions` and its fields are unexported, so these are the handler options
calling code can build. -/
inductive HandlerCall where
  | WithLabels (labels : StringMap)
  | WithAnnotations (annotations : StringMap)

/-- The handler option of a call. -/
def HandlerCall.option : HandlerCall → HandlerOption
  | HandlerCall.WithLabels m => Lot.WithLabels m
  | HandlerCall.WithAnnotations m => Lot.WithAnnotations m

/-- One call of a constructor option of the package: `WithCustomPredicate(p)`,
`WithManagerOptions(m)` or `WithOwns(object, filter)`.  The struct `constructorOptions` and
its fields are unexported, so these are the constructor options calling code can build. -/
inductive ConstructorCall (X : External) where
  | WithCustomPredicate (prct : Predicate)
  | WithManagerOptions (mgrOpts : Option X.ManagerOptions)
  | WithOwns (object : X.ClientObject) (filter : Predicate)

/-- The constructor option of a call. -/
def ConstructorCall.option {X : External} : ConstructorCall X → ConstructorOption X
  | ConstructorCall.WithCustomPredicate p => Lot.WithCustomPredicate p
  | ConstructorCall.WithManagerOptions m => Lot.WithManagerOptions m
  | ConstructorCall.WithOwns object filter => Lot.WithOwns object filter

/-- An error contains a target error: it is the target, or it is a `joinError` one of whose
members contains the target (the tree `errors.Is` and `errors.As` walk through
`Unwrap() []error`). -/
inductive GoError.Contains : GoError → GoError → Prop where
  | self (e : GoError) : GoError.Contains e e
  | member (errs : List GoError) (e target : GoError) (hmem : e ∈ errs)
      (h : GoError.Contains e target) : GoError.Contains (GoError.joinError errs) target

/-- The error the options of a registration call return themselves, joined. -/
def Registration.optionError {X : External} (r : Registration X) : Option GoError :=
  (applyHandlerOptions r.opts ⟨some [], some []⟩ none).2

/-- The validation error of a registration call: the error of the selector built from the
label and annotation maps of its options. -/
def Registration.selectorError {X : External} (r : Registration X) : Option GoError :=
  (NewSelector r.options.labels r.options.annotations).2

/-- The predicate returns on the event and accepts it. -/
def Predicate.accepts (p : Predicate) (e : Event) : Bool :=
  match (p.eval e).decision with
  | some true => true
  | _ => false

/-! ## Lemmas on `matches` -/

theorem matchesLoop_iff (d s : List (String × String)) :
    matchesLoop d s = true ↔ ∀ k v, (k, v) ∈ s → Satisfied d k v := by
  induction s with
  | nil => simp [matchesLoop]
  | cons p rest ih =>
    obtain ⟨k, v⟩ := p
    have hhead : (∀ k' v', (k', v') ∈ (k, v) :: rest → Satisfied d k' v') ↔
        (Satisfied d k v ∧ ∀ k' v', (k', v') ∈ rest → Satisfied d k' v') := by
      constructor
      · intro h
        exact ⟨h k v (List.mem_cons_self _ _), fun k' v' hm => h k' v' (List.mem_cons_of_mem _ hm)⟩
      · rintro ⟨h1, h2⟩ k' v' hm
        rcases List.mem_cons.mp hm with heq | hm
        · cases heq; exact h1
        · exact h2 k' v' hm
    rw [hhead, ← ih, matchesLoop]
    unfold Satisfied
    by_cases ha : v = KeyAbsent
    · simp only [ha, if_true]
      cases hg : get? d k <;> simp
    · by_cases hp : v = KeyPresent
      · simp only [ha, hp, if_true, if_false]
        cases hg : get? d k <;> simp
      · simp only [ha, hp, if_false]
        cases hg : get? d k with
        | none => simp
        | some val =>
          by_cases hv : v = val
          · simp [hv]
          · have hv' : ¬ val = v := fun h => hv h.symm
            simp [hv, hv']

theorem matches_some_iff (d s : List (String × String)) :
    «matches» (some d) (some s) = true ↔ ∀ k v, (k, v) ∈ s → Satisfied d k v := by
  unfold «matches»
  cases s with
  | nil => simp
  | cons p rest => simp [matchesLoop_iff]

theorem matches_nil_sel (data : StringMap) : «matches» data none = false := by
  cases data <;> rfl

theorem matches_nil_data (sel : StringMap) : «matches» none sel = false := by
  cases sel <;> rfl

/-! ## Claims on `matches` and the selector methods -/

/-- C1: for a non-nil requirement map and a non-nil data map, `matches` (hence `MatchesLabels`
and `MatchesAnnotations` of a selector built from the requirements) is true exactly when every
requirement entry is satisfied: `KeyAbsent()` by a missing key, `KeyPresent()` by an existing
key with any value, any other value by an existing key holding exactly that value
(case-sensitive).  The presence and absence examples of the specification evaluate
accordingly. -/
theorem C1_matches_iff_every_requirement_satisfied
    (d sel : List (String × String)) (other : StringMap) :
    («matches» (some d) (some sel) = true ↔
      ∀ k v, (k, v) ∈ sel →
        if v = KeyAbsent then get? d k = none
        else if v = KeyPresent then ∃ val, get? d k = some val
        else get? d k = some v) ∧
    ((NewSelector (some sel) other).1.MatchesLabels (some d) = «matches» (some d) (some sel)) ∧
    ((NewSelector other (some sel)).1.MatchesAnnotations (some d) = «matches» (some d) (some sel)) ∧
    «matches» (some [("k", "v")]) (some [("k", KeyPresent)]) = true ∧
    «matches» (some [("other", "v")]) (some [("k", KeyPresent)]) = false ∧
    «matches» (some [("other", "v")]) (some [("k", KeyAbsent)]) = true ∧
    «matches» (some [("k", "v")]) (some [("k", KeyAbsent)]) = false ∧
    «matches» (some [("k", "v")]) (some [("k", "v")]) = true ∧
    «matches» (some [("k", "V")]) (some [("k", "v")]) = false :=
  ⟨matches_some_iff d sel, rfl, rfl, by decide, by decide, by decide, by decide, by decide,
    by decide⟩

/-- C2: a selector constructed with nil label requirements never matches any label map (nil,
empty or non-empty); likewise for nil annotation requirements; and `Matches` is then false for
all label and annotation maps. -/
theorem C2_nil_requirements_match_nothing (other x l a : StringMap) :
    (NewSelector none other).1.MatchesLabels x = false ∧
    (NewSelector other none).1.MatchesAnnotations x = false ∧
    (NewSelector none other).1.Matches l a = false ∧
    (NewSelector other none).1.Matches l a = false := by
  refine ⟨matches_nil_sel x, matches_nil_sel x, ?_, ?_⟩
  · show («matches» l none && «matches» a other) = false
    rw [matches_nil_sel]; rfl
  · show («matches» l other && «matches» a none) = false
    rw [matches_nil_sel a]; simp

/-- C3: a selector constructed with an empty, non-nil label requirement map matches every
non-nil label map (the empty map included) and does not match the nil map; the same holds for
annotations. -/
theorem C3_empty_requirements_match_every_non_nil_map
    (other : StringMap) (x : List (String × String)) :
    (NewSelector (some []) other).1.MatchesLabels (some x) = true ∧
    (NewSelector (some []) other).1.MatchesLabels (some []) = true ∧
    (NewSelector (some []) other).1.MatchesLabels none = false ∧
    (NewSelector other (some [])).1.MatchesAnnotations (some x) = true ∧
    (NewSelector other (some [])).1.MatchesAnnotations (some []) = true ∧
    (NewSelector other (some [])).1.MatchesAnnotations none = false :=
  ⟨rfl, rfl, rfl, rfl, rfl, rfl⟩

/-- C4: for every selector and all label and annotation maps, nil or not, `Matches` is the
conjunction of `MatchesLabels` and `MatchesAnnotations`; it is true exactly when both sides
are, so it is false as soon as either side fails. -/
theorem C4_Matches_is_conjunction (s : selector) (labels annotations : StringMap) :
    s.Matches labels annotations = (s.MatchesLabels labels && s.MatchesAnnotations annotations) ∧
    (s.Matches labels annotations = false ↔
      (s.MatchesLabels labels = false ∨ s.MatchesAnnotations annotations = false)) := by
  refine ⟨rfl, ?_⟩
  unfold selector.Matches
  cases s.MatchesLabels labels <;> cases s.MatchesAnnotations annotations <;> simp

/-! ## Lemmas on `NewSelector` -/

theorem key_path_String : (ToPath.Child "key").String = "key" := by decide

theorem values_path_String (k : String) :
    ((ToPath.Child "values").Key k).String = "values[" ++ k ++ "]" := by
  simp only [Path.String, Path.Key, Path.Child, ToPath, Path.render]
  apply String.ext
  simp [String.data_append]
  rfl

theorem validateKey_toList (k : String) :
    (validateKey k (ToPath.Child "key")).toList = keyViolations k := by
  unfold validateKey keyViolations ValidKey Invalid
  rw [key_path_String]
  by_cases h : validation.IsQualifiedName k = [] <;> simp [h]

theorem validateLabelValue_toList (k v : String) (hv : ¬ IsSentinel v) :
    (validateLabelValue k v (ToPath.Child "values")).toList = valueViolations k v := by
  unfold validateLabelValue valueViolations ValidLabelValue Invalid
  rw [values_path_String]
  by_cases h : validation.IsValidLabelValue v = [] <;> simp [h, hv]

theorem errorEntries_joinIfErr (acc : Option GoError) (err : Option FieldError) :
    errorEntries (joinIfErr acc err) = errorEntries acc ++ err.toList := by
  cases err with
  | none => simp [joinIfErr]
  | some e =>
    cases acc <;>
      simp [joinIfErr, errorsJoin, errorEntries, GoError.fieldErrors, fieldErrorsList]

theorem joinIfErr_eq_none (acc : Option GoError) (err : Option FieldError) :
    joinIfErr acc err = none ↔ acc = none ∧ err = none := by
  cases err with
  | none => simp [joinIfErr]
  | some e => cases acc <;> simp [joinIfErr, errorsJoin]

theorem keyViolations_eq_nil (k : String) : keyViolations k = [] ↔ ValidKey k := by
  unfold keyViolations
  by_cases h : ValidKey k <;> simp [h]

theorem valueViolations_eq_nil (k v : String) :
    valueViolations k v = [] ↔ (IsSentinel v ∨ ValidLabelValue v) := by
  unfold valueViolations
  by_cases h : IsSentinel v ∨ ValidLabelValue v <;> simp [h]

theorem valueViolations_sentinel (k v : String) (hv : IsSentinel v) :
    valueViolations k v = [] := (valueViolations_eq_nil k v).mpr (Or.inl hv)

theorem toList_eq_nil {α : Type} (o : Option α) : o.toList = [] ↔ o = none := by
  cases o <;> simp

theorem errorEntries_validateLabels (es : List (String × String)) (acc : Option GoError) :
    errorEntries (validateLabels es acc) =
      errorEntries acc ++ es.flatMap (fun e => keyViolations e.1 ++ valueViolations e.1 e.2) := by
  induction es generalizing acc with
  | nil => simp [validateLabels]
  | cons p rest ih =>
    obtain ⟨k, v⟩ := p
    rw [validateLabels]
    by_cases hv : v = KeyPresent ∨ v = KeyAbsent
    · simp only [hv, if_true]
      rw [ih, errorEntries_joinIfErr, validateKey_toList]
      simp [valueViolations_sentinel k v hv]
    · simp only [hv, if_false]
      rw [ih, errorEntries_joinIfErr, errorEntries_joinIfErr, validateKey_toList,
        validateLabelValue_toList k v hv]
      simp

theorem errorEntries_validateAnnotations (es : List (String × String)) (acc : Option GoError) :
    errorEntries (validateAnnotations es acc) =
      errorEntries acc ++ es.flatMap (fun e => keyViolations e.1) := by
  induction es generalizing acc with
  | nil => simp [validateAnnotations]
  | cons p rest ih =>
    obtain ⟨k, v⟩ := p
    rw [validateAnnotations]
    rw [ih, errorEntries_joinIfErr, validateKey_toList]
    simp

theorem validateLabels_eq_none (es : List (String × String)) (acc : Option GoError) :
    validateLabels es acc = none ↔
      acc = none ∧ ∀ e ∈ es, ValidKey e.1 ∧ (IsSentinel e.2 ∨ ValidLabelValue e.2) := by
  induction es generalizing acc with
  | nil => simp [validateLabels]
  | cons p rest ih =>
    obtain ⟨k, v⟩ := p
    rw [validateLabels]
    by_cases hv : v = KeyPresent ∨ v = KeyAbsent
    · simp only [hv, if_true]
      rw [ih, joinIfErr_eq_none, ← toList_eq_nil (validateKey _ _), validateKey_toList,
        keyViolations_eq_nil]
      have hs : IsSentinel v := hv
      simp [hs, and_assoc]
    · simp only [hv, if_false]
      rw [ih, joinIfErr_eq_none, joinIfErr_eq_none, ← toList_eq_nil (validateKey _ _),
        ← toList_eq_nil (validateLabelValue _ _ _), validateKey_toList,
        validateLabelValue_toList k v hv, keyViolations_eq_nil, valueViolations_eq_nil]
      simp [and_assoc]

theorem validateAnnotations_eq_none (es : List (String × String)) (acc : Option GoError) :
    validateAnnotations es acc = none ↔ acc = none ∧ ∀ e ∈ es, ValidKey e.1 := by
  induction es generalizing acc with
  | nil => simp [validateAnnotations]
  | cons p rest ih =>
    obtain ⟨k, v⟩ := p
    rw [validateAnnotations]
    rw [ih, joinIfErr_eq_none, ← toList_eq_nil (validateKey _ _), validateKey_toList,
      keyViolations_eq_nil]
    simp [and_assoc]

theorem NewSelector_eq_none (labels annotations : StringMap) :
    (NewSelector labels annotations).2 = none ↔
      (∀ e ∈ entries labels, ValidKey e.1 ∧ (IsSentinel e.2 ∨ ValidLabelValue e.2)) ∧
      (∀ e ∈ entries annotations, ValidKey e.1) := by
  unfold NewSelector
  simp only []
  rw [validateAnnotations_eq_none, validateLabels_eq_none]
  simp

theorem length_le_utf8ByteSize (l : List Char) : l.length ≤ (String.mk l).utf8ByteSize := by
  induction l with
  | nil => simp [String.utf8ByteSize, String.utf8ByteSize.go]
  | cons c cs ih =>
    have hc : 0 < c.utf8Size := Char.utf8Size_pos c
    simp only [String.utf8ByteSize, String.utf8ByteSize.go, List.length_cons] at ih ⊢
    omega

theorem Repeat_64_not_ValidLabelValue (c : Char) : ¬ ValidLabelValue (Repeat c 64) := by
  unfold ValidLabelValue validation.IsValidLabelValue
  have h := length_le_utf8ByteSize (List.replicate 64 c)
  rw [List.length_replicate] at h
  have h2 : (Repeat c 64).utf8ByteSize > validation.LabelValueMaxLength := by
    unfold validation.LabelValueMaxLength Repeat
    omega
  simp [h2]

theorem length_flatMap_keyViolations (es : List (String × String)) :
    (es.flatMap (fun e => keyViolations e.1)).length =
      es.countP (fun e => !decide (ValidKey e.1)) := by
  induction es with
  | nil => simp
  | cons p rest ih =>
    rw [List.flatMap_cons, List.length_append, ih, List.countP_cons]
    unfold keyViolations
    by_cases h : ValidKey p.1
    · simp [h]
    · simp [h]; omega

theorem length_flatMap_labelViolations (es : List (String × String)) :
    (es.flatMap (fun e => keyViolations e.1 ++ valueViolations e.1 e.2)).length =
      es.countP (fun e => !decide (ValidKey e.1)) +
      es.countP (fun e => !decide (IsSentinel e.2) && !decide (ValidLabelValue e.2)) := by
  induction es with
  | nil => simp
  | cons p rest ih =>
    rw [List.flatMap_cons, List.length_append, ih, List.countP_cons, List.countP_cons]
    unfold keyViolations valueViolations
    by_cases h : ValidKey p.1 <;> by_cases h1 : IsSentinel p.2 <;>
      by_cases h2 : ValidLabelValue p.2 <;> simp [h, h1, h2] <;> omega

/-! ## Claims on `NewSelector` -/

/-- C5: `NewSelector` returns a non-nil error if and only if some label key is not a
well-formed qualified name, or some annotation key is not a well-formed qualified name, or
some label value that is neither `KeyPresent()` nor `KeyAbsent()` is not a well-formed label
value; a value of 64 repeated characters is such a value; and a sentinel label value under a
valid key is accepted. -/
theorem C5_NewSelector_error_iff_violation (labels annotations : StringMap) :
    ((NewSelector labels annotations).2 ≠ none ↔
      ((∃ e ∈ entries labels, ¬ ValidKey e.1) ∨
       (∃ e ∈ entries annotations, ¬ ValidKey e.1) ∨
       (∃ e ∈ entries labels,
          e.2 ≠ KeyPresent ∧ e.2 ≠ KeyAbsent ∧ ¬ ValidLabelValue e.2))) ∧
    (∀ c : Char, ¬ ValidLabelValue (Repeat c 64)) ∧
    (∀ k : String, ValidKey k →
      (NewSelector (some [(k, KeyPresent)]) annotations).2 = (NewSelector (some []) annotations).2 ∧
      (NewSelector (some [(k, KeyAbsent)]) annotations).2 = (NewSelector (some []) annotations).2 ∧
      (NewSelector (some [(k, KeyPresent)]) (some [])).2 = none ∧
      (NewSelector (some [(k, KeyAbsent)]) (some [])).2 = none) := by
  refine ⟨?_, Repeat_64_not_ValidLabelValue, ?_⟩
  · rw [Ne, NewSelector_eq_none]
    unfold IsSentinel
    constructor
    · intro h
      by_contra hc
      push_neg at hc
      apply h
      refine ⟨fun e he => ⟨hc.1 e he, ?_⟩, hc.2.1⟩
      by_cases hp : e.2 = KeyPresent
      · exact Or.inl (Or.inl hp)
      · by_cases ha : e.2 = KeyAbsent
        · exact Or.inl (Or.inr ha)
        · exact Or.inr (hc.2.2 e he hp ha)
    · rintro (⟨e, he, hk⟩ | ⟨e, he, hk⟩ | ⟨e, he, hp, ha, hv⟩) ⟨h1, h2⟩
      · exact hk (h1 e he).1
      · exact hk (h2 e he)
      · rcases (h1 e he).2 with (h | h) | h
        · exact hp h
        · exact ha h
        · exact hv h
  · intro k hk
    have hkey : validateKey k (ToPath.Child "key") = none := by
      rw [← toList_eq_nil, validateKey_toList, keyViolations_eq_nil]; exact hk
    refine ⟨?_, ?_, ?_, ?_⟩
    · simp [NewSelector, entries, validateLabels, hkey, joinIfErr]
    · simp [NewSelector, entries, validateLabels, hkey, joinIfErr]
    · rw [NewSelector_eq_none]
      simp [entries, hk, IsSentinel]
    · rw [NewSelector_eq_none]
      simp [entries, hk, IsSentinel]

/-- C6: `NewSelector` is not fail-fast.  For every input the aggregate error holds, in
iteration order, one entry for each invalid label key, one for each invalid literal
(non-sentinel) label value and one for each invalid annotation key, and nothing else; so their
number is the sum of the three counts, and a label entry whose key and literal value are both
invalid contributes two entries. -/
theorem C6_NewSelector_reports_every_violation (labels annotations : StringMap) :
    errorEntries (NewSelector labels annotations).2 =
      (entries labels).flatMap (fun e => keyViolations e.1 ++ valueViolations e.1 e.2) ++
      (entries annotations).flatMap (fun e => keyViolations e.1) ∧
    (errorEntries (NewSelector labels annotations).2).length =
      (entries labels).countP (fun e => !decide (ValidKey e.1)) +
      (entries labels).countP
        (fun e => !decide (IsSentinel e.2) && !decide (ValidLabelValue e.2)) +
      (entries annotations).countP (fun e => !decide (ValidKey e.1)) ∧
    (∀ k v : String, ¬ ValidKey k → ¬ IsSentinel v → ¬ ValidLabelValue v →
      (keyViolations k ++ valueViolations k v).length = 2) := by
  have h : errorEntries (NewSelector labels annotations).2 =
      (entries labels).flatMap (fun e => keyViolations e.1 ++ valueViolations e.1 e.2) ++
      (entries annotations).flatMap (fun e => keyViolations e.1) := by
    unfold NewSelector
    simp only []
    rw [errorEntries_validateAnnotations, errorEntries_validateLabels]
    simp [errorEntries]
  refine ⟨h, ?_, ?_⟩
  · rw [h, List.length_append, length_flatMap_labelViolations, length_flatMap_keyViolations]
  · intro k v hk hs hv
    simp [keyViolations, valueViolations, hk, hs, hv]

/-- C8: annotation requirement values are never validated: whenever the label requirements
are valid and every annotation key is a well-formed qualified name, `NewSelector` returns no
error, whatever the annotation values are. -/
theorem C8_annotation_values_not_validated (labels annotations : StringMap)
    (hl : ∀ e ∈ entries labels, ValidKey e.1 ∧ (IsSentinel e.2 ∨ ValidLabelValue e.2))
    (ha : ∀ e ∈ entries annotations, ValidKey e.1) :
    (NewSelector labels annotations).2 = none :=
  (NewSelector_eq_none labels annotations).mpr ⟨hl, ha⟩

set_option maxRecDepth 100000 in
/-- Witness for C8: annotation values that are invalid label values (special characters, 64
repeated characters) under valid keys are accepted. -/
theorem C8_annotation_values_not_validated_witness :
    (∀ e ∈ entries (some [("key", "value")]),
      ValidKey e.1 ∧ (IsSentinel e.2 ∨ ValidLabelValue e.2)) ∧
    (∀ e ∈ entries (some [("key", "nospecialchars%^=@"), ("other", Repeat 'a' 64)]),
      ValidKey e.1) ∧
    ¬ ValidLabelValue "nospecialchars%^=@" ∧ ¬ ValidLabelValue (Repeat 'a' 64) ∧
    (NewSelector (some [("key", "value")])
      (some [("key", "nospecialchars%^=@"), ("other", Repeat 'a' 64)])).2 = none :=
  ⟨by decide, by decide, by decide, by decide,
    C8_annotation_values_not_validated (some [("key", "value")])
      (some [("key", "nospecialchars%^=@"), ("other", Repeat 'a' 64)])
      (by decide) (by decide)⟩

open RegularExpression in
theorem mem_alphabet_of_matches (r : RegularExpression Char) :
    ∀ w : List Char, w ∈ r.matches' → ∀ c ∈ w, c ∈ alphabet r := by
  induction r with
  | zero => intro w hw; exact absurd hw (by simp [matches'])
  | epsilon =>
    intro w hw c hc
    have : w = [] := hw
    subst this; simp at hc
  | char a =>
    intro w hw c hc
    have : w = [a] := hw
    subst this; simpa [alphabet] using hc
  | plus P Q ihP ihQ =>
    intro w hw c hc
    rcases hw with h | h
    · exact List.mem_append_left _ (ihP w h c hc)
    · exact List.mem_append_right _ (ihQ w h c hc)
  | comp P Q ihP ihQ =>
    intro w hw c hc
    obtain ⟨a, ha, b, hb, rfl⟩ := Language.mem_mul.mp hw
    rcases List.mem_append.mp hc with h | h
    · exact List.mem_append_left _ (ihP a ha c h)
    · exact List.mem_append_right _ (ihQ b hb c h)
  | star P ih =>
    intro w hw c hc
    obtain ⟨L, rfl, hL⟩ := Language.mem_kstar.mp hw
    obtain ⟨y, hy, hcy⟩ := List.mem_flatten.mp hc
    exact ih y (hL y hy) c hcy

theorem qualifiedNameFmt_matches_eq :
    validation.qualifiedNameFmt.matches' = specNameFmt.matches' := by
  simp only [validation.qualifiedNameFmt, specNameFmt, validation.opt,
    RegularExpression.matches'_mul, RegularExpression.matches'_add,
    RegularExpression.matches'_epsilon, RegularExpression.matches'_star]
  simp only [add_mul, mul_add, one_mul, mul_one, mul_assoc]

theorem MatchString_qualifiedNameFmt (s : String) :
    validation.MatchString validation.qualifiedNameFmt s = validation.MatchString specNameFmt s := by
  unfold validation.MatchString
  have h1 := RegularExpression.rmatch_iff_matches' validation.qualifiedNameFmt s.data
  have h2 := RegularExpression.rmatch_iff_matches' specNameFmt s.data
  rw [qualifiedNameFmt_matches_eq] at h1
  rw [Bool.eq_iff_iff, h1, h2]

set_option maxRecDepth 100000 in
theorem slash_not_mem_alphabet_qualifiedNameFmt : '/' ∉ alphabet validation.qualifiedNameFmt := by
  decide

set_option maxRecDepth 100000 in
theorem slash_not_mem_alphabet_dns : '/' ∉ alphabet validation.dns1123SubdomainFmt := by
  decide

set_option maxRecDepth 100000 in
theorem utf8Size_alphabet_qualifiedNameFmt :
    ∀ c ∈ alphabet validation.qualifiedNameFmt, c.utf8Size = 1 := by
  decide


theorem splitChars_ne_nil (sep : Char) (w : List Char) : validation.splitChars sep w ≠ [] := by
  cases w with
  | nil => simp [validation.splitChars]
  | cons c cs =>
    rw [validation.splitChars]
    by_cases h : c = sep
    · simp [h]
    · simp only [h, if_false]
      cases validation.splitChars sep cs <;> simp

theorem splitChars_of_not_mem (sep : Char) (w : List Char) (h : sep ∉ w) :
    validation.splitChars sep w = [w] := by
  induction w with
  | nil => rfl
  | cons c cs ih =>
    have hc : ¬ c = sep := fun e => h (by simp [e])
    have hcs : sep ∉ cs := fun e => h (List.mem_cons_of_mem _ e)
    rw [validation.splitChars, ih hcs]
    simp [hc]

theorem splitChars_append (sep : Char) (p n : List Char) (h : sep ∉ p) :
    validation.splitChars sep (p ++ sep :: n) = p :: validation.splitChars sep n := by
  induction p with
  | nil => simp [validation.splitChars]
  | cons c cs ih =>
    have hc : ¬ c = sep := fun e => h (by simp [e])
    have hcs : sep ∉ cs := fun e => h (List.mem_cons_of_mem _ e)
    rw [List.cons_append, validation.splitChars, ih hcs]
    simp [hc]

theorem splitChars_eq_singleton (sep : Char) (w a : List Char)
    (h : validation.splitChars sep w = [a]) : w = a := by
  induction w generalizing a with
  | nil => simpa [validation.splitChars] using h
  | cons c cs ih =>
    rw [validation.splitChars] at h
    by_cases hc : c = sep
    · simp only [hc, if_true] at h
      have := splitChars_ne_nil sep cs
      simp_all
    · simp only [hc, if_false] at h
      cases hs : validation.splitChars sep cs with
      | nil => exact absurd hs (splitChars_ne_nil sep cs)
      | cons p ps =>
        rw [hs] at h
        simp only [List.cons.injEq] at h
        obtain ⟨rfl, rfl⟩ := h
        rw [ih p hs]

theorem splitChars_eq_pair (sep : Char) (w a b : List Char)
    (h : validation.splitChars sep w = [a, b]) : w = a ++ sep :: b := by
  induction w generalizing a with
  | nil => simp [validation.splitChars] at h
  | cons c cs ih =>
    rw [validation.splitChars] at h
    by_cases hc : c = sep
    · simp only [hc, if_true, List.cons.injEq] at h
      obtain ⟨rfl, h⟩ := h
      rw [splitChars_eq_singleton sep cs b h, hc]
      rfl
    · simp only [hc, if_false] at h
      cases hs : validation.splitChars sep cs with
      | nil => exact absurd hs (splitChars_ne_nil sep cs)
      | cons p ps =>
        rw [hs] at h
        simp only [List.cons.injEq] at h
        obtain ⟨rfl, rfl⟩ := h
        rw [ih p hs]
        rfl

theorem utf8ByteSize_eq_length (l : List Char) (h : ∀ c ∈ l, c.utf8Size = 1) :
    (String.mk l).utf8ByteSize = l.length := by
  induction l with
  | nil => simp [String.utf8ByteSize, String.utf8ByteSize.go]
  | cons c cs ih =>
    have hc : c.utf8Size = 1 := h c (List.mem_cons_self _ _)
    have ih' := ih (fun d hd => h d (List.mem_cons_of_mem _ hd))
    simp only [String.utf8ByteSize, String.utf8ByteSize.go, List.length_cons] at ih' ⊢
    omega

theorem mem_alphabet_of_MatchString (r : RegularExpression Char) (s : String)
    (h : validation.MatchString r s = true) : ∀ c ∈ s.data, c ∈ alphabet r :=
  mem_alphabet_of_matches r s.data ((RegularExpression.rmatch_iff_matches' r s.data).mp h)

theorem nameErrs_eq_nil (name : String) :
    validation.nameErrs name = [] ↔
      1 ≤ name.length ∧ name.length ≤ 63 ∧ validation.MatchString specNameFmt name = true := by
  unfold validation.nameErrs
  rw [MatchString_qualifiedNameFmt]
  by_cases hm : validation.MatchString specNameFmt name = true
  · have hm' : validation.MatchString validation.qualifiedNameFmt name = true := by
      rw [MatchString_qualifiedNameFmt]; exact hm
    have hsize : name.utf8ByteSize = name.length :=
      utf8ByteSize_eq_length name.data (fun c hc =>
        utf8Size_alphabet_qualifiedNameFmt c (mem_alphabet_of_MatchString _ name hm' c hc))
    rw [hsize]
    simp only [hm, validation.qualifiedNameMaxLength]
    by_cases h0 : name.length = 0
    · simp [h0]
    · by_cases h63 : name.length > 63
      · simp [h0, h63]
      · simp [h0, h63]; omega
  · simp [hm]


theorem DNSSubdomain_MatchString (pfx : String) (h : DNSSubdomain pfx) :
    validation.MatchString validation.dns1123SubdomainFmt pfx = true := by
  unfold DNSSubdomain validation.IsDNS1123Subdomain at h
  by_cases hm : validation.MatchString validation.dns1123SubdomainFmt pfx = true
  · exact hm
  · simp [hm] at h

set_option maxRecDepth 100000 in
theorem DNSSubdomain_ne_empty (pfx : String) (h : DNSSubdomain pfx) : pfx.data ≠ [] := by
  intro he
  have hm := DNSSubdomain_MatchString pfx h
  unfold validation.MatchString at hm
  rw [he] at hm
  revert hm
  decide

theorem utf8ByteSize_ne_zero (s : String) (h : s.data ≠ []) : s.utf8ByteSize ≠ 0 := by
  have h1 := length_le_utf8ByteSize s.data
  have h2 : 0 < s.data.length := List.length_pos.mpr h
  have h3 : (String.mk s.data).utf8ByteSize = s.utf8ByteSize := rfl
  omega

theorem slash_not_mem_name (name : String)
    (h : validation.MatchString specNameFmt name = true) : '/' ∉ name.data := by
  intro hc
  rw [← MatchString_qualifiedNameFmt] at h
  exact slash_not_mem_alphabet_qualifiedNameFmt (mem_alphabet_of_MatchString _ name h _ hc)

theorem slash_not_mem_DNSSubdomain (pfx : String) (h : DNSSubdomain pfx) : '/' ∉ pfx.data := by
  intro hc
  exact slash_not_mem_alphabet_dns
    (mem_alphabet_of_MatchString _ pfx (DNSSubdomain_MatchString pfx h) _ hc)

theorem ValidKey_iff_QualifiedName (k : String) : ValidKey k ↔ QualifiedName k := by
  unfold ValidKey validation.IsQualifiedName validation.Split QualifiedName
  constructor
  · intro h
    cases hs : validation.splitChars '/' k.data with
    | nil => exact absurd hs (splitChars_ne_nil _ _)
    | cons a rest =>
      rw [hs] at h
      cases rest with
      | nil =>
        have hk : k.data = a := splitChars_eq_singleton _ _ _ hs
        obtain ⟨h1, h2, h3⟩ := (nameErrs_eq_nil _).mp h
        exact ⟨String.mk a, h1, h2, h3, Or.inl (String.ext hk)⟩
      | cons b rest2 =>
        cases rest2 with
        | nil =>
          have hk : k.data = a ++ '/' :: b := splitChars_eq_pair _ _ _ _ hs
          simp only [List.map, List.append_eq_nil] at h
          obtain ⟨hp, hn⟩ := h
          obtain ⟨h1, h2, h3⟩ := (nameErrs_eq_nil _).mp hn
          refine ⟨String.mk b, h1, h2, h3, Or.inr ⟨String.mk a, ?_, ?_⟩⟩
          · unfold DNSSubdomain
            by_cases h0 : (String.mk a).utf8ByteSize = 0
            · rw [if_pos h0] at hp
              exact absurd hp (by simp)
            · rw [if_neg h0] at hp
              unfold validation.prefixEach at hp
              exact List.map_eq_nil_iff.mp hp
          · apply String.ext
            simp [String.data_append, hk]
        | cons c rest3 => simp at h
  · rintro ⟨name, h1, h2, h3, hk | ⟨pfx, hp, hk⟩⟩
    · subst hk
      rw [splitChars_of_not_mem _ _ (slash_not_mem_name k h3)]
      exact (nameErrs_eq_nil k).mpr ⟨h1, h2, h3⟩
    · have hd : k.data = pfx.data ++ '/' :: name.data := by
        rw [hk]; simp [String.data_append]
      rw [hd, splitChars_append _ _ _ (slash_not_mem_DNSSubdomain pfx hp),
        splitChars_of_not_mem _ _ (slash_not_mem_name name h3)]
      have h0 : pfx.utf8ByteSize ≠ 0 := utf8ByteSize_ne_zero pfx (DNSSubdomain_ne_empty pfx hp)
      have hn := (nameErrs_eq_nil name).mpr ⟨h1, h2, h3⟩
      unfold DNSSubdomain at hp
      simp only [List.map, List.append_eq_nil]
      rw [if_neg h0]
      exact ⟨by rw [hp]; rfl, hn⟩


set_option maxRecDepth 100000 in
theorem value_ValidLabelValue : ValidLabelValue "value" := by decide

set_option maxRecDepth 100000 in
theorem Repeat_64_not_ValidKey (c : Char) : ¬ ValidKey (Repeat c 64) := by
  by_cases hc : c = '/'
  · subst hc
    decide
  · unfold ValidKey validation.IsQualifiedName validation.Split
    have hmem : '/' ∉ (Repeat c 64).data := by
      intro h
      have h5 : '/' ∈ List.replicate 64 c := h
      exact hc (List.eq_of_mem_replicate h5).symm
    rw [splitChars_of_not_mem _ _ hmem]
    have h := length_le_utf8ByteSize (List.replicate 64 c)
    rw [List.length_replicate] at h
    have h2 : (Repeat c 64).utf8ByteSize > validation.qualifiedNameMaxLength := by
      unfold validation.qualifiedNameMaxLength Repeat
      omega
    have h3 : (Repeat c 64).utf8ByteSize ≠ 0 := by omega
    have h4 : String.mk (Repeat c 64).data = Repeat c 64 := rfl
    simp only [List.map, h4]
    unfold validation.nameErrs
    rw [if_neg h3, if_pos h2]
    simp

theorem single_label_accepted_iff (k : String) (other : StringMap)
    (ho : entries other = []) :
    (NewSelector (some [(k, "value")]) other).2 = none ↔ ValidKey k := by
  rw [NewSelector_eq_none, ho]
  simp [entries, value_ValidLabelValue]

theorem single_annotation_accepted_iff (k v : String) (other : StringMap)
    (ho : entries other = []) :
    (NewSelector other (some [(k, v)])).2 = none ↔ ValidKey k := by
  rw [NewSelector_eq_none, ho]
  simp [entries]

set_option maxRecDepth 100000 in
/-- C7: a selector with the single label requirement `k: "value"`, or the single annotation
requirement `k: "value"`, is accepted by `NewSelector` if and only if `k` is a qualified name:
an optional DNS-subdomain prefix followed by `/`, then a name of 1 to 63 characters matching
`[A-Za-z0-9]([-A-Za-z0-9_.]*[A-Za-z0-9])?`.  So `-starts-with-dash` and every name of 64
repeated characters are rejected and `simple/simple` is accepted. -/
theorem C7_key_accepted_iff_qualified_name (k : String) :
    ((NewSelector (some [(k, "value")]) (some [])).2 = none ↔ QualifiedName k) ∧
    ((NewSelector (some []) (some [(k, "value")])).2 = none ↔ QualifiedName k) ∧
    (NewSelector (some [("-starts-with-dash", "value")]) (some [])).2 ≠ none ∧
    (NewSelector (some []) (some [("-starts-with-dash", "value")])).2 ≠ none ∧
    (∀ c : Char, (NewSelector (some [(Repeat c 64, "value")]) (some [])).2 ≠ none ∧
      (NewSelector (some []) (some [(Repeat c 64, "value")])).2 ≠ none) ∧
    (NewSelector (some [("simple/simple", "value")]) (some [])).2 = none ∧
    (NewSelector (some []) (some [("simple/simple", "value")])).2 = none := by
  have hdash : ¬ ValidKey "-starts-with-dash" := by decide
  have hsimple : ValidKey "simple/simple" := by decide
  refine ⟨?_, ?_, ?_, ?_, ?_, ?_, ?_⟩
  · rw [single_label_accepted_iff k (some []) rfl, ValidKey_iff_QualifiedName]
  · rw [single_annotation_accepted_iff k "value" (some []) rfl, ValidKey_iff_QualifiedName]
  · rw [Ne, single_label_accepted_iff _ (some []) rfl]; exact hdash
  · rw [Ne, single_annotation_accepted_iff _ _ (some []) rfl]; exact hdash
  · intro c
    constructor
    · rw [Ne, single_label_accepted_iff _ (some []) rfl]; exact Repeat_64_not_ValidKey c
    · rw [Ne, single_annotation_accepted_iff _ _ (some []) rfl]; exact Repeat_64_not_ValidKey c
  · rw [single_label_accepted_iff _ (some []) rfl]; exact hsimple
  · rw [single_annotation_accepted_iff _ _ (some []) rfl]; exact hsimple

/-! ## Claims on the sentinels and the metadata predicates -/

theorem sentinel_not_ValidLabelValue (v : String) (h : IsSentinel v) : ¬ ValidLabelValue v := by
  rcases h with h | h <;> subst h <;> decide

theorem matches_single_literal (d : List (String × String)) (k v : String)
    (hv : ¬ IsSentinel v) :
    «matches» (some d) (some [(k, v)]) = true ↔ get? d k = some v := by
  have hp : ¬ v = KeyPresent := fun h => hv (Or.inl h)
  have ha : ¬ v = KeyAbsent := fun h => hv (Or.inr h)
  rw [matches_some_iff]
  simp [Satisfied, hp, ha]

/-- Counterexample to C9 as stated: the sentinel strings are accepted by `NewSelector` as
annotation requirement values (annotation values are not validated), so the values accepted
there are not disjoint from the sentinels; the accepted requirement is then read as an absence
or presence check, not as a literal: requiring the value `KeyAbsent()` under `k` rejects the
data holding exactly that value under `k`, and requiring `KeyPresent()` accepts a different
value. -/
theorem C9_sentinel_accepted_as_annotation_value :
    (NewSelector (some []) (some [("k", KeyAbsent)])).2 = none ∧
    (NewSelector (some []) (some [("k", KeyPresent)])).2 = none ∧
    (NewSelector (some []) (some [("k", KeyAbsent)])).1.MatchesAnnotations
      (some [("k", KeyAbsent)]) = false ∧
    (NewSelector (some []) (some [("k", KeyPresent)])).1.MatchesAnnotations
      (some [("k", "other")]) = true ∧
    ¬ (∀ v : String, (NewSelector (some []) (some [("k", v)])).2 = none →
        v ≠ KeyPresent ∧ v ≠ KeyAbsent) := by
  have hk : ValidKey "k" := by decide
  have h1 : ∀ v : String, (NewSelector (some []) (some [("k", v)])).2 = none := fun v =>
    (single_annotation_accepted_iff "k" v (some []) rfl).mpr hk
  refine ⟨h1 _, h1 _, by decide, by decide, ?_⟩
  intro h
  exact (h KeyAbsent (h1 _)).2 rfl

/-- C9 (amended): `KeyPresent()` and `KeyAbsent()` are two different strings and neither is a
well-formed label value; so no well-formed label value equals a sentinel, every non-sentinel
label requirement value accepted by `NewSelector` is a well-formed label value, and a
requirement whose value is a well-formed label value is always read as a literal: it matches
exactly the data holding that value under the key. -/
theorem C9_sentinels_disjoint_from_label_values :
    KeyPresent ≠ KeyAbsent ∧
    ¬ ValidLabelValue KeyPresent ∧ ¬ ValidLabelValue KeyAbsent ∧
    (∀ v : String, ValidLabelValue v → v ≠ KeyPresent ∧ v ≠ KeyAbsent) ∧
    (∀ (k v : String) (annotations : StringMap),
      (NewSelector (some [(k, v)]) annotations).2 = none → ¬ IsSentinel v → ValidLabelValue v) ∧
    (∀ (k v : String) (d : List (String × String)), ValidLabelValue v →
      («matches» (some d) (some [(k, v)]) = true ↔ get? d k = some v)) := by
  refine ⟨by decide, by decide, by decide, ?_, ?_, ?_⟩
  · intro v hv
    exact ⟨fun h => sentinel_not_ValidLabelValue v (Or.inl h) hv,
      fun h => sentinel_not_ValidLabelValue v (Or.inr h) hv⟩
  · intro k v annotations h hs
    have h1 := ((NewSelector_eq_none _ _).mp h).1 (k, v) (by simp [entries])
    rcases h1.2 with h2 | h2
    · exact absurd h2 hs
    · exact h2
  · intro k v d hv
    exact matches_single_literal d k v (fun hs => sentinel_not_ValidLabelValue v hs hv)

theorem CreateOrUpdateByMetadata_accepted (labels annotations : StringMap)
    (h : (NewSelector labels annotations).2 = none) :
    CreateOrUpdateByMetadata labels annotations =
      (some {
        CreateFunc := some (fun event =>
          (NewSelector labels annotations).1.Matches (orEmpty event.Object.Labels)
            (orEmpty event.Object.Annotations))
        UpdateFunc := some (fun event =>
          (NewSelector labels annotations).1.Matches (orEmpty event.ObjectOld.Labels)
            (orEmpty event.ObjectOld.Annotations) ||
          (NewSelector labels annotations).1.Matches (orEmpty event.ObjectNew.Labels)
            (orEmpty event.ObjectNew.Annotations))
        DeleteFunc := none
        GenericFunc := none }, none) := by
  unfold CreateOrUpdateByMetadata
  generalize hn : NewSelector labels annotations = r at h ⊢
  obtain ⟨s, e⟩ := r
  simp only at h
  subst h
  rfl

theorem matchesLoop_empty_data_false (sel : List (String × String))
    (h : ∃ e ∈ sel, e.2 ≠ KeyAbsent) : matchesLoop [] sel = false := by
  cases hm : matchesLoop [] sel with
  | false => rfl
  | true =>
    obtain ⟨e, he, hv⟩ := h
    have hs := (matchesLoop_iff [] sel).mp hm e.1 e.2 he
    unfold Satisfied at hs
    rw [if_neg hv] at hs
    by_cases hp : e.2 = KeyPresent
    · rw [if_pos hp] at hs
      obtain ⟨val, hval⟩ := hs
      simp [get?] at hval
    · rw [if_neg hp] at hs
      simp [get?] at hs

/-- C10: for every `(labels, annotations)` accepted by `NewSelector` and every Create event,
the predicate returned by `CreateOrUpdateByMetadata` decides the event as `Matches(L, A)` of
the selector, where `L` and `A` are the object's label and annotation maps with nil replaced
by the empty map.  Hence, for an object without labels, empty label requirements are
satisfied (the decision is the one of the annotation requirements, and the event is accepted
when these are empty too), and the event is rejected when some label requirement is a literal
or `KeyPresent()`. -/
theorem C10_create_decided_by_Matches_with_nil_as_empty
    (labels annotations : StringMap) (e : CreateEvent)
    (h : (NewSelector labels annotations).2 = none) :
    ∃ p : Funcs, CreateOrUpdateByMetadata labels annotations = (some p, none) ∧
      p.Create e =
        (NewSelector labels annotations).1.Matches
          (orEmpty e.Object.Labels) (orEmpty e.Object.Annotations) ∧
      (e.Object.Labels = none → labels = some [] →
        p.Create e = «matches» (orEmpty e.Object.Annotations) annotations) ∧
      (e.Object.Labels = none → labels = some [] → annotations = some [] →
        p.Create e = true) ∧
      (e.Object.Labels = none → (∃ r ∈ entries labels, r.2 ≠ KeyAbsent) →
        p.Create e = false) := by
  refine ⟨_, CreateOrUpdateByMetadata_accepted labels annotations h, rfl, ?_, ?_, ?_⟩
  · intro hl hs
    subst hs
    simp [Funcs.Create, selector.Matches, selector.MatchesLabels, selector.MatchesAnnotations,
      NewSelector, hl, orEmpty, «matches»]
  · intro hl hs ha
    subst hs ha
    cases hann : e.Object.Annotations <;>
      simp [Funcs.Create, selector.Matches, selector.MatchesLabels,
        selector.MatchesAnnotations, NewSelector, hl, hann, orEmpty, «matches»]
  · intro hl hr
    have hlab : «matches» (some []) labels = false := by
      cases labels with
      | none => rfl
      | some sel =>
        obtain ⟨r, hr1, hr2⟩ := hr
        have hne : sel.length ≠ 0 := by
          intro h0
          have : sel = [] := List.length_eq_zero.mp h0
          subst this
          simp [entries] at hr1
        simp only [«matches», hne, if_false]
        exact matchesLoop_empty_data_false sel ⟨r, hr1, hr2⟩
    simp [Funcs.Create, selector.Matches, selector.MatchesLabels, NewSelector, hl, orEmpty,
      hlab]

set_option maxRecDepth 100000 in
/-- Witness for C10: the accepted requirements `labelkey: labelvalue` with empty annotation
requirements, and the Create event of an object without labels and annotations. -/
theorem C10_create_decided_by_Matches_with_nil_as_empty_witness :
    (NewSelector (some [("labelkey", "labelvalue")]) (some [])).2 = none ∧
    ∃ p : Funcs,
      CreateOrUpdateByMetadata (some [("labelkey", "labelvalue")]) (some []) = (some p, none) ∧
      p.Create ⟨⟨"baz", "biz", none, none⟩⟩ = false :=
  have hacc : (NewSelector (some [("labelkey", "labelvalue")]) (some [])).2 = none :=
    (NewSelector_eq_none _ _).mpr ⟨by decide, by decide⟩
  match C10_create_decided_by_Matches_with_nil_as_empty
      (some [("labelkey", "labelvalue")]) (some []) ⟨⟨"baz", "biz", none, none⟩⟩ hacc with
  | ⟨p, hp, _, _, _, hrej⟩ =>
    ⟨hacc, p, hp, hrej rfl ⟨("labelkey", "labelvalue"), by simp [entries], by decide⟩⟩

/-! ## Claims on the metadata predicates, continued -/

theorem DeleteByMetadata_accepted (labels annotations : StringMap)
    (h : (NewSelector labels annotations).2 = none) :
    DeleteByMetadata labels annotations =
      (some {
        CreateFunc := none
        UpdateFunc := none
        DeleteFunc := some (fun event =>
          (NewSelector labels annotations).1.Matches (orEmpty event.Object.Labels)
            (orEmpty event.Object.Annotations))
        GenericFunc := none }, none) := by
  unfold DeleteByMetadata
  generalize hn : NewSelector labels annotations = r at h ⊢
  obtain ⟨s, e⟩ := r
  simp only at h
  subst h
  rfl

theorem CreateOrUpdateByMetadata_rejected (labels annotations : StringMap) (err : GoError)
    (h : (NewSelector labels annotations).2 = some err) :
    CreateOrUpdateByMetadata labels annotations = (none, some err) := by
  unfold CreateOrUpdateByMetadata
  generalize hn : NewSelector labels annotations = r at h ⊢
  obtain ⟨s, e⟩ := r
  simp only at h
  subst h
  rfl

theorem DeleteByMetadata_rejected (labels annotations : StringMap) (err : GoError)
    (h : (NewSelector labels annotations).2 = some err) :
    DeleteByMetadata labels annotations = (none, some err) := by
  unfold DeleteByMetadata
  generalize hn : NewSelector labels annotations = r at h ⊢
  obtain ⟨s, e⟩ := r
  simp only at h
  subst h
  rfl

theorem CreateOrUpdateByMetadata_snd (labels annotations : StringMap) :
    (CreateOrUpdateByMetadata labels annotations).2 = (NewSelector labels annotations).2 := by
  cases h : (NewSelector labels annotations).2 with
  | none => rw [CreateOrUpdateByMetadata_accepted labels annotations h]
  | some err => rw [CreateOrUpdateByMetadata_rejected labels annotations err h]

theorem DeleteByMetadata_snd (labels annotations : StringMap) :
    (DeleteByMetadata labels annotations).2 = (NewSelector labels annotations).2 := by
  cases h : (NewSelector labels annotations).2 with
  | none => rw [DeleteByMetadata_accepted labels annotations h]
  | some err => rw [DeleteByMetadata_rejected labels annotations err h]

/-- C11: for every `(labels, annotations)` accepted by `NewSelector` and every Update event,
the predicate returned by `CreateOrUpdateByMetadata` accepts the event if and only if the
selector matches the old object's metadata or the new object's metadata, nil maps read as
empty; so one side matching suffices whatever the other side does. -/
theorem C11_update_accepted_iff_old_or_new_matches
    (labels annotations : StringMap) (e : UpdateEvent)
    (h : (NewSelector labels annotations).2 = none) :
    ∃ p : Funcs, CreateOrUpdateByMetadata labels annotations = (some p, none) ∧
      (p.Update e = true ↔
        ((NewSelector labels annotations).1.Matches
            (orEmpty e.ObjectOld.Labels) (orEmpty e.ObjectOld.Annotations) = true ∨
         (NewSelector labels annotations).1.Matches
            (orEmpty e.ObjectNew.Labels) (orEmpty e.ObjectNew.Annotations) = true)) := by
  refine ⟨_, CreateOrUpdateByMetadata_accepted labels annotations h, ?_⟩
  simp [Funcs.Update]

set_option maxRecDepth 100000 in
/-- Witness for C11: requirements `labelkey: labelvalue`; the old object carries the label,
the new one another label, and the Update event is accepted. -/
theorem C11_update_accepted_iff_old_or_new_matches_witness :
    (NewSelector (some [("labelkey", "labelvalue")]) (some [])).2 = none ∧
    ∃ p : Funcs,
      CreateOrUpdateByMetadata (some [("labelkey", "labelvalue")]) (some []) = (some p, none) ∧
      p.Update ⟨⟨"baz", "biz", some [("labelkey", "labelvalue")], none⟩,
        ⟨"baz", "biz", some [("otherlabelkey", "otherlabelvalue")], none⟩⟩ = true :=
  have hacc : (NewSelector (some [("labelkey", "labelvalue")]) (some [])).2 = none :=
    (NewSelector_eq_none _ _).mpr ⟨by decide, by decide⟩
  match C11_update_accepted_iff_old_or_new_matches
      (some [("labelkey", "labelvalue")]) (some [])
      ⟨⟨"baz", "biz", some [("labelkey", "labelvalue")], none⟩,
        ⟨"baz", "biz", some [("otherlabelkey", "otherlabelvalue")], none⟩⟩ hacc with
  | ⟨p, hp, hiff⟩ => ⟨hacc, p, hp, hiff.mpr (Or.inl (by decide))⟩

/-- C12: the predicate returned by `CreateOrUpdateByMetadata` for an accepted selector does
not decide Delete or Generic events: its `Delete` and `Generic` return true for every object,
whatever its labels and annotations, nil included. -/
theorem C12_create_or_update_predicate_passes_delete_and_generic
    (labels annotations : StringMap) (d : DeleteEvent) (g : GenericEvent)
    (h : (NewSelector labels annotations).2 = none) :
    ∃ p : Funcs, CreateOrUpdateByMetadata labels annotations = (some p, none) ∧
      p.Delete d = true ∧ p.Generic g = true :=
  ⟨_, CreateOrUpdateByMetadata_accepted labels annotations h, rfl, rfl⟩

set_option maxRecDepth 100000 in
/-- Witness for C12: requirements `labelkey: labelvalue` and an object without labels and
annotations. -/
theorem C12_create_or_update_predicate_passes_delete_and_generic_witness :
    (NewSelector (some [("labelkey", "labelvalue")]) (some [])).2 = none ∧
    ∃ p : Funcs,
      CreateOrUpdateByMetadata (some [("labelkey", "labelvalue")]) (some []) = (some p, none) ∧
      p.Delete ⟨⟨"baz", "biz", none, none⟩⟩ = true ∧
      p.Generic ⟨⟨"baz", "biz", none, none⟩⟩ = true :=
  have hacc : (NewSelector (some [("labelkey", "labelvalue")]) (some [])).2 = none :=
    (NewSelector_eq_none _ _).mpr ⟨by decide, by decide⟩
  ⟨hacc, C12_create_or_update_predicate_passes_delete_and_generic
    (some [("labelkey", "labelvalue")]) (some [])
    ⟨⟨"baz", "biz", none, none⟩⟩ ⟨⟨"baz", "biz", none, none⟩⟩ hacc⟩

/-- C13: the predicate returned by `DeleteByMetadata` for an accepted selector decides only
the Delete kind: a Delete event is accepted iff the selector matches the object's labels and
annotations, nil maps read as empty, and every Create, Update and Generic event is
accepted. -/
theorem C13_delete_predicate_decides_only_delete
    (labels annotations : StringMap)
    (d : DeleteEvent) (c : CreateEvent) (u : UpdateEvent) (g : GenericEvent)
    (h : (NewSelector labels annotations).2 = none) :
    ∃ p : Funcs, DeleteByMetadata labels annotations = (some p, none) ∧
      p.Delete d =
        (NewSelector labels annotations).1.Matches
          (orEmpty d.Object.Labels) (orEmpty d.Object.Annotations) ∧
      p.Create c = true ∧ p.Update u = true ∧ p.Generic g = true :=
  ⟨_, DeleteByMetadata_accepted labels annotations h, rfl, rfl, rfl, rfl⟩

set_option maxRecDepth 100000 in
/-- Witness for C13: requirements `labelkey: labelvalue`; the Delete event of an object
without labels is rejected, its Create, Update and Generic events are accepted. -/
theorem C13_delete_predicate_decides_only_delete_witness :
    (NewSelector (some [("labelkey", "labelvalue")]) (some [])).2 = none ∧
    ∃ p : Funcs,
      DeleteByMetadata (some [("labelkey", "labelvalue")]) (some []) = (some p, none) ∧
      p.Delete ⟨⟨"baz", "biz", none, none⟩⟩ = false ∧
      p.Create ⟨⟨"baz", "biz", none, none⟩⟩ = true ∧
      p.Update ⟨⟨"baz", "biz", none, none⟩, ⟨"baz", "biz", none, none⟩⟩ = true ∧
      p.Generic ⟨⟨"baz", "biz", none, none⟩⟩ = true :=
  have hacc : (NewSelector (some [("labelkey", "labelvalue")]) (some [])).2 = none :=
    (NewSelector_eq_none _ _).mpr ⟨by decide, by decide⟩
  match C13_delete_predicate_decides_only_delete
      (some [("labelkey", "labelvalue")]) (some [])
      ⟨⟨"baz", "biz", none, none⟩⟩ ⟨⟨"baz", "biz", none, none⟩⟩
      ⟨⟨"baz", "biz", none, none⟩, ⟨"baz", "biz", none, none⟩⟩
      ⟨⟨"baz", "biz", none, none⟩⟩ hacc with
  | ⟨p, hp, hd, hc, hu, hg⟩ => ⟨hacc, p, hp, hd.trans (by decide), hc, hu, hg⟩

/-- C14: both constructors return exactly the error of `NewSelector`; when it is not nil the
predicate is nil, and when it is nil the predicate is not nil. -/
theorem C14_constructors_propagate_selector_error (labels annotations : StringMap) :
    (CreateOrUpdateByMetadata labels annotations).2 = (NewSelector labels annotations).2 ∧
    (DeleteByMetadata labels annotations).2 = (NewSelector labels annotations).2 ∧
    (∀ err : GoError, (NewSelector labels annotations).2 = some err →
      CreateOrUpdateByMetadata labels annotations = (none, some err) ∧
      DeleteByMetadata labels annotations = (none, some err)) ∧
    ((NewSelector labels annotations).2 = none →
      (∃ p : Funcs, CreateOrUpdateByMetadata labels annotations = (some p, none)) ∧
      (∃ p : Funcs, DeleteByMetadata labels annotations = (some p, none))) :=
  ⟨CreateOrUpdateByMetadata_snd labels annotations, DeleteByMetadata_snd labels annotations,
    fun err h => ⟨CreateOrUpdateByMetadata_rejected labels annotations err h,
      DeleteByMetadata_rejected labels annotations err h⟩,
    fun h => ⟨⟨_, CreateOrUpdateByMetadata_accepted labels annotations h⟩,
      ⟨_, DeleteByMetadata_accepted labels annotations h⟩⟩⟩

/-! ## Lemmas on predicate evaluation -/

theorem decision_logCall (predicateLog : Logger) (logIgnored : Bool) (action : String)
    (r : Outcome) (o : Object) :
    (logCall predicateLog logIgnored action r o).decision = r.decision := by
  cases r with
  | none => rfl
  | some p => obtain ⟨d, l⟩ := p; rfl

theorem decision_eval_Log (log : Logger) (logIgnored : Bool) (p : List Predicate) (e : Event) :
    ((Log log logIgnored p).eval e).decision = ((Predicate.and p).eval e).decision := by
  cases e <;>
    simp [Log, Predicate.eval, EffectFuncs.eval, decision_logCall, Predicate.Create,
      Predicate.Update, Predicate.Delete, Predicate.Generic]

theorem decision_evalAnd (ps : List Predicate) (e : Event) :
    (Predicate.evalAnd ps e).decision = decideAnd (ps.map (fun p => (p.eval e).decision)) := by
  induction ps with
  | nil => rfl
  | cons p rest ih =>
    have hmap : (p :: rest).map (fun p => (p.eval e).decision) =
        (p.eval e).decision :: rest.map (fun p => (p.eval e).decision) := rfl
    rw [Predicate.evalAnd, hmap]
    cases hp : Predicate.eval p e with
    | none => rfl
    | some r =>
      obtain ⟨d, l⟩ := r
      cases d with
      | false => rfl
      | true =>
        change _ = decideAnd (rest.map (fun p => (p.eval e).decision))
        rw [← ih]
        cases Predicate.evalAnd rest e with
        | none => rfl
        | some r' => rfl

theorem decision_evalOr (ps : List Predicate) (e : Event) :
    (Predicate.evalOr ps e).decision = decideOr (ps.map (fun p => (p.eval e).decision)) := by
  induction ps with
  | nil => rfl
  | cons p rest ih =>
    have hmap : (p :: rest).map (fun p => (p.eval e).decision) =
        (p.eval e).decision :: rest.map (fun p => (p.eval e).decision) := rfl
    rw [Predicate.evalOr, hmap]
    cases hp : Predicate.eval p e with
    | none => rfl
    | some r =>
      obtain ⟨d, l⟩ := r
      cases d with
      | true => rfl
      | false =>
        change _ = decideOr (rest.map (fun p => (p.eval e).decision))
        rw [← ih]
        cases Predicate.evalOr rest e with
        | none => rfl
        | some r' => rfl

theorem decideAnd_singleton (d : Option Bool) : decideAnd [d] = d := by
  cases d with
  | none => rfl
  | some b => cases b <;> rfl

theorem decideAnd_map_some (bs : List Bool) :
    decideAnd (bs.map some) = some (bs.all id) := by
  induction bs with
  | nil => rfl
  | cons b rest ih => cases b <;> simp [decideAnd, ih]

theorem decideOr_map_some (bs : List Bool) :
    decideOr (bs.map some) = some (bs.any id) := by
  induction bs with
  | nil => rfl
  | cons b rest ih => cases b <;> simp [decideOr, ih]

theorem decideAnd_append_some (bs : List Bool) (rest : List (Option Bool)) :
    decideAnd (bs.map some ++ rest) = if bs.all id then decideAnd rest else some false := by
  induction bs with
  | nil => simp
  | cons b tl ih => cases b <;> simp [decideAnd, ih]

theorem decision_operator_Predicate {X : External} (o : operator X) (e : Event) :
    (o.Predicate.eval e).decision =
      decideAnd (o.customPredicates.map (fun p => (p.eval e).decision) ++
        if o.predicates.length > 0
        then [decideOr (o.predicates.map (fun p => (p.eval e).decision))] else []) := by
  unfold operator.Predicate
  simp only [decision_eval_Log]
  rw [Predicate.eval, decision_evalAnd]
  simp only [List.map_cons, List.map_nil, decideAnd_singleton]
  rw [Predicate.eval, decision_evalAnd]
  by_cases h : o.predicates.length > 0
  · simp only [h, if_true, List.map_append, List.map_cons, List.map_nil]
    rw [Predicate.eval, decision_evalOr]
  · simp only [h, if_false, List.append_nil]

/-! ## Lemmas on the operator -/

theorem joinIfNotNil_eq_none (errs err : Option GoError) :
    joinIfNotNil errs err = none ↔ errs = none ∧ err = none := by
  cases err with
  | none => simp [joinIfNotNil]
  | some e => cases errs <;> simp [joinIfNotNil, errorsJoin]

theorem applyHandlerOptions_fst (opts : List HandlerOption) (options : handlerOptions)
    (errs : Option GoError) :
    (applyHandlerOptions opts options errs).1 = (applyHandlerOptions opts options none).1 := by
  induction opts generalizing options errs with
  | nil => rfl
  | cons opt rest ih =>
    simp only [applyHandlerOptions]
    rw [ih, ih (opt options).1 (joinIfNotNil none (opt options).2)]

theorem applyHandlerOptions_snd_eq_none (opts : List HandlerOption) (options : handlerOptions)
    (errs : Option GoError) (h : (applyHandlerOptions opts options errs).2 = none) :
    errs = none := by
  induction opts generalizing options errs with
  | nil => exact h
  | cons opt rest ih =>
    simp only [applyHandlerOptions] at h
    exact ((joinIfNotNil_eq_none _ _).mp (ih _ _ h)).1

theorem eval_handlerPredicate_CreateOrUpdate (labels annotations : StringMap)
    (h : (NewSelector labels annotations).2 = none) (e : Event) :
    (Predicate.and [Predicate.funcs {
        CreateFunc := some (fun _ => true)
        UpdateFunc := some (fun _ => true)
        DeleteFunc := some (fun _ => false)
        GenericFunc := some (fun _ => false) },
      Predicate.ofFuncs (CreateOrUpdateByMetadata labels annotations).1]).eval e =
    some (match e with
      | Event.Create c => (NewSelector labels annotations).1.Matches
          (orEmpty c.Object.Labels) (orEmpty c.Object.Annotations)
      | Event.Update u =>
          (NewSelector labels annotations).1.Matches
            (orEmpty u.ObjectOld.Labels) (orEmpty u.ObjectOld.Annotations) ||
          (NewSelector labels annotations).1.Matches
            (orEmpty u.ObjectNew.Labels) (orEmpty u.ObjectNew.Annotations)
      | Event.Delete _ => false
      | Event.Generic _ => false, []) := by
  rw [CreateOrUpdateByMetadata_accepted labels annotations h]
  cases e with
  | Create c =>
    simp only [Predicate.eval, Predicate.evalAnd, Predicate.ofFuncs, Funcs.eval, Funcs.Create]
    cases (NewSelector labels annotations).1.Matches
      (orEmpty c.Object.Labels) (orEmpty c.Object.Annotations) <;> rfl
  | Update u =>
    simp only [Predicate.eval, Predicate.evalAnd, Predicate.ofFuncs, Funcs.eval, Funcs.Update]
    cases ((NewSelector labels annotations).1.Matches
            (orEmpty u.ObjectOld.Labels) (orEmpty u.ObjectOld.Annotations) ||
          (NewSelector labels annotations).1.Matches
            (orEmpty u.ObjectNew.Labels) (orEmpty u.ObjectNew.Annotations)) <;> rfl
  | Delete d => rfl
  | Generic g => rfl

theorem eval_handlerPredicate_Delete (labels annotations : StringMap)
    (h : (NewSelector labels annotations).2 = none) (e : Event) :
    (Predicate.and [Predicate.funcs {
        CreateFunc := some (fun _ => false)
        UpdateFunc := some (fun _ => false)
        DeleteFunc := some (fun _ => true)
        GenericFunc := some (fun _ => false) },
      Predicate.ofFuncs (DeleteByMetadata labels annotations).1]).eval e =
    some (match e with
      | Event.Create _ => false
      | Event.Update _ => false
      | Event.Delete d => (NewSelector labels annotations).1.Matches
          (orEmpty d.Object.Labels) (orEmpty d.Object.Annotations)
      | Event.Generic _ => false, []) := by
  rw [DeleteByMetadata_accepted labels annotations h]
  cases e with
  | Create c => rfl
  | Update u => rfl
  | Delete d =>
    simp only [Predicate.eval, Predicate.evalAnd, Predicate.ofFuncs, Funcs.eval, Funcs.Delete]
    cases (NewSelector labels annotations).1.Matches
      (orEmpty d.Object.Labels) (orEmpty d.Object.Annotations) <;> rfl
  | Generic g => rfl

theorem register_customPredicates {X : External} (o : operator X) (r : Registration X) :
    (o.register r).customPredicates = o.customPredicates := by
  cases r <;> rfl

theorem register_spec {X : External} (o : operator X) (r : Registration X) :
    ∃ p : Predicate, (o.register r).predicates = o.predicates ++ [p] ∧
      ((o.register r).errs = none →
        o.errs = none ∧ ∀ e : Event, p.eval e = some (r.accepts e, [])) := by
  cases r with
  | OnCreateOrUpdate fn opts =>
    refine ⟨_, rfl, ?_⟩
    intro herr
    have h1 := (joinIfNotNil_eq_none _ _).mp herr
    have hsel : (NewSelector
        (@Registration.OnCreateOrUpdate X fn opts).options.labels
        (@Registration.OnCreateOrUpdate X fn opts).options.annotations).2 = none := by
      have := h1.2
      rw [CreateOrUpdateByMetadata_snd, applyHandlerOptions_fst] at this
      exact this
    refine ⟨applyHandlerOptions_snd_eq_none _ _ _ h1.1, fun e => ?_⟩
    rw [applyHandlerOptions_fst]
    refine Eq.trans (eval_handlerPredicate_CreateOrUpdate _ _ hsel e) ?_
    cases e <;> simp [Registration.accepts, Registration.isCreateOrUpdate,
      Registration.matchesObject]
  | OnDelete fn opts =>
    refine ⟨_, rfl, ?_⟩
    intro herr
    have h1 := (joinIfNotNil_eq_none _ _).mp herr
    have hsel : (NewSelector
        (@Registration.OnDelete X fn opts).options.labels
        (@Registration.OnDelete X fn opts).options.annotations).2 = none := by
      have := h1.2
      rw [DeleteByMetadata_snd, applyHandlerOptions_fst] at this
      exact this
    refine ⟨applyHandlerOptions_snd_eq_none _ _ _ h1.1, fun e => ?_⟩
    rw [applyHandlerOptions_fst]
    refine Eq.trans (eval_handlerPredicate_Delete _ _ hsel e) ?_
    cases e <;> simp [Registration.accepts, Registration.isCreateOrUpdate,
      Registration.matchesObject]


theorem foldl_register_spec {X : External} (regs : List (Registration X)) (o : operator X) :
    (regs.foldl operator.register o).customPredicates = o.customPredicates ∧
    ∃ ps : List Predicate,
      (regs.foldl operator.register o).predicates = o.predicates ++ ps ∧
      ((regs.foldl operator.register o).errs = none →
        o.errs = none ∧
        ∀ e : Event, ps.map (fun p => (p.eval e).decision) =
          regs.map (fun r => some (r.accepts e))) := by
  induction regs generalizing o with
  | nil => exact ⟨rfl, [], by simp, fun h => ⟨h, fun _ => rfl⟩⟩
  | cons r rest ih =>
    obtain ⟨hc, ps, hps, herr⟩ := ih (o.register r)
    obtain ⟨p, hp, hperr⟩ := register_spec o r
    refine ⟨?_, p :: ps, ?_, ?_⟩
    · rw [List.foldl_cons, hc, register_customPredicates]
    · rw [List.foldl_cons, hps, hp, List.append_assoc]; rfl
    · intro h
      rw [List.foldl_cons] at h
      obtain ⟨h1, h2⟩ := herr h
      obtain ⟨h3, h4⟩ := hperr h1
      refine ⟨h3, fun e => ?_⟩
      rw [List.map_cons, List.map_cons, h2 e, h4 e]
      rfl

theorem any_map_id {α : Type} (l : List α) (f : α → Bool) : (l.map f).any id = l.any f := by
  induction l with
  | nil => rfl
  | cons a rest ih => simp [List.any_cons, ih]

theorem all_map_id {α : Type} (l : List α) (f : α → Bool) : (l.map f).all id = l.all f := by
  induction l with
  | nil => rfl
  | cons a rest ih => simp [List.all_cons, ih]

theorem decision_Predicate_of_registrations {X : External} (o0 : operator X)
    (regs : List (Registration X)) (e : Event)
    (hc : o0.customPredicates = []) (hp : o0.predicates = []) (hregs : regs ≠ [])
    (herr : (regs.foldl operator.register o0).errs = none) :
    ((regs.foldl operator.register o0).Predicate.eval e).decision =
      some (regs.any (fun r => r.accepts e)) := by
  obtain ⟨hcust, ps, hps, hev⟩ := foldl_register_spec regs o0
  obtain ⟨_, hmap⟩ := hev herr
  have hlen : ps.length = regs.length := by
    have := congrArg List.length (hmap e)
    simpa using this
  have hpos : (regs.foldl operator.register o0).predicates.length > 0 := by
    rw [hps, hp, List.nil_append, hlen]
    exact List.length_pos.mpr hregs
  rw [decision_operator_Predicate, hcust, hc, if_pos hpos, hps, hp, List.nil_append, hmap e]
  simp only [List.map_nil, List.nil_append, decideAnd_singleton]
  have hm : regs.map (fun r => some (r.accepts e)) =
      (regs.map (fun r => r.accepts e)).map some := by
    rw [List.map_map]; rfl
  rw [hm, decideOr_map_some, any_map_id]

theorem matches_orEmpty_empty (m : StringMap) : «matches» (orEmpty m) (some []) = true := by
  cases m <;> rfl

theorem Matches_no_requirements (labels annotations : StringMap) :
    (NewSelector (some []) (some [])).1.Matches (orEmpty labels) (orEmpty annotations)
      = true := by
  show («matches» (orEmpty labels) (some []) && «matches» (orEmpty annotations) (some []))
    = true
  rw [matches_orEmpty_empty, matches_orEmpty_empty]; rfl


theorem applyConstructorOptions_customPredicates {X : External} (cs : List Predicate)
    (options : constructorOptions X) :
    applyConstructorOptions (cs.map WithCustomPredicate) options =
      Except.ok { options with predicates := options.predicates ++ cs } := by
  induction cs generalizing options with
  | nil => simp [applyConstructorOptions]
  | cons c rest ih =>
    simp only [List.map_cons, applyConstructorOptions, WithCustomPredicate]
    rw [ih]
    simp

theorem New_customPredicates {X : External} (object : X.ClientObject)
    (mgrOpts : Option X.ManagerOptions) (cs : List Predicate) (o : operator X)
    (h : New X object (WithManagerOptions mgrOpts :: cs.map WithCustomPredicate) = (some o, none)) :
    o.predicates = [] ∧ o.customPredicates = cs ∧ o.errs = none := by
  unfold New at h
  have h1 : applyConstructorOptions (WithManagerOptions mgrOpts :: cs.map WithCustomPredicate)
      (⟨none, [], []⟩ : constructorOptions X) = Except.ok ⟨mgrOpts, cs, []⟩ := by
    cases mgrOpts with
    | none =>
      simp only [applyConstructorOptions, WithManagerOptions, Option.isSome]
      simp only [Bool.false_eq_true, if_false]
      rw [applyConstructorOptions_customPredicates]
      simp
    | some m =>
      simp only [applyConstructorOptions, WithManagerOptions, Option.isSome]
      simp only [Bool.false_eq_true, if_false]
      rw [applyConstructorOptions_customPredicates]
      simp
  rw [h1] at h
  simp only at h
  cases hm : X.InitManager mgrOpts with
  | error err => rw [hm] at h; simp at h
  | ok mgr =>
    rw [hm] at h
    simp only [Prod.mk.injEq, Option.some.injEq, and_true] at h
    subst h
    exact ⟨rfl, rfl, rfl⟩

theorem perm_all_eq {α : Type} (p : α → Bool) {l l' : List α} (h : l.Perm l') :
    l.all p = l'.all p := by
  induction h with
  | nil => rfl
  | cons a _ ih => simp [List.all_cons, ih]
  | swap a b l => simp only [List.all_cons]; cases p a <;> cases p b <;> rfl
  | trans _ _ ih1 ih2 => exact ih1.trans ih2

theorem map_funcs_decision (fs : List Funcs) (e : Event) :
    (fs.map Predicate.funcs).map (fun p => (p.eval e).decision) =
      (fs.map (fun f => f.eval e)).map some := by
  rw [List.map_map, List.map_map]
  rfl

theorem decision_Predicate_no_handlers {X : External} (o : operator X) (e : Event)
    (hp : o.predicates = []) :
    (o.Predicate.eval e).decision = ((Predicate.and o.customPredicates).eval e).decision := by
  rw [decision_operator_Predicate, hp]
  simp only [List.length_nil, gt_iff_lt, lt_self_iff_false, if_false, List.append_nil]
  rw [Predicate.eval, decision_evalAnd]

theorem decision_Predicate_handlers {X : External} (o : operator X) (e : Event)
    (hp : o.predicates ≠ []) :
    (o.Predicate.eval e).decision =
      ((Predicate.and (o.customPredicates ++ [Predicate.or o.predicates])).eval e).decision := by
  have hpos : o.predicates.length > 0 := List.length_pos.mpr hp
  rw [decision_operator_Predicate, if_pos hpos, Predicate.eval, decision_evalAnd,
    List.map_append, List.map_cons, List.map_nil, Predicate.eval, decision_evalOr]

theorem decision_Predicate_funcs {X : External} (o : operator X) (e : Event) (fs : List Funcs)
    (hp : o.predicates ≠ []) (hc : o.customPredicates = fs.map Predicate.funcs) :
    (o.Predicate.eval e).decision =
      if fs.all (fun f => f.eval e)
      then decideOr (o.predicates.map (fun p => (p.eval e).decision)) else some false := by
  have hpos : o.predicates.length > 0 := List.length_pos.mpr hp
  rw [decision_operator_Predicate, if_pos hpos, hc, map_funcs_decision,
    decideAnd_append_some, all_map_id, decideAnd_singleton]


theorem any_false {α : Type} (l : List α) : l.any (fun _ => false) = false := by
  induction l with
  | nil => rfl
  | cons a rest ih => simp [List.any_cons, ih]

/-! ## Claims on the composed predicate of the operator -/

/-- C15: for an operator with no custom predicates, at least one handler registration and no
configuration error, the predicate returned by `Predicate()` accepts a Create event iff some
`OnCreateOrUpdate` registration has label/annotation options matching the object, an Update
event iff some `OnCreateOrUpdate` registration has options matching the old or the new object,
a Delete event iff some `OnDelete` registration has options matching the object, and never a
Generic event. -/
theorem C15_handlers_accept_own_kind_when_metadata_matches {X : External}
    (o0 : operator X) (regs : List (Registration X))
    (hc : o0.customPredicates = []) (hp : o0.predicates = []) (hregs : regs ≠ [])
    (herr : (regs.foldl operator.register o0).errs = none) :
    (∀ c : CreateEvent,
      ((regs.foldl operator.register o0).Predicate.Create c).decision =
        some (regs.any (fun r => r.isCreateOrUpdate && r.matchesObject c.Object))) ∧
    (∀ u : UpdateEvent,
      ((regs.foldl operator.register o0).Predicate.Update u).decision =
        some (regs.any (fun r => r.isCreateOrUpdate &&
          (r.matchesObject u.ObjectOld || r.matchesObject u.ObjectNew)))) ∧
    (∀ d : DeleteEvent,
      ((regs.foldl operator.register o0).Predicate.Delete d).decision =
        some (regs.any (fun r => !r.isCreateOrUpdate && r.matchesObject d.Object))) ∧
    (∀ g : GenericEvent,
      ((regs.foldl operator.register o0).Predicate.Generic g).decision = some false) := by
  refine ⟨fun c => ?_, fun u => ?_, fun d => ?_, fun g => ?_⟩
  · exact decision_Predicate_of_registrations o0 regs (Event.Create c) hc hp hregs herr
  · exact decision_Predicate_of_registrations o0 regs (Event.Update u) hc hp hregs herr
  · exact decision_Predicate_of_registrations o0 regs (Event.Delete d) hc hp hregs herr
  · have h := decision_Predicate_of_registrations o0 regs (Event.Generic g) hc hp hregs herr
    rw [show (fun r : Registration X => r.accepts (Event.Generic g)) = (fun _ => false) from rfl,
      any_false] at h
    exact h

set_option maxRecDepth 100000 in
/-- Witness for C15: a fresh operator with `OnCreateOrUpdate` registered for the label
`labelkey: labelvalue` and `OnDelete` registered without options. -/
theorem C15_handlers_accept_own_kind_when_metadata_matches_witness :
    freshOperator.customPredicates = [] ∧ freshOperator.predicates = [] ∧
    New unitExternal () [] = (some freshOperator, none) ∧
    ([Registration.OnCreateOrUpdate none [WithLabels (some [("labelkey", "labelvalue")])],
      Registration.OnDelete none []].foldl operator.register freshOperator).errs = none ∧
    (([Registration.OnCreateOrUpdate none [WithLabels (some [("labelkey", "labelvalue")])],
      Registration.OnDelete none []].foldl operator.register
        freshOperator).Predicate.Create ⟨testPod⟩).decision = some true ∧
    (([Registration.OnCreateOrUpdate none [WithLabels (some [("labelkey", "labelvalue")])],
      Registration.OnDelete none []].foldl operator.register
        freshOperator).Predicate.Create ⟨otherPod⟩).decision = some false ∧
    (([Registration.OnCreateOrUpdate none [WithLabels (some [("labelkey", "labelvalue")])],
      Registration.OnDelete none []].foldl operator.register
        freshOperator).Predicate.Update ⟨testPod, otherPod⟩).decision = some true ∧
    (([Registration.OnCreateOrUpdate none [WithLabels (some [("labelkey", "labelvalue")])],
      Registration.OnDelete none []].foldl operator.register
        freshOperator).Predicate.Delete ⟨otherPod⟩).decision = some true ∧
    (([Registration.OnCreateOrUpdate none [WithLabels (some [("labelkey", "labelvalue")])],
      Registration.OnDelete none []].foldl operator.register
        freshOperator).Predicate.Generic ⟨testPod⟩).decision = some false :=
  have herr : ([Registration.OnCreateOrUpdate none
        [WithLabels (some [("labelkey", "labelvalue")])],
      Registration.OnDelete none []].foldl operator.register freshOperator).errs = none :=
    Option.isNone_iff_eq_none.mp (by decide)
  have h := C15_handlers_accept_own_kind_when_metadata_matches freshOperator
    [Registration.OnCreateOrUpdate none [WithLabels (some [("labelkey", "labelvalue")])],
      Registration.OnDelete none []] rfl rfl (List.cons_ne_nil _ _) herr
  ⟨rfl, rfl, rfl, herr, (h.1 _).trans (by decide), (h.1 _).trans (by decide),
    (h.2.1 _).trans (by decide), (h.2.2.1 _).trans (by decide), h.2.2.2 _⟩


theorem decision_Predicate_handlers_only {X : External} (o : operator X) (e : Event)
    (hc : o.customPredicates = []) (hp : o.predicates ≠ []) :
    (o.Predicate.eval e).decision =
      decideOr (o.predicates.map (fun p => (p.eval e).decision)) := by
  have hpos : o.predicates.length > 0 := List.length_pos.mpr hp
  rw [decision_operator_Predicate, if_pos hpos, hc]
  simp only [List.map_nil, List.nil_append, decideAnd_singleton]

theorem eval_noOptions_CreateOrUpdate (e : Event) :
    (Predicate.and [Predicate.funcs {
        CreateFunc := some (fun _ => true)
        UpdateFunc := some (fun _ => true)
        DeleteFunc := some (fun _ => false)
        GenericFunc := some (fun _ => false) },
      Predicate.ofFuncs (CreateOrUpdateByMetadata (some []) (some [])).1]).eval e =
    some (match e with
      | Event.Create _ => true
      | Event.Update _ => true
      | Event.Delete _ => false
      | Event.Generic _ => false, []) := by
  rw [eval_handlerPredicate_CreateOrUpdate (some []) (some []) rfl e]
  cases e <;> simp only [Matches_no_requirements, Bool.or_self]

theorem eval_noOptions_Delete (e : Event) :
    (Predicate.and [Predicate.funcs {
        CreateFunc := some (fun _ => false)
        UpdateFunc := some (fun _ => false)
        DeleteFunc := some (fun _ => true)
        GenericFunc := some (fun _ => false) },
      Predicate.ofFuncs (DeleteByMetadata (some []) (some [])).1]).eval e =
    some (match e with
      | Event.Create _ => false
      | Event.Update _ => false
      | Event.Delete _ => true
      | Event.Generic _ => false, []) := by
  rw [eval_handlerPredicate_Delete (some []) (some []) rfl e]
  cases e <;> simp only [Matches_no_requirements]

theorem decision_one_CreateOrUpdate_noOptions {X : External} (o0 : operator X)
    (fn : Option X.Handler) (e : Event)
    (hc : o0.customPredicates = []) (hp : o0.predicates = []) :
    ((o0.OnCreateOrUpdate fn []).Predicate.eval e).decision =
      some (match e with
        | Event.Create _ => true
        | Event.Update _ => true
        | Event.Delete _ => false
        | Event.Generic _ => false) := by
  have hpred : (o0.OnCreateOrUpdate fn []).predicates = [Predicate.and [Predicate.funcs {
        CreateFunc := some (fun _ => true)
        UpdateFunc := some (fun _ => true)
        DeleteFunc := some (fun _ => false)
        GenericFunc := some (fun _ => false) },
      Predicate.ofFuncs (CreateOrUpdateByMetadata (some []) (some [])).1]] := by
    show o0.predicates ++ [_] = _
    rw [hp]; rfl
  rw [decision_Predicate_handlers_only (o0.OnCreateOrUpdate fn []) e hc
      (by rw [hpred]; exact List.cons_ne_nil _ _),
    hpred, List.map_cons, List.map_nil, eval_noOptions_CreateOrUpdate]
  cases e <;> rfl

theorem decision_both_noOptions {X : External} (o0 : operator X)
    (fn1 fn2 : Option X.Handler) (e : Event)
    (hc : o0.customPredicates = []) (hp : o0.predicates = []) :
    (((o0.OnCreateOrUpdate fn1 []).OnDelete fn2 []).Predicate.eval e).decision =
      some (match e with
        | Event.Create _ => true
        | Event.Update _ => true
        | Event.Delete _ => true
        | Event.Generic _ => false) ∧
    (((o0.OnDelete fn2 []).OnCreateOrUpdate fn1 []).Predicate.eval e).decision =
      some (match e with
        | Event.Create _ => true
        | Event.Update _ => true
        | Event.Delete _ => true
        | Event.Generic _ => false) := by
  have hpred1 : ((o0.OnCreateOrUpdate fn1 []).OnDelete fn2 []).predicates =
      [Predicate.and [Predicate.funcs {
        CreateFunc := some (fun _ => true)
        UpdateFunc := some (fun _ => true)
        DeleteFunc := some (fun _ => false)
        GenericFunc := some (fun _ => false) },
      Predicate.ofFuncs (CreateOrUpdateByMetadata (some []) (some [])).1],
      Predicate.and [Predicate.funcs {
        CreateFunc := some (fun _ => false)
        UpdateFunc := some (fun _ => false)
        DeleteFunc := some (fun _ => true)
        GenericFunc := some (fun _ => false) },
      Predicate.ofFuncs (DeleteByMetadata (some []) (some [])).1]] := by
    show (o0.predicates ++ [_]) ++ [_] = _
    rw [hp]; rfl
  have hpred2 : ((o0.OnDelete fn2 []).OnCreateOrUpdate fn1 []).predicates =
      [Predicate.and [Predicate.funcs {
        CreateFunc := some (fun _ => false)
        UpdateFunc := some (fun _ => false)
        DeleteFunc := some (fun _ => true)
        GenericFunc := some (fun _ => false) },
      Predicate.ofFuncs (DeleteByMetadata (some []) (some [])).1],
      Predicate.and [Predicate.funcs {
        CreateFunc := some (fun _ => true)
        UpdateFunc := some (fun _ => true)
        DeleteFunc := some (fun _ => false)
        GenericFunc := some (fun _ => false) },
      Predicate.ofFuncs (CreateOrUpdateByMetadata (some []) (some [])).1]] := by
    show (o0.predicates ++ [_]) ++ [_] = _
    rw [hp]; rfl
  constructor
  · rw [decision_Predicate_handlers_only ((o0.OnCreateOrUpdate fn1 []).OnDelete fn2 []) e hc
        (by rw [hpred1]; exact List.cons_ne_nil _ _),
      hpred1, List.map_cons, List.map_cons, List.map_nil, eval_noOptions_CreateOrUpdate,
      eval_noOptions_Delete]
    cases e <;> rfl
  · rw [decision_Predicate_handlers_only ((o0.OnDelete fn2 []).OnCreateOrUpdate fn1 []) e hc
        (by rw [hpred2]; exact List.cons_ne_nil _ _),
      hpred2, List.map_cons, List.map_cons, List.map_nil, eval_noOptions_CreateOrUpdate,
      eval_noOptions_Delete]
    cases e <;> rfl

/-- C16: with no custom predicate and exactly one `OnCreateOrUpdate` registration carrying
no label or annotation options, `Predicate()` returns true for every Create and every Update
event and false for every Delete and every Generic event, whatever the objects are (nil label
and annotation maps included). -/
theorem C16_single_create_or_update_handler_without_selector {X : External}
    (o0 : operator X) (fn : Option X.Handler)
    (c : CreateEvent) (u : UpdateEvent) (d : DeleteEvent) (g : GenericEvent)
    (hc : o0.customPredicates = []) (hp : o0.predicates = []) :
    ((o0.OnCreateOrUpdate fn []).Predicate.Create c).decision = some true ∧
    ((o0.OnCreateOrUpdate fn []).Predicate.Update u).decision = some true ∧
    ((o0.OnCreateOrUpdate fn []).Predicate.Delete d).decision = some false ∧
    ((o0.OnCreateOrUpdate fn []).Predicate.Generic g).decision = some false :=
  ⟨decision_one_CreateOrUpdate_noOptions o0 fn (Event.Create c) hc hp,
    decision_one_CreateOrUpdate_noOptions o0 fn (Event.Update u) hc hp,
    decision_one_CreateOrUpdate_noOptions o0 fn (Event.Delete d) hc hp,
    decision_one_CreateOrUpdate_noOptions o0 fn (Event.Generic g) hc hp⟩

/-- Witness for C16: the fresh operator and events of an object without labels and
annotations. -/
theorem C16_single_create_or_update_handler_without_selector_witness :
    freshOperator.customPredicates = [] ∧ freshOperator.predicates = [] ∧
    New unitExternal () [] = (some freshOperator, none) ∧
    ((freshOperator.OnCreateOrUpdate none []).Predicate.Create
      ⟨⟨"baz", "biz", none, none⟩⟩).decision = some true ∧
    ((freshOperator.OnCreateOrUpdate none []).Predicate.Update
      ⟨⟨"baz", "biz", none, none⟩, ⟨"baz", "biz", none, none⟩⟩).decision = some true ∧
    ((freshOperator.OnCreateOrUpdate none []).Predicate.Delete
      ⟨⟨"baz", "biz", none, none⟩⟩).decision = some false ∧
    ((freshOperator.OnCreateOrUpdate none []).Predicate.Generic
      ⟨⟨"baz", "biz", none, none⟩⟩).decision = some false :=
  ⟨rfl, rfl, rfl,
    C16_single_create_or_update_handler_without_selector freshOperator none
      ⟨⟨"baz", "biz", none, none⟩⟩ ⟨⟨"baz", "biz", none, none⟩, ⟨"baz", "biz", none, none⟩⟩
      ⟨⟨"baz", "biz", none, none⟩⟩ ⟨⟨"baz", "biz", none, none⟩⟩ rfl rfl⟩

/-- C17: with no custom predicate, one `OnCreateOrUpdate` registration and one `OnDelete`
registration, both without label or annotation options and in either order, `Predicate()`
returns true for every Create, Update and Delete event and false for every Generic event,
whatever the objects are. -/
theorem C17_both_handlers_without_selector {X : External}
    (o0 : operator X) (fn1 fn2 : Option X.Handler)
    (c : CreateEvent) (u : UpdateEvent) (d : DeleteEvent) (g : GenericEvent)
    (hc : o0.customPredicates = []) (hp : o0.predicates = []) :
    (((o0.OnCreateOrUpdate fn1 []).OnDelete fn2 []).Predicate.Create c).decision = some true ∧
    (((o0.OnCreateOrUpdate fn1 []).OnDelete fn2 []).Predicate.Update u).decision = some true ∧
    (((o0.OnCreateOrUpdate fn1 []).OnDelete fn2 []).Predicate.Delete d).decision = some true ∧
    (((o0.OnCreateOrUpdate fn1 []).OnDelete fn2 []).Predicate.Generic g).decision
      = some false ∧
    (((o0.OnDelete fn2 []).OnCreateOrUpdate fn1 []).Predicate.Create c).decision = some true ∧
    (((o0.OnDelete fn2 []).OnCreateOrUpdate fn1 []).Predicate.Update u).decision = some true ∧
    (((o0.OnDelete fn2 []).OnCreateOrUpdate fn1 []).Predicate.Delete d).decision = some true ∧
    (((o0.OnDelete fn2 []).OnCreateOrUpdate fn1 []).Predicate.Generic g).decision
      = some false :=
  ⟨(decision_both_noOptions o0 fn1 fn2 (Event.Create c) hc hp).1,
    (decision_both_noOptions o0 fn1 fn2 (Event.Update u) hc hp).1,
    (decision_both_noOptions o0 fn1 fn2 (Event.Delete d) hc hp).1,
    (decision_both_noOptions o0 fn1 fn2 (Event.Generic g) hc hp).1,
    (decision_both_noOptions o0 fn1 fn2 (Event.Create c) hc hp).2,
    (decision_both_noOptions o0 fn1 fn2 (Event.Update u) hc hp).2,
    (decision_both_noOptions o0 fn1 fn2 (Event.Delete d) hc hp).2,
    (decision_both_noOptions o0 fn1 fn2 (Event.Generic g) hc hp).2⟩

/-- Witness for C17: the fresh operator and the events of the two objects of the operator
tests. -/
theorem C17_both_handlers_without_selector_witness :
    freshOperator.customPredicates = [] ∧ freshOperator.predicates = [] ∧
    New unitExternal () [] = (some freshOperator, none) ∧
    (((freshOperator.OnCreateOrUpdate none []).OnDelete none []).Predicate.Create
      ⟨testPod⟩).decision = some true ∧
    (((freshOperator.OnCreateOrUpdate none []).OnDelete none []).Predicate.Update
      ⟨otherPod, otherPod⟩).decision = some true ∧
    (((freshOperator.OnCreateOrUpdate none []).OnDelete none []).Predicate.Delete
      ⟨otherPod⟩).decision = some true ∧
    (((freshOperator.OnCreateOrUpdate none []).OnDelete none []).Predicate.Generic
      ⟨testPod⟩).decision = some false :=
  have h := C17_both_handlers_without_selector freshOperator none none
    ⟨testPod⟩ ⟨otherPod, otherPod⟩ ⟨otherPod⟩ ⟨testPod⟩ rfl rfl
  ⟨rfl, rfl, rfl, h.1, h.2.1, h.2.2.1, h.2.2.2.1⟩


theorem New_customPredicates_only {X : External} (object : X.ClientObject)
    (cs : List Predicate) (o : operator X)
    (h : New X object (cs.map WithCustomPredicate) = (some o, none)) :
    o.predicates = [] ∧ o.customPredicates = cs ∧ o.errs = none := by
  unfold New at h
  rw [applyConstructorOptions_customPredicates] at h
  simp only at h
  cases hm : X.InitManager none with
  | error err => rw [hm] at h; simp at h
  | ok mgr =>
    rw [hm] at h
    simp only [Prod.mk.injEq, Option.some.injEq, and_true] at h
    subst h
    exact ⟨rfl, by simp, rfl⟩

theorem decision_and_funcs (fs : List Funcs) (e : Event) :
    ((Predicate.and (fs.map Predicate.funcs)).eval e).decision =
      some (fs.all (fun f => f.eval e)) := by
  rw [Predicate.eval, decision_evalAnd, map_funcs_decision, decideAnd_map_some, all_map_id]

/-- C18: for an operator built by `New` from custom predicates supplied through
`WithCustomPredicate` (with or without manager options) and without handler registration,
`Predicate()` decides every event of every kind as the conjunction `And` of the custom
predicates: `p1(event) && p2(event)` for two of them, the conjunction of all `n` for `n`. -/
theorem C18_custom_predicates_combine_by_and {X : External}
    (object : X.ClientObject) (mgrOpts : Option X.ManagerOptions) (cs : List Predicate)
    (o : operator X) (e : Event)
    (h : New X object (cs.map WithCustomPredicate) = (some o, none) ∨
      New X object (WithManagerOptions mgrOpts :: cs.map WithCustomPredicate)
        = (some o, none)) :
    (o.Predicate.eval e).decision = ((Predicate.and cs).eval e).decision ∧
    (∀ fs : List Funcs, cs = fs.map Predicate.funcs →
      (o.Predicate.eval e).decision = some (fs.all (fun f => f.eval e))) ∧
    (∀ p1 p2 : Funcs, cs = [Predicate.funcs p1, Predicate.funcs p2] →
      (o.Predicate.eval e).decision = some (p1.eval e && p2.eval e)) := by
  have hf : o.predicates = [] ∧ o.customPredicates = cs ∧ o.errs = none := by
    rcases h with h | h
    · exact New_customPredicates_only object cs o h
    · exact New_customPredicates object mgrOpts cs o h
  have h1 : (o.Predicate.eval e).decision = ((Predicate.and cs).eval e).decision := by
    rw [decision_Predicate_no_handlers o e hf.1, hf.2.1]
  refine ⟨h1, ?_, ?_⟩
  · intro fs hfs
    rw [h1, hfs, decision_and_funcs]
  · intro p1 p2 hps
    have := decision_and_funcs [p1, p2] e
    rw [h1, hps]
    simpa using this

/-- Witness for C18: two custom predicates answering true and false; every kind of event is
rejected. -/
theorem C18_custom_predicates_combine_by_and_witness :
    New unitExternal () (WithManagerOptions (some ()) ::
      [Predicate.funcs (constFuncs true), Predicate.funcs (constFuncs false)].map
        WithCustomPredicate) =
      (some (customOperator
        [Predicate.funcs (constFuncs true), Predicate.funcs (constFuncs false)]), none) ∧
    ((customOperator [Predicate.funcs (constFuncs true),
      Predicate.funcs (constFuncs false)]).Predicate.eval (Event.Create ⟨testPod⟩)).decision
      = some false ∧
    ((customOperator [Predicate.funcs (constFuncs true),
      Predicate.funcs (constFuncs false)]).Predicate.eval (Event.Generic ⟨testPod⟩)).decision
      = some false :=
  ⟨rfl,
    ((@C18_custom_predicates_combine_by_and unitExternal () (some ())
      [Predicate.funcs (constFuncs true), Predicate.funcs (constFuncs false)]
      (customOperator [Predicate.funcs (constFuncs true), Predicate.funcs (constFuncs false)])
      (Event.Create ⟨testPod⟩) (Or.inr rfl)).2.2 _ _ rfl).trans (by decide),
    ((@C18_custom_predicates_combine_by_and unitExternal () (some ())
      [Predicate.funcs (constFuncs true), Predicate.funcs (constFuncs false)]
      (customOperator [Predicate.funcs (constFuncs true), Predicate.funcs (constFuncs false)])
      (Event.Generic ⟨testPod⟩) (Or.inr rfl)).2.2 _ _ rfl).trans (by decide)⟩

/-! ## Lemmas on custom predicates that return -/

theorem decision_of_returns (p : Predicate) (e : Event) (h : p.eval e ≠ none) :
    (p.eval e).decision = some (p.accepts e) := by
  unfold Predicate.accepts
  cases hp : p.eval e with
  | none => exact absurd hp h
  | some r =>
    obtain ⟨d, l⟩ := r
    cases d <;> rfl

theorem map_decision_of_return (cs : List Predicate) (e : Event)
    (h : ∀ p ∈ cs, p.eval e ≠ none) :
    cs.map (fun p => (p.eval e).decision) = (cs.map (fun p => p.accepts e)).map some := by
  rw [List.map_map]
  apply List.map_congr_left
  intro p hp
  exact decision_of_returns p e (h p hp)

theorem decision_Predicate_returning {X : External} (o : operator X) (e : Event)
    (hp : o.predicates ≠ []) (ht : ∀ p ∈ o.customPredicates, p.eval e ≠ none) :
    (o.Predicate.eval e).decision =
      if o.customPredicates.all (fun p => p.accepts e)
      then decideOr (o.predicates.map (fun p => (p.eval e).decision)) else some false := by
  have hpos : o.predicates.length > 0 := List.length_pos.mpr hp
  rw [decision_operator_Predicate, if_pos hpos, map_decision_of_return _ e ht,
    decideAnd_append_some, all_map_id, decideAnd_singleton]

theorem decision_Predicate_rejected {X : External} (o : operator X) (e : Event)
    (hp : o.predicates ≠ []) (pre post : List Predicate) (p : Predicate)
    (hc : o.customPredicates = pre ++ p :: post) (hpre : ∀ q ∈ pre, q.eval e ≠ none)
    (hrej : (p.eval e).decision = some false) :
    (o.Predicate.eval e).decision = some false := by
  have hpos : o.predicates.length > 0 := List.length_pos.mpr hp
  rw [decision_operator_Predicate, if_pos hpos, hc, List.map_append, List.map_cons, hrej,
    map_decision_of_return _ e hpre, List.append_assoc, decideAnd_append_some]
  by_cases h : (pre.map (fun p => p.accepts e)).all id = true
  · rw [if_pos h]; rfl
  · rw [if_neg h]

/-- C19, as claimed, fails: with a nil custom predicate the order of the custom predicates
matters.  For the custom predicates nil and a predicate that rejects every event, with one
`OnCreateOrUpdate` registration, the evaluation of the Create event of the test object
panics when nil comes first, although a custom predicate rejects the event, and rejects the
event when nil comes second. -/
theorem C19_nil_custom_predicate_makes_order_matter :
    ∃ o1 o2 : operator unitExternal,
      New unitExternal () [WithCustomPredicate Predicate.nil,
        WithCustomPredicate (Predicate.funcs (constFuncs false))] = (some o1, none) ∧
      New unitExternal () [WithCustomPredicate (Predicate.funcs (constFuncs false)),
        WithCustomPredicate Predicate.nil] = (some o2, none) ∧
      ((Predicate.funcs (constFuncs false)).eval (Event.Create ⟨testPod⟩)).decision =
        some false ∧
      ((o1.OnCreateOrUpdate (some ()) []).Predicate.eval (Event.Create ⟨testPod⟩)).decision =
        none ∧
      ((o2.OnCreateOrUpdate (some ()) []).Predicate.eval (Event.Create ⟨testPod⟩)).decision =
        some false :=
  ⟨_, _, rfl, rfl, rfl, rfl, rfl⟩

/-- C19, amended: when at least one handler is registered, `Predicate()` decides every event
as `And(custom predicates..., Or(handler predicates...))`, evaluated from left to right.  A
custom predicate that rejects the event makes the decision false, whatever the handlers and
the metadata are, provided the custom predicates before it return.  When every custom
predicate returns on the event (none is nil or panics): if the handler predicates decide
`ds`, the decision is `(any of ds) && (all custom predicates accept)`; after handler
registrations without configuration error it is `(some registration accepts) && (all custom
predicates accept)`; and the decision is the same when the custom predicates are supplied in
another order. -/
theorem C19_handlers_or_then_custom_and_when_custom_predicates_return {X : External}
    (o : operator X) (e : Event)
    (hp : o.predicates ≠ []) (ht : ∀ p ∈ o.customPredicates, p.eval e ≠ none) :
    (o.Predicate.eval e).decision =
      ((Predicate.and (o.customPredicates ++ [Predicate.or o.predicates])).eval e).decision ∧
    (∀ ds : List Bool, o.predicates.map (fun p => (p.eval e).decision) = ds.map some →
      (o.Predicate.eval e).decision =
        some (ds.any id && o.customPredicates.all (fun p => p.accepts e))) ∧
    (∀ (o0 : operator X) (regs : List (Registration X)),
      o = regs.foldl operator.register o0 → o0.predicates = [] → o.errs = none →
      (o.Predicate.eval e).decision =
        some (regs.any (fun r => r.accepts e) &&
          o.customPredicates.all (fun p => p.accepts e))) ∧
    ((∃ p ∈ o.customPredicates, (p.eval e).decision = some false) →
      (o.Predicate.eval e).decision = some false) ∧
    (∀ o' : operator X, o'.customPredicates.Perm o.customPredicates →
      o'.predicates = o.predicates →
      (o'.Predicate.eval e).decision = (o.Predicate.eval e).decision) ∧
    (∀ (o' : operator X) (pre post : List Predicate) (p : Predicate),
      o'.predicates ≠ [] → o'.customPredicates = pre ++ p :: post →
      (∀ q ∈ pre, q.eval e ≠ none) → (p.eval e).decision = some false →
      (o'.Predicate.eval e).decision = some false) := by
  have hds : ∀ ds : List Bool, o.predicates.map (fun p => (p.eval e).decision) = ds.map some →
      (o.Predicate.eval e).decision =
        some (ds.any id && o.customPredicates.all (fun p => p.accepts e)) := by
    intro ds hds
    rw [decision_Predicate_returning o e hp ht, hds, decideOr_map_some]
    cases o.customPredicates.all (fun p => p.accepts e) <;> simp
  refine ⟨decision_Predicate_handlers o e hp, hds, ?_, ?_, ?_, ?_⟩
  · intro o0 regs ho h0 herr
    subst ho
    obtain ⟨_, ps, hps, hev⟩ := foldl_register_spec regs o0
    obtain ⟨_, hmap⟩ := hev herr
    rw [h0, List.nil_append] at hps
    have := hds (regs.map (fun r => r.accepts e)) (by
      rw [hps, hmap e, List.map_map]; rfl)
    rw [this, any_map_id]
  · rintro ⟨p, hmem, hrej⟩
    rw [decision_Predicate_returning o e hp ht]
    have hall : o.customPredicates.all (fun p => p.accepts e) = false := by
      rw [List.all_eq_false]
      refine ⟨p, hmem, ?_⟩
      unfold Predicate.accepts
      rw [hrej]
      simp
    rw [hall]
    rfl
  · intro o' hperm hp'
    have ht' : ∀ p ∈ o'.customPredicates, p.eval e ≠ none :=
      fun p hmem => ht p (hperm.subset hmem)
    rw [decision_Predicate_returning o e hp ht,
      decision_Predicate_returning o' e (by rw [hp']; exact hp) ht', hp',
      perm_all_eq (fun p => p.accepts e) hperm]
  · intro o' pre post p hp' hc hpre hrej
    exact decision_Predicate_rejected o' e hp' pre post p hc hpre hrej

set_option maxRecDepth 100000 in
/-- Witness for C19: two custom predicates, one of them a `Log` predicate that rejects every
event, and `OnCreateOrUpdate` registered without options; the Create event of the test
object is rejected. -/
theorem C19_handlers_or_then_custom_and_when_custom_predicates_return_witness :
    ((customOperator [Predicate.funcs (constFuncs true),
      Log logfLog true [Predicate.funcs (constFuncs false)]]).OnCreateOrUpdate none
        []).predicates ≠ [] ∧
    (∀ p ∈ ((customOperator [Predicate.funcs (constFuncs true),
      Log logfLog true [Predicate.funcs (constFuncs false)]]).OnCreateOrUpdate none
        []).customPredicates, p.eval (Event.Create ⟨testPod⟩) ≠ none) ∧
    (((customOperator [Predicate.funcs (constFuncs true),
      Log logfLog true [Predicate.funcs (constFuncs false)]]).OnCreateOrUpdate none
        []).Predicate.eval (Event.Create ⟨testPod⟩)).decision = some false :=
  have ht : ∀ p ∈ ((customOperator [Predicate.funcs (constFuncs true),
      Log logfLog true [Predicate.funcs (constFuncs false)]]).OnCreateOrUpdate none
        []).customPredicates, p.eval (Event.Create ⟨testPod⟩) ≠ none := fun p hmem => by
    have hmem' : p ∈ [Predicate.funcs (constFuncs true),
      Log logfLog true [Predicate.funcs (constFuncs false)]] := hmem
    simp only [List.mem_cons, List.mem_singleton, List.not_mem_nil, or_false] at hmem'
    rcases hmem' with rfl | rfl
    · intro h; cases h
    · intro h; cases h
  ⟨List.cons_ne_nil _ _, ht,
    (C19_handlers_or_then_custom_and_when_custom_predicates_return
      ((customOperator [Predicate.funcs (constFuncs true),
        Log logfLog true [Predicate.funcs (constFuncs false)]]).OnCreateOrUpdate none [])
      (Event.Create ⟨testPod⟩) (List.cons_ne_nil _ _) ht).2.2.2.1
      ⟨Log logfLog true [Predicate.funcs (constFuncs false)],
        List.mem_cons_of_mem _ (List.mem_cons_self _ _), by decide⟩⟩

/-- C20: when no handler is registered the union step is skipped: `Predicate()` decides as
the conjunction of the custom predicates alone; with exactly one custom predicate it returns
that predicate's decision for every event of every kind, and with no custom predicate it
accepts every event of every kind. -/
theorem C20_no_handler_skips_union {X : External} (o : operator X) (e : Event)
    (hp : o.predicates = []) :
    (o.Predicate.eval e).decision = ((Predicate.and o.customPredicates).eval e).decision ∧
    (∀ p : Predicate, o.customPredicates = [p] →
      (o.Predicate.eval e).decision = (p.eval e).decision) ∧
    (o.customPredicates = [] → (o.Predicate.eval e).decision = some true) ∧
    (∀ (object : X.ClientObject) (mgrOpts : Option X.ManagerOptions) (p : Predicate)
        (o' : operator X),
      New X object [WithManagerOptions mgrOpts, WithCustomPredicate p] = (some o', none) →
      (o'.Predicate.eval e).decision = (p.eval e).decision) ∧
    (∀ (object : X.ClientObject) (mgrOpts : Option X.ManagerOptions) (o' : operator X),
      New X object [WithManagerOptions mgrOpts] = (some o', none) →
      (o'.Predicate.eval e).decision = some true) := by
  have h1 : ∀ o1 : operator X, o1.predicates = [] → ∀ p : Predicate, o1.customPredicates = [p] →
      (o1.Predicate.eval e).decision = (p.eval e).decision := by
    intro o1 hp1 p hc
    rw [decision_Predicate_no_handlers o1 e hp1, hc, Predicate.eval, decision_evalAnd]
    simp only [List.map_cons, List.map_nil, decideAnd_singleton]
  have h0 : ∀ o1 : operator X, o1.predicates = [] → o1.customPredicates = [] →
      (o1.Predicate.eval e).decision = some true := by
    intro o1 hp1 hc
    rw [decision_Predicate_no_handlers o1 e hp1, hc]
    rfl
  refine ⟨decision_Predicate_no_handlers o e hp, h1 o hp, h0 o hp, ?_, ?_⟩
  · intro object mgrOpts p o' hnew
    have hf := New_customPredicates object mgrOpts [p] o' hnew
    exact h1 o' hf.1 p hf.2.1
  · intro object mgrOpts o' hnew
    have hf := New_customPredicates object mgrOpts [] o' hnew
    exact h0 o' hf.1 hf.2.1

/-- Witness for C20: the fresh operator accepts the Generic event of the test object, and
with the single custom predicate answering false it rejects it. -/
theorem C20_no_handler_skips_union_witness :
    freshOperator.predicates = [] ∧
    New unitExternal () [WithManagerOptions (some ())] = (some freshOperator, none) ∧
    (freshOperator.Predicate.eval (Event.Generic ⟨testPod⟩)).decision = some true :=
  ⟨rfl, rfl,
    (C20_no_handler_skips_union freshOperator (Event.Generic ⟨testPod⟩) rfl).2.2.1 rfl⟩

/-! ## Lemmas on the logging wrapper -/

theorem logWrapper_eq (log : Logger) (logIgnored : Bool) (e : Event) (decision : Bool) :
    logWrapper (log.WithName "EventFilter") logIgnored e.action decision e.loggedObject =
      (decision, wrapperRecords log logIgnored e decision) := by
  cases decision <;> cases logIgnored <;> rfl

theorem eval_Log (log : Logger) (logIgnored : Bool) (p : List Predicate) (e : Event) :
    (Log log logIgnored p).eval e =
      ((Predicate.and p).eval e).map
        (fun r => (r.1, r.2 ++ wrapperRecords log logIgnored e r.1)) := by
  have h : (Log log logIgnored p).eval e =
      logCall (log.WithName "EventFilter") logIgnored e.action ((Predicate.and p).eval e)
        e.loggedObject := by
    cases e <;> rfl
  rw [h]
  cases (Predicate.and p).eval e with
  | none => rfl
  | some r =>
    obtain ⟨d, l⟩ := r
    simp only [logCall, logWrapper_eq, Option.map]


theorem Silent_funcs (f : Funcs) : Silent (Predicate.funcs f) := fun _ => rfl

theorem Silent_nil : Silent Predicate.nil := fun _ => rfl

theorem Silent_ofFuncs (f : Option Funcs) : Silent (Predicate.ofFuncs f) := by
  cases f with
  | none => exact Silent_nil
  | some g => exact Silent_funcs g

theorem records_evalAnd (ps : List Predicate) (e : Event) (h : ∀ p ∈ ps, Silent p) :
    (Predicate.evalAnd ps e).records = [] := by
  induction ps with
  | nil => rfl
  | cons p rest ih =>
    have hp := h p (List.mem_cons_self _ _) e
    have hrest := ih (fun q hq => h q (List.mem_cons_of_mem _ hq))
    rw [Predicate.evalAnd]
    cases hpe : Predicate.eval p e with
    | none => rfl
    | some r =>
      obtain ⟨d, l⟩ := r
      rw [hpe] at hp
      have hl : l = [] := hp
      subst hl
      cases d with
      | false => rfl
      | true =>
        cases hre : Predicate.evalAnd rest e with
        | none => rfl
        | some r' =>
          obtain ⟨d', l'⟩ := r'
          rw [hre] at hrest
          have hl' : l' = [] := hrest
          subst hl'
          rfl

theorem records_evalOr (ps : List Predicate) (e : Event) (h : ∀ p ∈ ps, Silent p) :
    (Predicate.evalOr ps e).records = [] := by
  induction ps with
  | nil => rfl
  | cons p rest ih =>
    have hp := h p (List.mem_cons_self _ _) e
    have hrest := ih (fun q hq => h q (List.mem_cons_of_mem _ hq))
    rw [Predicate.evalOr]
    cases hpe : Predicate.eval p e with
    | none => rfl
    | some r =>
      obtain ⟨d, l⟩ := r
      rw [hpe] at hp
      have hl : l = [] := hp
      subst hl
      cases d with
      | true => rfl
      | false =>
        cases hre : Predicate.evalOr rest e with
        | none => rfl
        | some r' =>
          obtain ⟨d', l'⟩ := r'
          rw [hre] at hrest
          have hl' : l' = [] := hrest
          subst hl'
          rfl

theorem Silent_and (ps : List Predicate) (h : ∀ p ∈ ps, Silent p) :
    Silent (Predicate.and ps) := fun e => by
  rw [Predicate.eval]; exact records_evalAnd ps e h

theorem Silent_or (ps : List Predicate) (h : ∀ p ∈ ps, Silent p) :
    Silent (Predicate.or ps) := fun e => by
  rw [Predicate.eval]; exact records_evalOr ps e h

theorem register_Silent {X : External} (o : operator X) (r : Registration X)
    (h : ∀ p ∈ o.predicates, Silent p) : ∀ p ∈ (o.register r).predicates, Silent p := by
  intro p hp
  cases r with
  | OnCreateOrUpdate fn opts =>
    rcases List.mem_append.mp hp with hp | hp
    · exact h p hp
    · rw [List.mem_singleton] at hp
      subst hp
      apply Silent_and
      intro q hq
      rcases List.mem_cons.mp hq with hq | hq
      · subst hq; exact Silent_funcs _
      · rw [List.mem_singleton] at hq
        subst hq; exact Silent_ofFuncs _
  | OnDelete fn opts =>
    rcases List.mem_append.mp hp with hp | hp
    · exact h p hp
    · rw [List.mem_singleton] at hp
      subst hp
      apply Silent_and
      intro q hq
      rcases List.mem_cons.mp hq with hq | hq
      · subst hq; exact Silent_funcs _
      · rw [List.mem_singleton] at hq
        subst hq; exact Silent_ofFuncs _

theorem foldl_register_Silent {X : External} (regs : List (Registration X)) (o : operator X)
    (h : ∀ p ∈ o.predicates, Silent p) :
    ∀ p ∈ (regs.foldl operator.register o).predicates, Silent p := by
  induction regs generalizing o with
  | nil => exact h
  | cons r rest ih => exact ih (o.register r) (register_Silent o r h)

theorem Silent_operatorPredicate {X : External} (o : operator X)
    (hc : ∀ p ∈ o.customPredicates, Silent p) (hp : ∀ p ∈ o.predicates, Silent p) :
    Silent (Predicate.and [Predicate.and
      (if o.predicates.length > 0
        then o.customPredicates ++ [Lot.Predicate.or o.predicates]
        else o.customPredicates)]) := by
  apply Silent_and
  intro q hq
  rw [List.mem_singleton] at hq
  subst hq
  apply Silent_and
  intro q hq
  by_cases hlen : o.predicates.length > 0
  · rw [if_pos hlen] at hq
    rcases List.mem_append.mp hq with hq | hq
    · exact hc q hq
    · rw [List.mem_singleton] at hq
      subst hq
      exact Silent_or _ hp
  · rw [if_neg hlen] at hq
    exact hc q hq

theorem eval_operator_Predicate {X : External} (o : operator X) (e : Event)
    (hc : ∀ p ∈ o.customPredicates, Silent p) (hp : ∀ p ∈ o.predicates, Silent p) :
    o.Predicate.eval e =
      (o.Predicate.eval e).decision.map (fun d => (d, wrapperRecords logfLog false e d)) := by
  have hs := Silent_operatorPredicate o hc hp e
  have h : o.Predicate.eval e =
      ((Predicate.and [Predicate.and
        (if o.predicates.length > 0
          then o.customPredicates ++ [Lot.Predicate.or o.predicates]
          else o.customPredicates)]).eval e).map
        (fun r => (r.1, r.2 ++ wrapperRecords logfLog false e r.1)) :=
    eval_Log logfLog false _ e
  rw [h]
  cases hi : (Predicate.and [Predicate.and
        (if o.predicates.length > 0
          then o.customPredicates ++ [Lot.Predicate.or o.predicates]
          else o.customPredicates)]).eval e with
  | none => rfl
  | some r =>
    obtain ⟨d, l⟩ := r
    rw [hi] at hs
    have hl : l = [] := hs
    subst hl
    rfl


/-! ## Claims on the logging wrapper -/

/-- C21: for every logger, every `logIgnored`, every list of predicates and every event of
each kind, `Log(log, logIgnored, p...)` returns exactly the decision of `And(p...)` on the
event (and panics exactly when `And(p...)` does), and it evaluates that conjunction once: the
log records of the run are those of one evaluation of `And(p...)` followed by what the
wrapper writes for the decision.  For `predicate.Funcs` values the decision is the Boolean
conjunction. -/
theorem C21_Log_returns_decision_of_And
    (log : Logger) (logIgnored : Bool) (p : List Predicate) (e : Event) :
    ((Log log logIgnored p).eval e).decision = ((Predicate.and p).eval e).decision ∧
    ((Log log logIgnored p).eval e = none ↔ (Predicate.and p).eval e = none) ∧
    ((Log log logIgnored p).eval e).records =
      ((Predicate.and p).eval e).records ++
        (match ((Predicate.and p).eval e).decision with
          | some d => wrapperRecords log logIgnored e d
          | none => []) ∧
    (∀ fs : List Funcs, p = fs.map Predicate.funcs →
      ((Log log logIgnored p).eval e).decision = some (fs.all (fun f => f.eval e))) := by
  refine ⟨decision_eval_Log log logIgnored p e, ?_, ?_, ?_⟩
  · rw [eval_Log]
    cases (Predicate.and p).eval e <;> simp
  · rw [eval_Log]
    cases (Predicate.and p).eval e with
    | none => rfl
    | some r => rfl
  · intro fs hfs
    rw [decision_eval_Log, hfs, decision_and_funcs]

/-- Counterexample to C22 as stated: on an operator with one `OnCreateOrUpdate` registration
the Delete event of the test object is ignored, and its evaluation by `Predicate()` writes no
log record at all. -/
theorem C22_ignored_event_writes_no_record :
    (freshOperator.OnCreateOrUpdate none []).Predicate.eval (Event.Delete ⟨testPod⟩) =
      some (false, []) ∧
    ((freshOperator.OnCreateOrUpdate none []).Predicate.eval
      (Event.Delete ⟨testPod⟩)).records.length ≠ 1 := by
  constructor
  · rfl
  · decide

theorem eval_and_singleton (q : Predicate) (e : Event) :
    (Predicate.and [q]).eval e = q.eval e := by
  rw [Predicate.eval, Predicate.evalAnd]
  cases hq : Predicate.eval q e with
  | none => rfl
  | some r =>
    obtain ⟨d, l⟩ := r
    cases d with
    | false => rfl
    | true =>
      simp only [Predicate.evalAnd, List.append_nil]

theorem records_operator_Predicate {X : External} (o : operator X) (e : Event) :
    (o.Predicate.eval e).records =
      ((Predicate.and
        (if o.predicates.length > 0
          then o.customPredicates ++ [Predicate.or o.predicates]
          else o.customPredicates)).eval e).records ++
      (if (o.Predicate.eval e).decision = some true
       then [⟨["EventFilter"], 1, "Event accepted",
          [("event", e.action), ("name", e.loggedObject.Name),
            ("namespace", e.loggedObject.Namespace)]⟩]
       else []) := by
  have h : o.Predicate.eval e =
      ((Predicate.and [Predicate.and
        (if o.predicates.length > 0
          then o.customPredicates ++ [Lot.Predicate.or o.predicates]
          else o.customPredicates)]).eval e).map
        (fun r => (r.1, r.2 ++ wrapperRecords logfLog false e r.1)) :=
    eval_Log logfLog false _ e
  rw [eval_and_singleton] at h
  rw [h]
  cases (Predicate.and
        (if o.predicates.length > 0
          then o.customPredicates ++ [Lot.Predicate.or o.predicates]
          else o.customPredicates)).eval e with
  | none => rfl
  | some r =>
    obtain ⟨d, l⟩ := r
    cases d <;> rfl

/-- C22 (amended): `Predicate()` wraps its predicate with `logIgnored = false`.  For every
operator and every event, the log records of the evaluation are those the wrapped predicate
writes itself, followed by exactly one record of the wrapper when the event is accepted,
namely `Event accepted` of logger `EventFilter` at verbosity 1 carrying the event kind, the
object name and the object namespace, and by no record of the wrapper when the event is
ignored.  The handler predicates write no record; so after any handler registrations, when
the custom predicates write no record themselves, as `predicate.Funcs` values do, the
evaluation writes exactly that one record for an accepted event and none for an ignored
one. -/
theorem C22_wrapper_writes_one_record_when_accepted_none_when_ignored {X : External}
    (o0 : operator X) (regs : List (Registration X)) (e : Event)
    (hp : o0.predicates = []) (hs : ∀ p ∈ o0.customPredicates, Silent p) :
    ((regs.foldl operator.register o0).Predicate.eval e).records =
      (if ((regs.foldl operator.register o0).Predicate.eval e).decision = some true
       then [⟨["EventFilter"], 1, "Event accepted",
          [("event", e.action), ("name", e.loggedObject.Name),
            ("namespace", e.loggedObject.Namespace)]⟩]
       else []) ∧
    (∀ o : operator X,
      (o.Predicate.eval e).records =
        ((Predicate.and
          (if o.predicates.length > 0
            then o.customPredicates ++ [Predicate.or o.predicates]
            else o.customPredicates)).eval e).records ++
        (if (o.Predicate.eval e).decision = some true
         then [⟨["EventFilter"], 1, "Event accepted",
            [("event", e.action), ("name", e.loggedObject.Name),
              ("namespace", e.loggedObject.Namespace)]⟩]
         else [])) ∧
    (∀ p ∈ (regs.foldl operator.register o0).predicates, Silent p) ∧
    (∀ f : Funcs, Silent (Predicate.funcs f)) := by
  have hpred : ∀ p ∈ (regs.foldl operator.register o0).predicates, Silent p :=
    foldl_register_Silent regs o0 (by rw [hp]; simp)
  have hcust : ∀ p ∈ (regs.foldl operator.register o0).customPredicates, Silent p := by
    rw [(foldl_register_spec regs o0).1]
    exact hs
  refine ⟨?_, fun o => records_operator_Predicate o e, hpred, Silent_funcs⟩
  have h := eval_operator_Predicate (regs.foldl operator.register o0) e hcust hpred
  cases hd : ((regs.foldl operator.register o0).Predicate.eval e).decision with
  | none =>
    rw [hd] at h
    rw [h]
    rfl
  | some d =>
    rw [hd] at h
    rw [h]
    cases d <;> rfl

set_option maxRecDepth 100000 in
/-- Witness for C22 (amended): the operator with one custom `predicate.Funcs` and one
`OnCreateOrUpdate` registration; the Create event of the test object is accepted and writes
the one record. -/
theorem C22_wrapper_writes_one_record_when_accepted_none_when_ignored_witness :
    (customOperator [Predicate.funcs (constFuncs true)]).predicates = [] ∧
    (∀ p ∈ (customOperator [Predicate.funcs (constFuncs true)]).customPredicates, Silent p) ∧
    (([Registration.OnCreateOrUpdate none []].foldl operator.register
      (customOperator [Predicate.funcs (constFuncs true)])).Predicate.eval
        (Event.Create ⟨testPod⟩)).records =
      [⟨["EventFilter"], 1, "Event accepted",
        [("event", "CREATE"), ("name", "baz"), ("namespace", "biz")]⟩] :=
  have hs : ∀ p ∈ (customOperator [Predicate.funcs (constFuncs true)]).customPredicates,
      Silent p := fun p hp e => by
    have hp' : p ∈ [Predicate.funcs (constFuncs true)] := hp
    rw [List.mem_singleton] at hp'
    subst hp'
    rfl
  ⟨rfl, hs,
    (C22_wrapper_writes_one_record_when_accepted_none_when_ignored
      (customOperator [Predicate.funcs (constFuncs true)])
      [Registration.OnCreateOrUpdate none []] (Event.Create ⟨testPod⟩) rfl hs).1.trans
      (by decide)⟩

theorem handlerCalls_append {X : External} (a b : List (Step X)) :
    handlerCalls (a ++ b) = handlerCalls a ++ handlerCalls b := by
  induction a with
  | nil => rfl
  | cons s rest ih => cases s <;> simp [handlerCalls, ih]

theorem handlerCalls_runHandler {X : External} {W : Type} (rt : Runtime X W)
    (kind : HandlerKind) (h : Option X.Handler) (o : X.ClientObject) (cl : X.Client)
    (scheme : rt.Scheme) (w : W) :
    handlerCalls (runHandler rt kind h o cl scheme w).2.1 =
      match h with
      | some f => [(kind, f, o)]
      | none => [] := by
  cases h <;> rfl

theorem WithClient_fetch_failed {X : External} {W : Type} (rt : Runtime X W) (cl : X.Client)
    (obj : X.ClientObject) (scheme : rt.Scheme) (fn : HandlerFuncs X.Handler)
    (request : Request) (w : W) (o o1 : X.ClientObject) (err : GoError) (w1 : W)
    (ho : newObject rt obj scheme = some o)
    (hget : rt.Get cl request.NamespacedName o w = (some err, o1, w1)) :
    ∃ r : Reconciled X W, WithClient rt cl obj scheme fn request w = some r ∧
      r.result = ⟨false, 0⟩ ∧ r.err = IgnoreNotFound rt err ∧ handlerCalls r.steps = [] ∧
      r.world = w1 := by
  unfold WithClient
  rw [ho]
  simp only [hget]
  exact ⟨_, rfl, rfl, rfl, rfl, rfl⟩

theorem WithClient_fetched {X : External} {W : Type} (rt : Runtime X W) (cl : X.Client)
    (obj : X.ClientObject) (scheme : rt.Scheme) (fn : HandlerFuncs X.Handler)
    (request : Request) (w : W) (o o1 : X.ClientObject) (w1 : W)
    (ho : newObject rt obj scheme = some o)
    (hget : rt.Get cl request.NamespacedName o w = (none, o1, w1)) :
    ∃ r : Reconciled X W, WithClient rt cl obj scheme fn request w = some r ∧
      r.result = ⟨false, 0⟩ ∧
      r.err =
        (match (runHandler rt HandlerKind.Delete fn.DeleteHandler o1 cl scheme w1).1 with
          | some e => some e
          | none => (runHandler rt HandlerKind.CreateOrUpdate fn.CreateOrUpdateHandler o1 cl
              scheme (runHandler rt HandlerKind.Delete fn.DeleteHandler o1 cl scheme
                w1).2.2).1) ∧
      handlerCalls r.steps =
        (match fn.DeleteHandler with
          | some hd => [(HandlerKind.Delete, hd, o1)]
          | none => []) ++
        (match (runHandler rt HandlerKind.Delete fn.DeleteHandler o1 cl scheme w1).1 with
          | some _ => []
          | none =>
            match fn.CreateOrUpdateHandler with
            | some hc => [(HandlerKind.CreateOrUpdate, hc, o1)]
            | none => []) := by
  unfold WithClient
  rw [ho]
  simp only [hget]
  cases hd : (runHandler rt HandlerKind.Delete fn.DeleteHandler o1 cl scheme w1).1 with
  | some e =>
    refine ⟨_, rfl, rfl, rfl, ?_⟩
    simp only [handlerCalls_append, handlerCalls_runHandler, List.append_nil]
    rfl
  | none =>
    cases hc : (runHandler rt HandlerKind.CreateOrUpdate fn.CreateOrUpdateHandler o1 cl
        scheme (runHandler rt HandlerKind.Delete fn.DeleteHandler o1 cl scheme w1).2.2).1 with
    | some e =>
      refine ⟨_, rfl, rfl, rfl, ?_⟩
      simp only [handlerCalls_append, handlerCalls_runHandler]
      rfl
    | none =>
      refine ⟨_, rfl, rfl, rfl, ?_⟩
      simp only [handlerCalls_append, handlerCalls_runHandler]
      rfl


theorem handlerCalls_from_table {X : External} {W : Type} (rt : Runtime X W) (cl : X.Client)
    (obj : X.ClientObject) (scheme : rt.Scheme) (fn : HandlerFuncs X.Handler)
    (request : Request) (w : W) (r : Reconciled X W)
    (h : WithClient rt cl obj scheme fn request w = some r) :
    ∀ c ∈ handlerCalls r.steps,
      (c.1 = HandlerKind.Delete ∧ fn.DeleteHandler = some c.2.1) ∨
      (c.1 = HandlerKind.CreateOrUpdate ∧ fn.CreateOrUpdateHandler = some c.2.1) := by
  cases ho : newObject rt obj scheme with
  | none => simp [WithClient, ho] at h
  | some o =>
    cases hget : rt.Get cl request.NamespacedName o w with
    | mk gerr rest =>
      obtain ⟨o1, w1⟩ := rest
      cases gerr with
      | some err =>
        obtain ⟨r', hr, _, _, hcalls, _⟩ :=
          WithClient_fetch_failed rt cl obj scheme fn request w o o1 err w1 ho hget
        rw [hr] at h
        cases h
        rw [hcalls]
        simp
      | none =>
        obtain ⟨r', hr, _, _, hcalls⟩ :=
          WithClient_fetched rt cl obj scheme fn request w o o1 w1 ho hget
        rw [hr] at h
        cases h
        rw [hcalls]
        intro c hc
        rcases List.mem_append.mp hc with hc | hc
        · cases hd : fn.DeleteHandler with
          | none => rw [hd] at hc; simp at hc
          | some f =>
            rw [hd] at hc
            simp only [List.mem_singleton] at hc
            subst hc
            exact Or.inl ⟨rfl, rfl⟩
        · cases hde : (runHandler rt HandlerKind.Delete fn.DeleteHandler o1 cl scheme w1).1 with
          | some e => rw [hde] at hc; simp at hc
          | none =>
            rw [hde] at hc
            cases hcu : fn.CreateOrUpdateHandler with
            | none => rw [hcu] at hc; simp at hc
            | some f =>
              rw [hcu] at hc
              simp only [List.mem_singleton] at hc
              subst hc
              exact Or.inr ⟨rfl, rfl⟩

/-! ## Claims on the reconcile function and the handler table -/

/-- C24: for every request and every handler table, if the fetch reports not-found, the
reconcile function built by `WithClient` returns success, that is a nil error and the empty
result, and calls neither the Delete handler nor the Create-or-Update handler. -/
theorem C24_not_found_returns_success_without_handler {X : External} {W : Type}
    (rt : Runtime X W) (cl : X.Client) (obj : X.ClientObject) (scheme : rt.Scheme)
    (fn : HandlerFuncs X.Handler) (request : Request) (w : W)
    (o o1 : X.ClientObject) (err : GoError) (w1 : W)
    (ho : newObject rt obj scheme = some o)
    (hget : rt.Get cl request.NamespacedName o w = (some err, o1, w1))
    (hnf : rt.IsNotFound err = true) :
    ∃ r : Reconciled X W, WithClient rt cl obj scheme fn request w = some r ∧
      r.err = none ∧ r.result = ⟨false, 0⟩ ∧ handlerCalls r.steps = [] := by
  obtain ⟨r, hr, hres, herr, hcalls, _⟩ :=
    WithClient_fetch_failed rt cl obj scheme fn request w o o1 err w1 ho hget
  refine ⟨r, hr, ?_, hres, hcalls⟩
  rw [herr, IgnoreNotFound, if_pos hnf]

/-- Witness for C24: both handlers registered, an empty store, the request for `biz/baz`. -/
theorem C24_not_found_returns_success_without_handler_witness :
    newObject testRuntime (⟨"", "", none, none⟩ : Object) () = some ⟨"", "", none, none⟩ ∧
    testRuntime.Get () ⟨"biz", "baz"⟩ ⟨"", "", none, none⟩ [] =
      (some (GoError.errorString "not found"), ⟨"", "", none, none⟩, []) ∧
    testRuntime.IsNotFound (GoError.errorString "not found") = true ∧
    ∃ r : Reconciled testExternal (List Object),
      WithClient testRuntime () (⟨"", "", none, none⟩ : Object) ()
        ⟨some none, some (some "delete failed")⟩ ⟨⟨"biz", "baz"⟩⟩ [] = some r ∧
      r.err = none ∧ r.result = ⟨false, 0⟩ ∧ handlerCalls r.steps = [] :=
  ⟨rfl, rfl, rfl,
    C24_not_found_returns_success_without_handler testRuntime ()
      (⟨"", "", none, none⟩ : Object) () ⟨some none, some (some "delete failed")⟩
      ⟨⟨"biz", "baz"⟩⟩ [] ⟨"", "", none, none⟩ ⟨"", "", none, none⟩
      (GoError.errorString "not found") [] rfl rfl rfl⟩

/-- C25: for every request, if the fetch fails with an error that is not not-found, the
reconcile function built by `WithClient` returns exactly that error and calls no handler. -/
theorem C25_fetch_error_is_returned_unchanged {X : External} {W : Type}
    (rt : Runtime X W) (cl : X.Client) (obj : X.ClientObject) (scheme : rt.Scheme)
    (fn : HandlerFuncs X.Handler) (request : Request) (w : W)
    (o o1 : X.ClientObject) (err : GoError) (w1 : W)
    (ho : newObject rt obj scheme = some o)
    (hget : rt.Get cl request.NamespacedName o w = (some err, o1, w1))
    (hnf : rt.IsNotFound err = false) :
    ∃ r : Reconciled X W, WithClient rt cl obj scheme fn request w = some r ∧
      r.err = some err ∧ handlerCalls r.steps = [] := by
  obtain ⟨r, hr, _, herr, hcalls, _⟩ :=
    WithClient_fetch_failed rt cl obj scheme fn request w o o1 err w1 ho hget
  refine ⟨r, hr, ?_, hcalls⟩
  rw [herr, IgnoreNotFound, hnf]
  rfl

/-- Witness for C25: both handlers registered and a request with an empty name, for which
the fetch fails with another error than not-found. -/
theorem C25_fetch_error_is_returned_unchanged_witness :
    newObject testRuntime (⟨"", "", none, none⟩ : Object) () = some ⟨"", "", none, none⟩ ∧
    testRuntime.Get () ⟨"biz", ""⟩ ⟨"", "", none, none⟩ [] =
      (some (GoError.errorString "resource name may not be empty"),
        ⟨"", "", none, none⟩, []) ∧
    testRuntime.IsNotFound (GoError.errorString "resource name may not be empty") = false ∧
    ∃ r : Reconciled testExternal (List Object),
      WithClient testRuntime () (⟨"", "", none, none⟩ : Object) ()
        ⟨some none, some (some "delete failed")⟩ ⟨⟨"biz", ""⟩⟩ [] = some r ∧
      r.err = some (GoError.errorString "resource name may not be empty") ∧
      handlerCalls r.steps = [] :=
  ⟨rfl, rfl, rfl,
    C25_fetch_error_is_returned_unchanged testRuntime ()
      (⟨"", "", none, none⟩ : Object) () ⟨some none, some (some "delete failed")⟩
      ⟨⟨"biz", ""⟩⟩ [] ⟨"", "", none, none⟩ ⟨"", "", none, none⟩
      (GoError.errorString "resource name may not be empty") [] rfl rfl rfl⟩


/-- C26: after a successful fetch, when both handlers are registered and the Delete handler
returns an error `e`, the reconcile function returns exactly `e` and the Create-or-Update
handler is not invoked; when the Delete handler succeeds, or is absent, and the
Create-or-Update handler returns an error, the reconcile function returns exactly that
error. -/
theorem C26_handler_errors_are_returned_unchanged {X : External} {W : Type}
    (rt : Runtime X W) (cl : X.Client) (obj : X.ClientObject) (scheme : rt.Scheme)
    (request : Request) (w : W) (o o1 : X.ClientObject) (w1 : W) (hc hd : X.Handler)
    (ho : newObject rt obj scheme = some o)
    (hget : rt.Get cl request.NamespacedName o w = (none, o1, w1)) :
    (∀ (e : GoError) (w2 : W), rt.call hd o1 cl scheme w1 = (some e, w2) →
      ∃ r : Reconciled X W,
        WithClient rt cl obj scheme ⟨some hc, some hd⟩ request w = some r ∧
        r.err = some e ∧ handlerCalls r.steps = [(HandlerKind.Delete, hd, o1)]) ∧
    (∀ (e : GoError) (w2 w3 : W), rt.call hd o1 cl scheme w1 = (none, w2) →
      rt.call hc o1 cl scheme w2 = (some e, w3) →
      ∃ r : Reconciled X W,
        WithClient rt cl obj scheme ⟨some hc, some hd⟩ request w = some r ∧
        r.err = some e ∧
        handlerCalls r.steps =
          [(HandlerKind.Delete, hd, o1), (HandlerKind.CreateOrUpdate, hc, o1)]) ∧
    (∀ (e : GoError) (w2 : W), rt.call hc o1 cl scheme w1 = (some e, w2) →
      ∃ r : Reconciled X W,
        WithClient rt cl obj scheme ⟨some hc, none⟩ request w = some r ∧
        r.err = some e ∧ handlerCalls r.steps = [(HandlerKind.CreateOrUpdate, hc, o1)]) := by
  refine ⟨?_, ?_, ?_⟩
  · intro e w2 hcall
    obtain ⟨r, hr, _, herr, hcalls⟩ :=
      WithClient_fetched rt cl obj scheme ⟨some hc, some hd⟩ request w o o1 w1 ho hget
    refine ⟨r, hr, ?_, ?_⟩
    · rw [herr]; simp only [runHandler, hcall]
    · rw [hcalls]; simp only [runHandler, hcall]; rfl
  · intro e w2 w3 hcall1 hcall2
    obtain ⟨r, hr, _, herr, hcalls⟩ :=
      WithClient_fetched rt cl obj scheme ⟨some hc, some hd⟩ request w o o1 w1 ho hget
    refine ⟨r, hr, ?_, ?_⟩
    · rw [herr]; simp only [runHandler, hcall1, hcall2]
    · rw [hcalls]; simp only [runHandler, hcall1]; rfl
  · intro e w2 hcall
    obtain ⟨r, hr, _, herr, hcalls⟩ :=
      WithClient_fetched rt cl obj scheme ⟨some hc, none⟩ request w o o1 w1 ho hget
    refine ⟨r, hr, ?_, ?_⟩
    · rw [herr]; simp only [runHandler, hcall]
    · rw [hcalls]; simp only [runHandler]; rfl

/-- Witness for C26: the test object is in the store, the Delete handler returns the error
`delete failed` and the Create-or-Update handler would succeed. -/
theorem C26_handler_errors_are_returned_unchanged_witness :
    newObject testRuntime (⟨"", "", none, none⟩ : Object) () = some ⟨"", "", none, none⟩ ∧
    testRuntime.Get () ⟨"biz", "baz"⟩ ⟨"", "", none, none⟩ [testPod] =
      (none, testPod, [testPod]) ∧
    ∃ r : Reconciled testExternal (List Object),
      WithClient testRuntime () (⟨"", "", none, none⟩ : Object) ()
        ⟨some none, some (some "delete failed")⟩ ⟨⟨"biz", "baz"⟩⟩ [testPod] = some r ∧
      r.err = some (GoError.errorString "delete failed") ∧
      handlerCalls r.steps = [(HandlerKind.Delete, some "delete failed", testPod)] :=
  ⟨rfl, rfl,
    (C26_handler_errors_are_returned_unchanged testRuntime ()
      (⟨"", "", none, none⟩ : Object) () ⟨⟨"biz", "baz"⟩⟩ [testPod] ⟨"", "", none, none⟩
      testPod [testPod] none (some "delete failed") rfl rfl).1
      (GoError.errorString "delete failed") [testPod] rfl⟩

/-- C27, as claimed, fails: the test object is fetched, both handlers are registered, the
Delete handler returns an error, and the only handler call of the run is the Delete call;
the registered Create-or-Update handler is not invoked. -/
theorem C27_create_or_update_handler_skipped_after_delete_error :
    ∃ r : Reconciled testExternal (List Object),
      WithClient testRuntime () (⟨"", "", none, none⟩ : Object) ()
        ⟨some none, some (some "delete failed")⟩ ⟨⟨"biz", "baz"⟩⟩ [testPod] = some r ∧
      handlerCalls r.steps = [(HandlerKind.Delete, some "delete failed", testPod)] ∧
      ∀ c ∈ handlerCalls r.steps, c.1 ≠ HandlerKind.CreateOrUpdate :=
  ⟨_, rfl, rfl, fun c hc => by
    have h : c ∈ [(HandlerKind.Delete, (some "delete failed" : Option String), testPod)] := hc
    rw [List.mem_singleton] at h
    rw [h]
    decide⟩

/-- C27, amended: on every successful fetch the reconcile function, which receives the
request only and no event kind, invokes the Delete handler once if it is registered, first,
and then invokes the Create-or-Update handler once if it is registered and the Delete
handler is absent or returned no error, with the same fetched object; an unregistered
handler is skipped; after an error of the Delete handler the Create-or-Update handler is not
invoked; and if every invoked handler succeeds the reconcile function returns success. -/
theorem C27_handlers_invoked_in_order_until_first_error {X : External} {W : Type}
    (rt : Runtime X W) (cl : X.Client) (obj : X.ClientObject) (scheme : rt.Scheme)
    (fn : HandlerFuncs X.Handler) (request : Request) (w : W) (o o1 : X.ClientObject) (w1 : W)
    (ho : newObject rt obj scheme = some o)
    (hget : rt.Get cl request.NamespacedName o w = (none, o1, w1)) :
    ∃ r : Reconciled X W, WithClient rt cl obj scheme fn request w = some r ∧
      handlerCalls r.steps =
        (match fn.DeleteHandler with
          | some hd => [(HandlerKind.Delete, hd, o1)]
          | none => []) ++
        (match (runHandler rt HandlerKind.Delete fn.DeleteHandler o1 cl scheme w1).1 with
          | some _ => []
          | none =>
            match fn.CreateOrUpdateHandler with
            | some hc => [(HandlerKind.CreateOrUpdate, hc, o1)]
            | none => []) ∧
      ((runHandler rt HandlerKind.Delete fn.DeleteHandler o1 cl scheme w1).1 = none →
        (runHandler rt HandlerKind.CreateOrUpdate fn.CreateOrUpdateHandler o1 cl scheme
          (runHandler rt HandlerKind.Delete fn.DeleteHandler o1 cl scheme w1).2.2).1 = none →
        r.err = none ∧ r.result = ⟨false, 0⟩) := by
  obtain ⟨r, hr, hres, herr, hcalls⟩ :=
    WithClient_fetched rt cl obj scheme fn request w o o1 w1 ho hget
  refine ⟨r, hr, hcalls, ?_⟩
  intro hd hcu
  rw [herr, hd]
  exact ⟨hcu, hres⟩

/-- Witness for C27: the test object is in the store and both handlers succeed; the Delete
handler is called first, then the Create-or-Update handler, with the fetched object. -/
theorem C27_handlers_invoked_in_order_until_first_error_witness :
    newObject testRuntime (⟨"", "", none, none⟩ : Object) () = some ⟨"", "", none, none⟩ ∧
    testRuntime.Get () ⟨"biz", "baz"⟩ ⟨"", "", none, none⟩ [testPod] =
      (none, testPod, [testPod]) ∧
    ∃ r : Reconciled testExternal (List Object),
      WithClient testRuntime () (⟨"", "", none, none⟩ : Object) ()
        ⟨some none, some none⟩ ⟨⟨"biz", "baz"⟩⟩ [testPod] = some r ∧
      handlerCalls r.steps =
        [(HandlerKind.Delete, none, testPod), (HandlerKind.CreateOrUpdate, none, testPod)] ∧
      (none = (none : Option GoError) → none = (none : Option GoError) →
        r.err = none ∧ r.result = ⟨false, 0⟩) :=
  ⟨rfl, rfl,
    C27_handlers_invoked_in_order_until_first_error testRuntime ()
      (⟨"", "", none, none⟩ : Object) () ⟨some none, some none⟩ ⟨⟨"biz", "baz"⟩⟩ [testPod]
      ⟨"", "", none, none⟩ testPod [testPod] rfl rfl⟩

/-- C28: the handler table holds one Create-or-Update entry and one Delete entry, and the
last registration wins: after `OnCreateOrUpdate(h1, ...)` then `OnCreateOrUpdate(h2, ...)`
the table is `h2` with the Delete entry unchanged, symmetrically for `OnDelete`; the
reconcile function of the operator is `WithClient` on that table, and every handler call of
any of its runs is a call of the table's entry of that kind, so that `h1` is invoked only if
it is also the entry that was written last. -/
theorem C28_handler_table_last_write_wins {X : External} {W : Type} (rt : Runtime X W)
    (o : operator X) (h1 h2 : Option X.Handler) (opts1 opts2 : List HandlerOption) :
    ((o.OnCreateOrUpdate h1 opts1).OnCreateOrUpdate h2 opts2).reconcileHandlers =
      ⟨h2, o.reconcileHandlers.DeleteHandler⟩ ∧
    ((o.OnDelete h1 opts1).OnDelete h2 opts2).reconcileHandlers =
      ⟨o.reconcileHandlers.CreateOrUpdateHandler, h2⟩ ∧
    ((o.OnCreateOrUpdate h1 opts1).OnCreateOrUpdate h2 opts2).reconcileFuncWithClient rt =
      WithClient rt o.client o.object (rt.GetScheme o.manager)
        ⟨h2, o.reconcileHandlers.DeleteHandler⟩ ∧
    ((o.OnDelete h1 opts1).OnDelete h2 opts2).reconcileFuncWithClient rt =
      WithClient rt o.client o.object (rt.GetScheme o.manager)
        ⟨o.reconcileHandlers.CreateOrUpdateHandler, h2⟩ ∧
    (∀ (request : Request) (w : W) (r : Reconciled X W),
      ((o.OnCreateOrUpdate h1 opts1).OnCreateOrUpdate h2 opts2).reconcileFuncWithClient rt
        request w = some r →
      ∀ c ∈ handlerCalls r.steps,
        (c.1 = HandlerKind.CreateOrUpdate → h2 = some c.2.1) ∧
        (c.1 = HandlerKind.Delete → o.reconcileHandlers.DeleteHandler = some c.2.1)) ∧
    (∀ (request : Request) (w : W) (r : Reconciled X W),
      ((o.OnDelete h1 opts1).OnDelete h2 opts2).reconcileFuncWithClient rt request w = some r →
      ∀ c ∈ handlerCalls r.steps,
        (c.1 = HandlerKind.Delete → h2 = some c.2.1) ∧
        (c.1 = HandlerKind.CreateOrUpdate →
          o.reconcileHandlers.CreateOrUpdateHandler = some c.2.1)) := by
  refine ⟨rfl, rfl, rfl, rfl, ?_, ?_⟩
  · intro request w r hr c hc
    have h := handlerCalls_from_table rt o.client o.object (rt.GetScheme o.manager)
      ⟨h2, o.reconcileHandlers.DeleteHandler⟩ request w r hr c hc
    rcases h with ⟨hk, hh⟩ | ⟨hk, hh⟩
    · exact ⟨fun h => (by rw [hk] at h; cases h), fun _ => hh⟩
    · exact ⟨fun _ => hh, fun h => (by rw [hk] at h; cases h)⟩
  · intro request w r hr c hc
    have h := handlerCalls_from_table rt o.client o.object (rt.GetScheme o.manager)
      ⟨o.reconcileHandlers.CreateOrUpdateHandler, h2⟩ request w r hr c hc
    rcases h with ⟨hk, hh⟩ | ⟨hk, hh⟩
    · exact ⟨fun _ => hh, fun h => (by rw [hk] at h; cases h)⟩
    · exact ⟨fun h => (by rw [hk] at h; cases h), fun _ => hh⟩


/-! ## Claims on re-registration and on `Build` -/

set_option maxRecDepth 100000 in
/-- C29, as claimed, fails: after `OnCreateOrUpdate` without options, registering
`OnCreateOrUpdate` again with the label requirement `labelkey: labelvalue` gives a predicate
that accepts the Create event of an object without that label, which the predicate of an
operator with the second registration alone rejects. -/
theorem C29_first_registration_still_admits :
    (((freshOperator.OnCreateOrUpdate (some ()) []).OnCreateOrUpdate (some ())
      [WithLabels (some [("labelkey", "labelvalue")])]).Predicate.eval
        (Event.Create ⟨otherPod⟩)).decision = some true ∧
    ((freshOperator.OnCreateOrUpdate (some ())
      [WithLabels (some [("labelkey", "labelvalue")])]).Predicate.eval
        (Event.Create ⟨otherPod⟩)).decision = some false := by
  decide

/-- C29, amended: re-registering a handler kind replaces the handler but adds its selector
options to those registered before: on an operator without handlers and custom predicates,
after `OnCreateOrUpdate(h1, opts1)` then `OnCreateOrUpdate(h2, opts2)` with valid options,
`Predicate()` accepts an event exactly when the first or the second registration accepts
it, and likewise for `OnDelete`. -/
theorem C29_re_registration_adds_to_the_union {X : External} (o0 : operator X)
    (h1 h2 : Option X.Handler) (opts1 opts2 : List HandlerOption) (e : Event)
    (hc : o0.customPredicates = []) (hp : o0.predicates = [])
    (herrC : ((o0.OnCreateOrUpdate h1 opts1).OnCreateOrUpdate h2 opts2).errs = none)
    (herrD : ((o0.OnDelete h1 opts1).OnDelete h2 opts2).errs = none) :
    (((o0.OnCreateOrUpdate h1 opts1).OnCreateOrUpdate h2 opts2).Predicate.eval e).decision =
      some ((@Registration.OnCreateOrUpdate X h1 opts1).accepts e ||
        (@Registration.OnCreateOrUpdate X h2 opts2).accepts e) ∧
    (((o0.OnDelete h1 opts1).OnDelete h2 opts2).Predicate.eval e).decision =
      some ((@Registration.OnDelete X h1 opts1).accepts e ||
        (@Registration.OnDelete X h2 opts2).accepts e) := by
  constructor
  · have h := decision_Predicate_of_registrations o0
      [@Registration.OnCreateOrUpdate X h1 opts1, @Registration.OnCreateOrUpdate X h2 opts2]
      e hc hp (List.cons_ne_nil _ _) herrC
    rw [show ((o0.OnCreateOrUpdate h1 opts1).OnCreateOrUpdate h2 opts2) =
      [@Registration.OnCreateOrUpdate X h1 opts1,
        @Registration.OnCreateOrUpdate X h2 opts2].foldl operator.register o0 from rfl, h]
    simp only [List.any_cons, List.any_nil, Bool.or_false]
  · have h := decision_Predicate_of_registrations o0
      [@Registration.OnDelete X h1 opts1, @Registration.OnDelete X h2 opts2]
      e hc hp (List.cons_ne_nil _ _) herrD
    rw [show ((o0.OnDelete h1 opts1).OnDelete h2 opts2) =
      [@Registration.OnDelete X h1 opts1,
        @Registration.OnDelete X h2 opts2].foldl operator.register o0 from rfl, h]
    simp only [List.any_cons, List.any_nil, Bool.or_false]

set_option maxRecDepth 100000 in
/-- Witness for C29: no options first, then the label requirement `labelkey: labelvalue`;
the Create event of an object without that label is accepted through the first
registration. -/
theorem C29_re_registration_adds_to_the_union_witness :
    freshOperator.customPredicates = [] ∧ freshOperator.predicates = [] ∧
    ((freshOperator.OnCreateOrUpdate (some ()) []).OnCreateOrUpdate (some ())
      [WithLabels (some [("labelkey", "labelvalue")])]).errs = none ∧
    ((freshOperator.OnDelete (some ()) []).OnDelete (some ())
      [WithLabels (some [("labelkey", "labelvalue")])]).errs = none ∧
    (((freshOperator.OnCreateOrUpdate (some ()) []).OnCreateOrUpdate (some ())
      [WithLabels (some [("labelkey", "labelvalue")])]).Predicate.eval
        (Event.Create ⟨otherPod⟩)).decision =
      some ((@Registration.OnCreateOrUpdate unitExternal (some ()) []).accepts
          (Event.Create ⟨otherPod⟩) ||
        (@Registration.OnCreateOrUpdate unitExternal (some ())
          [WithLabels (some [("labelkey", "labelvalue")])]).accepts
            (Event.Create ⟨otherPod⟩)) :=
  ⟨rfl, rfl, Option.isNone_iff_eq_none.mp (by decide),
    Option.isNone_iff_eq_none.mp (by decide),
    (C29_re_registration_adds_to_the_union freshOperator (some ()) (some ()) []
      [WithLabels (some [("labelkey", "labelvalue")])] (Event.Create ⟨otherPod⟩) rfl rfl
      (Option.isNone_iff_eq_none.mp (by decide))
      (Option.isNone_iff_eq_none.mp (by decide))).1⟩

set_option maxRecDepth 100000 in
/-- C30 does not hold of `Build`: `Build` never reads the recorded configuration errors.
Its error and the controller it sets are those of the controller builder, whatever was
recorded; and after `OnCreateOrUpdate(nil, WithLabels(\x7b"-starts-with-dash": "value"\x7d))`,
which records an error, `Build` with a working builder returns a nil error and sets the
controller, and the predicate it hands to the builder panics on a Create event. -/
theorem C30_Build_ignores_recorded_errors :
    (∀ (X : External) (W : Type) (rt : Runtime X W) (o : operator X) (errs : Option GoError),
      (operator.Build rt { o with errs := errs }).2 = (o.Build rt).2 ∧
      (operator.Build rt { o with errs := errs }).1.controller = (o.Build rt).1.controller) ∧
    (∀ (X : External) (W : Type) (rt : Runtime X W) (o : operator X) (c : X.Controller),
      rt.BuildController
        ⟨o.manager, o.object, o.Predicate, if o.ownsInput.length > 0 then o.ownsInput else []⟩
        (o.reconcileFuncWithClient rt) = Except.ok c →
      o.Build rt = ({ o with controller := some c }, none)) ∧
    (testOperator.OnCreateOrUpdate none
      [WithLabels (some [("-starts-with-dash", "value")])]).errs.isSome = true ∧
    ((testOperator.OnCreateOrUpdate none
      [WithLabels (some [("-starts-with-dash", "value")])]).Build testRuntime).2 = none ∧
    ((testOperator.OnCreateOrUpdate none
      [WithLabels (some [("-starts-with-dash", "value")])]).Build
        testRuntime).1.controller = some () ∧
    ((testOperator.OnCreateOrUpdate none
      [WithLabels (some [("-starts-with-dash", "value")])]).Predicate.eval
        (Event.Create ⟨testPod⟩)).decision = none := by
  refine ⟨?_, ?_, ?_, rfl, rfl, ?_⟩
  · intro X W rt o errs
    have h1 : o.Build rt =
        (match rt.BuildController
          ⟨o.manager, o.object, o.Predicate,
            if o.ownsInput.length > 0 then o.ownsInput else []⟩
          (o.reconcileFuncWithClient rt) with
        | Except.error err => (o, some err)
        | Except.ok c => ({ o with controller := some c }, none)) := rfl
    have h2 : operator.Build rt { o with errs := errs } =
        (match rt.BuildController
          ⟨o.manager, o.object, o.Predicate,
            if o.ownsInput.length > 0 then o.ownsInput else []⟩
          (o.reconcileFuncWithClient rt) with
        | Except.error err => ({ o with errs := errs }, some err)
        | Except.ok c => ({ o with errs := errs, controller := some c }, none)) := rfl
    rw [h1, h2]
    cases rt.BuildController
      ⟨o.manager, o.object, o.Predicate, if o.ownsInput.length > 0 then o.ownsInput else []⟩
      (o.reconcileFuncWithClient rt) <;> exact ⟨rfl, rfl⟩
  · intro X W rt o c h
    unfold operator.Build
    simp only []
    rw [h]
  · decide
  · decide

/-! ## Lemmas on map lookups -/

theorem get?_eq_none_iff (l : List (String × String)) (k : String) :
    get? l k = none ↔ k ∉ l.map Prod.fst := by
  induction l with
  | nil => simp [get?]
  | cons p rest ih =>
    obtain ⟨k', v'⟩ := p
    by_cases hk : k' = k
    · simp [get?, hk]
    · simp only [get?, if_neg hk, ih, List.map_cons, List.mem_cons, not_or]
      exact ⟨fun h => ⟨fun h' => hk h'.symm, h⟩, fun h => h.2⟩

theorem mem_of_get? (l : List (String × String)) (k v : String) (h : get? l k = some v) :
    (k, v) ∈ l := by
  induction l with
  | nil => simp [get?] at h
  | cons p rest ih =>
    obtain ⟨k', v'⟩ := p
    by_cases hk : k' = k
    · simp only [get?, if_pos hk, Option.some.injEq] at h
      subst hk; subst h
      exact List.mem_cons_self _ _
    · simp only [get?, if_neg hk] at h
      exact List.mem_cons_of_mem _ (ih h)

theorem get?_of_mem (l : List (String × String)) (k v : String)
    (hn : (l.map Prod.fst).Nodup) (h : (k, v) ∈ l) : get? l k = some v := by
  induction l with
  | nil => simp at h
  | cons p rest ih =>
    obtain ⟨k', v'⟩ := p
    simp only [List.map_cons, List.nodup_cons] at hn
    rcases List.mem_cons.mp h with heq | hm
    · cases heq
      simp [get?]
    · have hk : k' ≠ k := by
        intro hk
        subst hk
        exact hn.1 (List.mem_map.mpr ⟨(k', v), hm, rfl⟩)
      simp only [get?, if_neg hk]
      exact ih hn.2 hm

theorem mem_iff_get? (l : List (String × String)) (k v : String)
    (hn : (l.map Prod.fst).Nodup) : (k, v) ∈ l ↔ get? l k = some v :=
  ⟨get?_of_mem l k v hn, mem_of_get? l k v⟩

theorem get?_assign (l : List (String × String)) (k v k' : String) :
    get? (assign l k v) k' = if k = k' then some v else get? l k' := by
  induction l with
  | nil => simp [assign, get?]
  | cons p rest ih =>
    obtain ⟨k0, v0⟩ := p
    by_cases h0 : k0 = k
    · subst h0
      by_cases hk : k0 = k' <;> simp [assign, get?, hk]
    · by_cases hk : k0 = k'
      · subst hk
        simp [assign, get?, h0, Ne.symm h0]
      · simp only [assign, if_neg h0, get?, if_neg hk, ih]

theorem keys_assign (l : List (String × String)) (k v : String) :
    (assign l k v).map Prod.fst =
      if k ∈ l.map Prod.fst then l.map Prod.fst else l.map Prod.fst ++ [k] := by
  induction l with
  | nil => simp [assign]
  | cons p rest ih =>
    obtain ⟨k0, v0⟩ := p
    by_cases h0 : k0 = k
    · subst h0
      simp [assign]
    · have hne : ¬ k = k0 := fun h => h0 h.symm
      simp only [assign, if_neg h0, List.map_cons, ih, List.mem_cons, hne, false_or]
      by_cases hm : k ∈ rest.map Prod.fst <;> simp [hm]

theorem nodup_keys_assign (l : List (String × String)) (k v : String)
    (hn : (l.map Prod.fst).Nodup) : ((assign l k v).map Prod.fst).Nodup := by
  rw [keys_assign]
  by_cases hm : k ∈ l.map Prod.fst
  · rw [if_pos hm]; exact hn
  · rw [if_neg hm]
    exact List.Nodup.append hn (List.nodup_singleton k) (by simpa using hm)

theorem nodup_keys_assignAll (dst src : List (String × String))
    (hn : (dst.map Prod.fst).Nodup) : ((assignAll dst src).map Prod.fst).Nodup := by
  induction src generalizing dst with
  | nil => exact hn
  | cons p rest ih =>
    obtain ⟨k, v⟩ := p
    exact ih _ (nodup_keys_assign dst k v hn)

theorem get?_assignAll (dst src : List (String × String)) (k : String)
    (hn : (src.map Prod.fst).Nodup) :
    get? (assignAll dst src) k =
      match get? src k with
      | some v => some v
      | none => get? dst k := by
  induction src generalizing dst with
  | nil => rfl
  | cons p rest ih =>
    obtain ⟨k0, v0⟩ := p
    simp only [List.map_cons, List.nodup_cons] at hn
    rw [assignAll, ih _ hn.2, get?_assign]
    by_cases hk : k0 = k
    · subst hk
      have hnone : get? rest k0 = none := (get?_eq_none_iff rest k0).mpr hn.1
      simp [get?, hnone]
    · simp [get?, hk]

theorem get?_delete (m : List (String × String)) (k k' : String) (h : k' ≠ k) :
    get? (delete m k) k' = get? m k' := by
  induction m with
  | nil => rfl
  | cons p rest ih =>
    obtain ⟨k0, v0⟩ := p
    by_cases h0 : k0 = k
    · have hk : ¬ k0 = k' := fun e => h (e.symm.trans h0)
      simp only [delete, if_pos h0, get?, if_neg hk, ih]
    · by_cases hk : k0 = k'
      · simp only [delete, if_neg h0, get?, if_pos hk]
      · simp only [delete, if_neg h0, get?, if_neg hk, ih]

theorem Satisfied_congr (d1 d2 : List (String × String)) (k v : String)
    (h : get? d1 k = get? d2 k) : Satisfied d1 k v ↔ Satisfied d2 k v := by
  unfold Satisfied
  rw [h]

theorem matches_congr_data (s : StringMap) (d1 d2 : List (String × String))
    (h : ∀ e ∈ entries s, get? d1 e.1 = get? d2 e.1) :
    «matches» (some d1) s = «matches» (some d2) s := by
  cases s with
  | none => rfl
  | some sl =>
    rw [Bool.eq_iff_iff, matches_some_iff, matches_some_iff]
    constructor
    · intro hs k v hm
      exact (Satisfied_congr d1 d2 k v (h (k, v) hm)).mp (hs k v hm)
    · intro hs k v hm
      exact (Satisfied_congr d1 d2 k v (h (k, v) hm)).mpr (hs k v hm)

theorem matches_congr_sel (d : StringMap) (s s' : List (String × String))
    (h : ∀ e, e ∈ s ↔ e ∈ s') :
    «matches» d (some s) = «matches» d (some s') := by
  cases d with
  | none => rfl
  | some dl =>
    rw [Bool.eq_iff_iff, matches_some_iff, matches_some_iff]
    constructor
    · intro hs k v hm
      exact hs k v ((h (k, v)).mpr hm)
    · intro hs k v hm
      exact hs k v ((h (k, v)).mp hm)

theorem get?_perm (d d' : List (String × String)) (hn : (d.map Prod.fst).Nodup)
    (hp : d.Perm d') (k : String) : get? d k = get? d' k := by
  have hn' : (d'.map Prod.fst).Nodup := (List.Perm.nodup_iff (hp.map Prod.fst)).mp hn
  cases h : get? d k with
  | some v =>
    exact ((mem_iff_get? d' k v hn').mp (hp.subset (mem_of_get? d k v h))).symm
  | none =>
    cases h' : get? d' k with
    | none => rfl
    | some v =>
      have := (mem_iff_get? d k v hn).mp (hp.symm.subset (mem_of_get? d' k v h'))
      rw [h] at this
      cases this

/-! ## Claims on `matches` as a function of its maps -/

/-- C35: adding requirements can only narrow a selector: for non-nil requirement maps `s`
and `s'` such that every entry of `s` is an entry of `s'`, and every data map `d`, if `d`
matches `s'` then `d` matches `s`. -/
theorem C35_more_requirements_match_less (s s' : List (String × String)) (d : StringMap)
    (h : ∀ e ∈ s, e ∈ s') (hm : «matches» d (some s') = true) :
    «matches» d (some s) = true := by
  cases d with
  | none => rw [matches_nil_data] at hm; cases hm
  | some dl =>
    rw [matches_some_iff] at hm ⊢
    intro k v hkv
    exact hm k v (h (k, v) hkv)

set_option maxRecDepth 100000 in
/-- Witness for C35: the requirement `a: 1`, the requirements `a: 1, b: 2`, and data with
both entries and a third. -/
theorem C35_more_requirements_match_less_witness :
    (∀ e ∈ [("a", "1")], e ∈ [("a", "1"), ("b", "2")]) ∧
    «matches» (some [("a", "1"), ("b", "2"), ("c", "3")]) (some [("a", "1"), ("b", "2")])
      = true ∧
    «matches» (some [("a", "1"), ("b", "2"), ("c", "3")]) (some [("a", "1")]) = true :=
  ⟨by decide, by decide,
    C35_more_requirements_match_less [("a", "1")] [("a", "1"), ("b", "2")]
      (some [("a", "1"), ("b", "2"), ("c", "3")]) (by decide) (by decide)⟩

/-- C36: the decision of `matches` depends only on the keys the requirements mention: for
every requirement map `s` and non-nil data maps `d1`, `d2` that agree on every key of `s`
(same presence, same value), `matches(d1, s) = matches(d2, s)`.  So setting or deleting an
entry of the data under a key that `s` does not mention leaves the decision unchanged, and
the decision is the same for every order in which the two maps are ranged over. -/
theorem C36_decision_depends_only_on_mentioned_keys (s : StringMap)
    (d1 d2 : List (String × String))
    (h : ∀ e ∈ entries s, get? d1 e.1 = get? d2 e.1) :
    «matches» (some d1) s = «matches» (some d2) s ∧
    (∀ k v : String, k ∉ (entries s).map Prod.fst →
      «matches» (some (assign d1 k v)) s = «matches» (some d1) s ∧
      «matches» (some (delete d1 k)) s = «matches» (some d1) s) ∧
    (∀ d' sl sl' : List (String × String), UniqueKeys (some d1) → d1.Perm d' →
      s = some sl → sl.Perm sl' →
      «matches» (some d') (some sl') = «matches» (some d1) s) := by
  refine ⟨matches_congr_data s d1 d2 h, ?_, ?_⟩
  · intro k v hk
    have hne : ∀ e ∈ entries s, k ≠ e.1 := by
      intro e he hke
      exact hk (List.mem_map.mpr ⟨e, he, hke.symm⟩)
    constructor
    · apply matches_congr_data
      intro e he
      rw [get?_assign, if_neg (hne e he)]
    · apply matches_congr_data
      intro e he
      exact get?_delete d1 k e.1 (fun h' => hne e he h'.symm)
  · intro d' sl sl' hu hp hs hps
    subst hs
    rw [matches_congr_sel (some d') sl' sl (fun e => hps.symm.mem_iff)]
    apply matches_congr_data
    intro e _
    exact (get?_perm d1 d' hu hp e.1).symm

set_option maxRecDepth 100000 in
/-- Witness for C36: the requirement `a: 1` and two data maps that hold `a: 1` and differ
under other keys. -/
theorem C36_decision_depends_only_on_mentioned_keys_witness :
    (∀ e ∈ entries (some [("a", "1")]),
      get? [("a", "1"), ("b", "2")] e.1 = get? [("c", "3"), ("a", "1")] e.1) ∧
    «matches» (some [("a", "1"), ("b", "2")]) (some [("a", "1")]) = true ∧
    «matches» (some [("c", "3"), ("a", "1")]) (some [("a", "1")]) = true :=
  ⟨by decide, by decide,
    ((C36_decision_depends_only_on_mentioned_keys (some [("a", "1")])
      [("a", "1"), ("b", "2")] [("c", "3"), ("a", "1")] (by decide)).1).symm.trans
      (by decide)⟩


/-- C31: whenever the accumulated configuration error of the operator is not nil, `Start`
returns exactly that error, and it neither calls `Build` nor starts the manager: the operator,
its controller included, and the world are left as they were. -/
theorem C31_Start_returns_accumulated_error {X : External} {W : Type} (rt : Runtime X W)
    (o : operator X) (w : W) (h : o.errs ≠ none) :
    (o.Start rt w).err = o.errs ∧ (o.Start rt w).calls = [] ∧ (o.Start rt w).op = o ∧
    (o.Start rt w).world = w := by
  cases he : o.errs with
  | none => exact absurd he h
  | some e =>
    unfold operator.Start
    rw [he]
    exact ⟨rfl, rfl, rfl, rfl⟩

set_option maxRecDepth 100000 in
/-- Witness for C31: a registration with a malformed label key, then `Start`. -/
theorem C31_Start_returns_accumulated_error_witness :
    (testOperator.OnCreateOrUpdate none
      [WithLabels (some [("-starts-with-dash", "value")])]).errs ≠ none ∧
    ((testOperator.OnCreateOrUpdate none
      [WithLabels (some [("-starts-with-dash", "value")])]).Start testRuntime []).err =
      (testOperator.OnCreateOrUpdate none
        [WithLabels (some [("-starts-with-dash", "value")])]).errs ∧
    ((testOperator.OnCreateOrUpdate none
      [WithLabels (some [("-starts-with-dash", "value")])]).Start testRuntime []).calls = [] ∧
    ((testOperator.OnCreateOrUpdate none
      [WithLabels (some [("-starts-with-dash", "value")])]).Start testRuntime []).op.controller
        = none :=
  have h := C31_Start_returns_accumulated_error testRuntime
    (testOperator.OnCreateOrUpdate none [WithLabels (some [("-starts-with-dash", "value")])])
    [] (Option.isSome_iff_ne_none.mp (by decide))
  ⟨Option.isSome_iff_ne_none.mp (by decide), h.1, h.2.1, by rw [h.2.2.1]; rfl⟩

/-- C38: on every path the reconcile function built by `WithClient` returns the empty
`Result`, with no requeue and no delayed requeue: it returns whenever the new object is not
nil, whatever the fetch and the handlers do, and every result it returns is empty; on the
paths where the fetch or a handler fails the failure is in the returned error. -/
theorem C38_result_is_always_empty {X : External} {W : Type} (rt : Runtime X W)
    (cl : X.Client) (obj : X.ClientObject) (scheme : rt.Scheme) (fn : HandlerFuncs X.Handler)
    (request : Request) (w : W) :
    (∀ r : Reconciled X W, WithClient rt cl obj scheme fn request w = some r →
      r.result = ⟨false, 0⟩ ∧ r.result.Requeue = false ∧ r.result.RequeueAfter = 0) ∧
    (WithClient rt cl obj scheme fn request w = none ↔ newObject rt obj scheme = none) ∧
    (∀ (o o1 : X.ClientObject) (err : GoError) (w1 : W), newObject rt obj scheme = some o →
      rt.Get cl request.NamespacedName o w = (some err, o1, w1) →
      ∃ r : Reconciled X W, WithClient rt cl obj scheme fn request w = some r ∧
        r.result = ⟨false, 0⟩ ∧ r.err = IgnoreNotFound rt err) ∧
    (∀ (o o1 : X.ClientObject) (w1 : W), newObject rt obj scheme = some o →
      rt.Get cl request.NamespacedName o w = (none, o1, w1) →
      ∃ r : Reconciled X W, WithClient rt cl obj scheme fn request w = some r ∧
        r.result = ⟨false, 0⟩ ∧
        r.err =
          (match (runHandler rt HandlerKind.Delete fn.DeleteHandler o1 cl scheme w1).1 with
            | some e => some e
            | none => (runHandler rt HandlerKind.CreateOrUpdate fn.CreateOrUpdateHandler o1 cl
                scheme (runHandler rt HandlerKind.Delete fn.DeleteHandler o1 cl scheme
                  w1).2.2).1)) := by
  have hfail : ∀ (o o1 : X.ClientObject) (err : GoError) (w1 : W),
      newObject rt obj scheme = some o →
      rt.Get cl request.NamespacedName o w = (some err, o1, w1) →
      ∃ r : Reconciled X W, WithClient rt cl obj scheme fn request w = some r ∧
        r.result = ⟨false, 0⟩ ∧ r.err = IgnoreNotFound rt err := by
    intro o o1 err w1 ho hget
    obtain ⟨r, hr, hres, herr, _⟩ :=
      WithClient_fetch_failed rt cl obj scheme fn request w o o1 err w1 ho hget
    exact ⟨r, hr, hres, herr⟩
  have hok : ∀ (o o1 : X.ClientObject) (w1 : W), newObject rt obj scheme = some o →
      rt.Get cl request.NamespacedName o w = (none, o1, w1) →
      ∃ r : Reconciled X W, WithClient rt cl obj scheme fn request w = some r ∧
        r.result = ⟨false, 0⟩ ∧
        r.err =
          (match (runHandler rt HandlerKind.Delete fn.DeleteHandler o1 cl scheme w1).1 with
            | some e => some e
            | none => (runHandler rt HandlerKind.CreateOrUpdate fn.CreateOrUpdateHandler o1 cl
                scheme (runHandler rt HandlerKind.Delete fn.DeleteHandler o1 cl scheme
                  w1).2.2).1) := by
    intro o o1 w1 ho hget
    obtain ⟨r, hr, hres, herr, _⟩ :=
      WithClient_fetched rt cl obj scheme fn request w o o1 w1 ho hget
    exact ⟨r, hr, hres, herr⟩
  have hsome : ∀ o : X.ClientObject, newObject rt obj scheme = some o →
      ∃ r : Reconciled X W, WithClient rt cl obj scheme fn request w = some r ∧
        r.result = ⟨false, 0⟩ := by
    intro o ho
    cases hget : rt.Get cl request.NamespacedName o w with
    | mk gerr rest =>
      obtain ⟨o1, w1⟩ := rest
      cases gerr with
      | some err =>
        obtain ⟨r, hr, hres, _⟩ := hfail o o1 err w1 ho hget
        exact ⟨r, hr, hres⟩
      | none =>
        obtain ⟨r, hr, hres, _⟩ := hok o o1 w1 ho hget
        exact ⟨r, hr, hres⟩
  refine ⟨?_, ?_, hfail, hok⟩
  · intro r hr
    cases ho : newObject rt obj scheme with
    | none => simp [WithClient, ho] at hr
    | some o =>
      obtain ⟨r', hr', hres⟩ := hsome o ho
      rw [hr'] at hr
      cases hr
      rw [hres]
      exact ⟨rfl, rfl, rfl⟩
  · constructor
    · intro hnone
      cases ho : newObject rt obj scheme with
      | none => rfl
      | some o =>
        obtain ⟨r', hr', _⟩ := hsome o ho
        rw [hr'] at hnone
        cases hnone
    · intro ho
      simp [WithClient, ho]


/-! ## Lemmas on the accumulated error -/

theorem Contains_trans (a b c : GoError) (hab : a.Contains b) (hbc : b.Contains c) :
    a.Contains c := by
  induction hab with
  | self e => exact hbc
  | member errs e target hmem _ ih => exact GoError.Contains.member errs e c hmem (ih hbc)

theorem joinIfNotNil_left (E0 : GoError) (err : Option GoError) :
    ∃ E, joinIfNotNil (some E0) err = some E ∧ E.Contains E0 := by
  cases err with
  | none => exact ⟨E0, rfl, GoError.Contains.self E0⟩
  | some e =>
    exact ⟨GoError.joinError [E0, e], rfl,
      GoError.Contains.member _ E0 E0 (List.mem_cons_self _ _) (GoError.Contains.self E0)⟩

theorem joinIfNotNil_right (errs : Option GoError) (e : GoError) :
    ∃ E, joinIfNotNil errs (some e) = some E ∧ E.Contains e := by
  cases errs with
  | none =>
    exact ⟨GoError.joinError [e], rfl,
      GoError.Contains.member _ e e (List.mem_cons_self _ _) (GoError.Contains.self e)⟩
  | some E0 =>
    exact ⟨GoError.joinError [E0, e], rfl,
      GoError.Contains.member _ e e (by simp) (GoError.Contains.self e)⟩

theorem applyHandlerOptions_keeps (opts : List HandlerOption) (options : handlerOptions)
    (E0 : GoError) :
    ∃ E, (applyHandlerOptions opts options (some E0)).2 = some E ∧ E.Contains E0 := by
  induction opts generalizing options E0 with
  | nil => exact ⟨E0, rfl, GoError.Contains.self E0⟩
  | cons opt rest ih =>
    obtain ⟨E1, h1, hc1⟩ := joinIfNotNil_left E0 (opt options).2
    obtain ⟨E, h, hc⟩ := ih (opt options).1 E1
    refine ⟨E, ?_, Contains_trans _ _ _ hc hc1⟩
    simp only [applyHandlerOptions]
    rw [h1, h]

theorem applyHandlerOptions_snd_none_iff (opts : List HandlerOption) (options : handlerOptions)
    (errs : Option GoError) :
    (applyHandlerOptions opts options errs).2 = none ↔
      errs = none ∧ (applyHandlerOptions opts options none).2 = none := by
  constructor
  · intro h
    have h0 := applyHandlerOptions_snd_eq_none opts options errs h
    subst h0
    exact ⟨rfl, h⟩
  · rintro ⟨h0, h⟩
    subst h0
    exact h

theorem applyHandlerOptions_library (calls : List HandlerCall) (options : handlerOptions)
    (errs : Option GoError) :
    (applyHandlerOptions (calls.map HandlerCall.option) options errs).2 = errs := by
  induction calls generalizing options errs with
  | nil => rfl
  | cons c rest ih =>
    cases c <;>
    · simp only [List.map_cons, applyHandlerOptions]
      rw [ih]
      rfl

theorem register_errs {X : External} (o : operator X) (r : Registration X) :
    (o.register r).errs =
      joinIfNotNil (applyHandlerOptions r.opts ⟨some [], some []⟩ o.errs).2
        r.selectorError := by
  cases r with
  | OnCreateOrUpdate fn opts =>
    show joinIfNotNil (applyHandlerOptions opts ⟨some [], some []⟩ o.errs).2
      (CreateOrUpdateByMetadata (applyHandlerOptions opts ⟨some [], some []⟩ o.errs).1.labels
        (applyHandlerOptions opts ⟨some [], some []⟩ o.errs).1.annotations).2 = _
    rw [CreateOrUpdateByMetadata_snd, applyHandlerOptions_fst]
    rfl
  | OnDelete fn opts =>
    show joinIfNotNil (applyHandlerOptions opts ⟨some [], some []⟩ o.errs).2
      (DeleteByMetadata (applyHandlerOptions opts ⟨some [], some []⟩ o.errs).1.labels
        (applyHandlerOptions opts ⟨some [], some []⟩ o.errs).1.annotations).2 = _
    rw [DeleteByMetadata_snd, applyHandlerOptions_fst]
    rfl

theorem register_errs_none_iff {X : External} (o : operator X) (r : Registration X) :
    (o.register r).errs = none ↔
      o.errs = none ∧ r.optionError = none ∧ r.selectorError = none := by
  rw [register_errs, joinIfNotNil_eq_none, applyHandlerOptions_snd_none_iff]
  unfold Registration.optionError
  tauto

theorem foldl_register_errs_none_iff {X : External} (regs : List (Registration X))
    (o : operator X) :
    (regs.foldl operator.register o).errs = none ↔
      o.errs = none ∧ ∀ r ∈ regs, r.optionError = none ∧ r.selectorError = none := by
  induction regs generalizing o with
  | nil => simp
  | cons r rest ih =>
    rw [List.foldl_cons, ih, register_errs_none_iff]
    simp only [List.mem_cons, forall_eq_or_imp]
    tauto

theorem register_keeps {X : External} (o : operator X) (r : Registration X) (E0 : GoError)
    (h : o.errs = some E0) : ∃ E, (o.register r).errs = some E ∧ E.Contains E0 := by
  rw [register_errs, h]
  obtain ⟨E1, h1, hc1⟩ := applyHandlerOptions_keeps r.opts ⟨some [], some []⟩ E0
  rw [h1]
  obtain ⟨E, hE, hc⟩ := joinIfNotNil_left E1 r.selectorError
  exact ⟨E, hE, Contains_trans _ _ _ hc hc1⟩

theorem foldl_register_keeps {X : External} (regs : List (Registration X)) (o : operator X)
    (E0 : GoError) (h : o.errs = some E0) :
    ∃ E, (regs.foldl operator.register o).errs = some E ∧ E.Contains E0 := by
  induction regs generalizing o E0 with
  | nil => exact ⟨E0, h, GoError.Contains.self E0⟩
  | cons r rest ih =>
    obtain ⟨E1, h1, hc1⟩ := register_keeps o r E0 h
    obtain ⟨E, hE, hc⟩ := ih (o.register r) E1 h1
    exact ⟨E, hE, Contains_trans _ _ _ hc hc1⟩

theorem register_records {X : External} (o : operator X) (r : Registration X) (e : GoError)
    (h : r.selectorError = some e) : ∃ E, (o.register r).errs = some E ∧ E.Contains e := by
  rw [register_errs, h]
  exact joinIfNotNil_right _ e

theorem foldl_register_records {X : External} (regs : List (Registration X)) (o : operator X)
    (r : Registration X) (hr : r ∈ regs) (e : GoError) (h : r.selectorError = some e) :
    ∃ E, (regs.foldl operator.register o).errs = some E ∧ E.Contains e := by
  obtain ⟨pre, post, hsplit⟩ := List.append_of_mem hr
  subst hsplit
  rw [List.foldl_append, List.foldl_cons]
  obtain ⟨E1, h1, hc1⟩ := register_records (pre.foldl operator.register o) r e h
  obtain ⟨E, hE, hc⟩ := foldl_register_keeps post _ E1 h1
  exact ⟨E, hE, Contains_trans _ _ _ hc hc1⟩

theorem optionError_library {X : External} (r : Registration X)
    (h : ∃ calls : List HandlerCall, r.opts = calls.map HandlerCall.option) :
    r.optionError = none := by
  obtain ⟨calls, hc⟩ := h
  unfold Registration.optionError
  rw [hc, applyHandlerOptions_library]

/-! ## Claims on the accumulated error and on `Start` -/

/-- C32: configuration failures are accumulated across registrations.  On an operator whose
accumulated error is nil, after any sequence of `OnCreateOrUpdate` and `OnDelete` calls with
`WithLabels` and `WithAnnotations` options, the accumulated error is nil if and only if the
options of every call formed a valid selector; otherwise it contains the validation error of
every failing call; and an error accumulated after some of the calls is still contained in
the accumulated error after the remaining ones.  For arbitrary option functions the
accumulated error is nil exactly when, in addition, no option returned an error. -/
theorem C32_errors_accumulate_across_registrations {X : External} (o0 : operator X)
    (regs : List (Registration X)) (h0 : o0.errs = none)
    (hlib : ∀ r ∈ regs, ∃ calls : List HandlerCall, r.opts = calls.map HandlerCall.option) :
    ((regs.foldl operator.register o0).errs = none ↔ ∀ r ∈ regs, r.selectorError = none) ∧
    (∀ r ∈ regs, ∀ e : GoError, r.selectorError = some e →
      ∃ E, (regs.foldl operator.register o0).errs = some E ∧ E.Contains e) ∧
    (∀ (pre post : List (Registration X)) (E0 : GoError), regs = pre ++ post →
      (pre.foldl operator.register o0).errs = some E0 →
      ∃ E, (regs.foldl operator.register o0).errs = some E ∧ E.Contains E0) ∧
    (∀ (o : operator X) (rs : List (Registration X)),
      (rs.foldl operator.register o).errs = none ↔
        o.errs = none ∧ ∀ r ∈ rs, r.optionError = none ∧ r.selectorError = none) := by
  refine ⟨?_, ?_, ?_, fun o rs => foldl_register_errs_none_iff rs o⟩
  · rw [foldl_register_errs_none_iff]
    constructor
    · intro h r hr
      exact (h.2 r hr).2
    · intro h
      exact ⟨h0, fun r hr => ⟨optionError_library r (hlib r hr), h r hr⟩⟩
  · intro r hr e he
    exact foldl_register_records regs o0 r hr e he
  · intro pre post E0 hsplit hpre
    subst hsplit
    rw [List.foldl_append]
    exact foldl_register_keeps post _ E0 hpre

set_option maxRecDepth 100000 in
/-- Witness for C32: a registration with a malformed label key followed by a registration
without options; the accumulated error is not nil. -/
theorem C32_errors_accumulate_across_registrations_witness :
    testOperator.errs = none ∧
    (∀ r ∈ [@Registration.OnCreateOrUpdate testExternal none
          [WithLabels (some [("-starts-with-dash", "value")])],
        @Registration.OnDelete testExternal none []],
      ∃ calls : List HandlerCall, r.opts = calls.map HandlerCall.option) ∧
    ¬ (([@Registration.OnCreateOrUpdate testExternal none
          [WithLabels (some [("-starts-with-dash", "value")])],
        @Registration.OnDelete testExternal none []].foldl operator.register
          testOperator).errs = none) :=
  have hlib : ∀ r ∈ [@Registration.OnCreateOrUpdate testExternal none
        [WithLabels (some [("-starts-with-dash", "value")])],
      @Registration.OnDelete testExternal none []],
      ∃ calls : List HandlerCall, r.opts = calls.map HandlerCall.option := by
    intro r hr
    simp only [List.mem_cons, List.mem_singleton, List.not_mem_nil, or_false] at hr
    rcases hr with rfl | rfl
    · exact ⟨[HandlerCall.WithLabels (some [("-starts-with-dash", "value")])], rfl⟩
    · exact ⟨[], rfl⟩
  ⟨rfl, hlib, fun hnone =>
    absurd
      ((C32_errors_accumulate_across_registrations testOperator _ rfl hlib).1.mp hnone
        (@Registration.OnCreateOrUpdate testExternal none
          [WithLabels (some [("-starts-with-dash", "value")])]) (List.mem_cons_self _ _))
      (Option.isSome_iff_ne_none.mp (by decide))⟩


/-! ## Lemmas on the constructor options -/

theorem applyConstructorOptions_after_manager_options {X : External}
    (mid post : List (ConstructorCall X)) (b : Option X.ManagerOptions)
    (opts : constructorOptions X) (h : opts.mgrOpts.isSome = true) :
    applyConstructorOptions
      ((mid ++ ConstructorCall.WithManagerOptions b :: post).map ConstructorCall.option) opts =
      Except.error (GoError.errorString "WithManager(...) should only be called once") := by
  induction mid generalizing opts with
  | nil =>
    simp only [List.nil_append, List.map_cons, applyConstructorOptions,
      ConstructorCall.option, WithManagerOptions, h, if_true]
  | cons c rest ih =>
    cases c with
    | WithCustomPredicate p =>
      simp only [List.cons_append, List.map_cons, applyConstructorOptions,
        ConstructorCall.option, WithCustomPredicate]
      exact ih _ h
    | WithManagerOptions m =>
      simp only [List.cons_append, List.map_cons, applyConstructorOptions,
        ConstructorCall.option, WithManagerOptions, h, if_true]
    | WithOwns object filter =>
      simp only [List.cons_append, List.map_cons, applyConstructorOptions,
        ConstructorCall.option, WithOwns]
      exact ih _ h

theorem applyConstructorOptions_manager_options_twice {X : External}
    (pre mid post : List (ConstructorCall X)) (m : X.ManagerOptions)
    (b : Option X.ManagerOptions) (opts : constructorOptions X) :
    applyConstructorOptions
      ((pre ++ ConstructorCall.WithManagerOptions (some m) ::
        (mid ++ ConstructorCall.WithManagerOptions b :: post)).map ConstructorCall.option)
      opts =
      Except.error (GoError.errorString "WithManager(...) should only be called once") := by
  induction pre generalizing opts with
  | nil =>
    by_cases h : opts.mgrOpts.isSome = true
    · simp only [List.nil_append, List.map_cons, applyConstructorOptions,
        ConstructorCall.option, WithManagerOptions, h, if_true]
    · have h' : opts.mgrOpts.isSome = false := by simpa using h
      rw [List.nil_append, List.map_cons]
      simp only [applyConstructorOptions, ConstructorCall.option, WithManagerOptions, h',
        Bool.false_eq_true, if_false]
      exact applyConstructorOptions_after_manager_options mid post b _ rfl
  | cons c rest ih =>
    cases c with
    | WithCustomPredicate p =>
      simp only [List.cons_append, List.map_cons, applyConstructorOptions,
        ConstructorCall.option, WithCustomPredicate]
      exact ih _
    | WithManagerOptions m' =>
      by_cases h : opts.mgrOpts.isSome = true
      · simp only [List.cons_append, List.map_cons, applyConstructorOptions,
          ConstructorCall.option, WithManagerOptions, h, if_true]
      · have h' : opts.mgrOpts.isSome = false := by simpa using h
        cases m' with
        | none =>
          simp only [List.cons_append, List.map_cons, applyConstructorOptions,
            ConstructorCall.option, WithManagerOptions, h', Bool.false_eq_true, if_false]
          exact ih _
        | some m1 =>
          simp only [List.cons_append, List.map_cons, applyConstructorOptions,
            ConstructorCall.option, WithManagerOptions, h', Bool.false_eq_true, if_false]
          exact ih _
    | WithOwns object filter =>
      simp only [List.cons_append, List.map_cons, applyConstructorOptions,
        ConstructorCall.option, WithOwns]
      exact ih _

theorem applyHandlerOptions_library_isSome (calls : List HandlerCall)
    (options : handlerOptions) (errs : Option GoError)
    (hl : options.labels.isSome = true) (ha : options.annotations.isSome = true) :
    (applyHandlerOptions (calls.map HandlerCall.option) options errs).1.labels.isSome = true ∧
    (applyHandlerOptions (calls.map HandlerCall.option) options errs).1.annotations.isSome
      = true := by
  induction calls generalizing options errs with
  | nil => exact ⟨hl, ha⟩
  | cons c rest ih =>
    cases c with
    | WithLabels m =>
      simp only [List.map_cons, applyHandlerOptions]
      exact ih _ _ rfl ha
    | WithAnnotations m =>
      simp only [List.map_cons, applyHandlerOptions]
      exact ih _ _ hl rfl

/-! ## Claims on the constructor and handler options -/

/-- C33, as claimed, fails: with a nil first argument, `WithManagerOptions(nil)` followed by
`WithManagerOptions(m)` among the options of `New` or of `NewUntyped` gives an operator and
a nil error. -/
theorem C33_nil_manager_options_may_be_followed_by_manager_options :
    (New unitExternal () [WithManagerOptions none, WithManagerOptions (some ())]).2 = none ∧
    (New unitExternal () [WithManagerOptions none, WithManagerOptions (some ())]).1.isSome
      = true ∧
    (NewUntyped testRuntime "" "v1" "Pod"
      [WithManagerOptions none, WithManagerOptions (some ())]).2 = none ∧
    (NewUntyped testRuntime "" "v1" "Pod"
      [WithManagerOptions none, WithManagerOptions (some ())]).1.isSome = true :=
  ⟨rfl, rfl, rfl, rfl⟩

/-- C33, amended: when among the constructor options of `New` or of `NewUntyped` a call
`WithManagerOptions(m)` with a non-nil `m` is followed, anywhere later, by another call of
`WithManagerOptions` with any argument, construction returns a nil operator and the error
`WithManager(...) should only be called once`; a call with a nil argument sets nothing and
may be followed by another call; `WithCustomPredicate` and `WithOwns` never return an error,
however often they are given. -/
theorem C33_manager_options_after_non_nil_manager_options_is_error {X : External} {W : Type}
    (rt : Runtime X W) (object : X.ClientObject) (group version kind : String)
    (pre mid post : List (ConstructorCall X)) (m : X.ManagerOptions)
    (b : Option X.ManagerOptions) :
    New X object
      ((pre ++ ConstructorCall.WithManagerOptions (some m) ::
        (mid ++ ConstructorCall.WithManagerOptions b :: post)).map ConstructorCall.option) =
      (none, some (GoError.errorString "WithManager(...) should only be called once")) ∧
    NewUntyped rt group version kind
      ((pre ++ ConstructorCall.WithManagerOptions (some m) ::
        (mid ++ ConstructorCall.WithManagerOptions b :: post)).map ConstructorCall.option) =
      (none, some (GoError.errorString "WithManager(...) should only be called once")) ∧
    applyConstructorOptions [WithManagerOptions none, WithManagerOptions b] ⟨none, [], []⟩ =
      (Except.ok ⟨b, [], []⟩ : Except GoError (constructorOptions X)) ∧
    (∀ (p : Predicate) (opts : constructorOptions X), (WithCustomPredicate p opts).2 = none) ∧
    (∀ (obj : X.ClientObject) (p : Predicate) (opts : constructorOptions X),
      (WithOwns obj p opts).2 = none) ∧
    (∀ (cs : List Predicate) (opts : constructorOptions X),
      applyConstructorOptions (cs.map WithCustomPredicate) opts =
        Except.ok { opts with predicates := opts.predicates ++ cs }) := by
  refine ⟨?_, ?_, ?_, fun _ _ => rfl, fun _ _ _ => rfl,
    fun cs opts => applyConstructorOptions_customPredicates cs opts⟩
  · unfold New
    rw [applyConstructorOptions_manager_options_twice]
  · unfold NewUntyped
    rw [applyConstructorOptions_manager_options_twice]
  · cases b <;> rfl

/-- C37: the nil-requirement rule is not reachable through the handler options: for every
sequence of `WithLabels` and `WithAnnotations` calls, nil arguments included, the label map
and the annotation map that `OnCreateOrUpdate` and `OnDelete` hand to
`CreateOrUpdateByMetadata` and `DeleteByMetadata` are not nil; and a handler registered with
no options, or with nil maps only, has empty requirement maps, which match every object. -/
theorem C37_requirement_maps_are_never_nil {X : External} (o : operator X)
    (fn : Option X.Handler) (calls : List HandlerCall) :
    (applyHandlerOptions (calls.map HandlerCall.option) ⟨some [], some []⟩ o.errs).1.labels
      ≠ none ∧
    (applyHandlerOptions (calls.map HandlerCall.option) ⟨some [], some []⟩
      o.errs).1.annotations ≠ none ∧
    (o.OnCreateOrUpdate fn (calls.map HandlerCall.option)).predicates =
      o.predicates ++ [Predicate.and [Predicate.funcs {
          CreateFunc := some (fun _ => true)
          UpdateFunc := some (fun _ => true)
          DeleteFunc := some (fun _ => false)
          GenericFunc := some (fun _ => false) },
        Predicate.ofFuncs (CreateOrUpdateByMetadata
          (applyHandlerOptions (calls.map HandlerCall.option) ⟨some [], some []⟩
            o.errs).1.labels
          (applyHandlerOptions (calls.map HandlerCall.option) ⟨some [], some []⟩
            o.errs).1.annotations).1]] ∧
    (o.OnDelete fn (calls.map HandlerCall.option)).predicates =
      o.predicates ++ [Predicate.and [Predicate.funcs {
          CreateFunc := some (fun _ => false)
          UpdateFunc := some (fun _ => false)
          DeleteFunc := some (fun _ => true)
          GenericFunc := some (fun _ => false) },
        Predicate.ofFuncs (DeleteByMetadata
          (applyHandlerOptions (calls.map HandlerCall.option) ⟨some [], some []⟩
            o.errs).1.labels
          (applyHandlerOptions (calls.map HandlerCall.option) ⟨some [], some []⟩
            o.errs).1.annotations).1]] ∧
    (applyHandlerOptions [] ⟨some [], some []⟩ o.errs).1.labels = some [] ∧
    (applyHandlerOptions [] ⟨some [], some []⟩ o.errs).1.annotations = some [] ∧
    (applyHandlerOptions [WithLabels none, WithAnnotations none] ⟨some [], some []⟩
      o.errs).1.labels = some [] ∧
    (applyHandlerOptions [WithLabels none, WithAnnotations none] ⟨some [], some []⟩
      o.errs).1.annotations = some [] ∧
    (∀ obj : Object,
      (@Registration.OnCreateOrUpdate X fn []).matchesObject obj = true ∧
      (@Registration.OnDelete X fn []).matchesObject obj = true ∧
      (@Registration.OnCreateOrUpdate X fn
        [WithLabels none, WithAnnotations none]).matchesObject obj = true ∧
      (NewSelector (some []) (some [])).1.Matches (orEmpty obj.Labels)
        (orEmpty obj.Annotations) = true) := by
  have h := applyHandlerOptions_library_isSome calls ⟨some [], some []⟩ o.errs rfl rfl
  refine ⟨Option.isSome_iff_ne_none.mp h.1, Option.isSome_iff_ne_none.mp h.2, rfl, rfl,
    rfl, rfl, rfl, rfl, fun obj => ?_⟩
  exact ⟨Matches_no_requirements obj.Labels obj.Annotations,
    Matches_no_requirements obj.Labels obj.Annotations,
    Matches_no_requirements obj.Labels obj.Annotations,
    Matches_no_requirements obj.Labels obj.Annotations⟩


/-! ## Lemmas on merged handler options -/

theorem NewSelector_snd_congr (l1 l2 a1 a2 : List (String × String))
    (hl : ∀ e, e ∈ l1 ↔ e ∈ l2) (ha : ∀ e, e ∈ a1 ↔ e ∈ a2) :
    (NewSelector (some l1) (some a1)).2 = none ↔ (NewSelector (some l2) (some a2)).2 = none := by
  rw [NewSelector_eq_none, NewSelector_eq_none]
  simp only [entries]
  constructor
  · rintro ⟨h1, h2⟩
    exact ⟨fun e he => h1 e ((hl e).mpr he), fun e he => h2 e ((ha e).mpr he)⟩
  · rintro ⟨h1, h2⟩
    exact ⟨fun e he => h1 e ((hl e).mp he), fun e he => h2 e ((ha e).mp he)⟩

theorem Matches_congr (l1 l2 a1 a2 : List (String × String))
    (hl : ∀ e, e ∈ l1 ↔ e ∈ l2) (ha : ∀ e, e ∈ a1 ↔ e ∈ a2) (labels annotations : StringMap) :
    (NewSelector (some l1) (some a1)).1.Matches labels annotations =
      (NewSelector (some l2) (some a2)).1.Matches labels annotations := by
  show («matches» labels (some l1) && «matches» annotations (some a1)) =
    («matches» labels (some l2) && «matches» annotations (some a2))
  rw [matches_congr_sel labels l1 l2 hl, matches_congr_sel annotations a1 a2 ha]

theorem handlerPredicate_CreateOrUpdate_congr (gate : Funcs)
    (l1 l2 a1 a2 : List (String × String))
    (hl : ∀ e, e ∈ l1 ↔ e ∈ l2) (ha : ∀ e, e ∈ a1 ↔ e ∈ a2) (e : Event) :
    (Predicate.and [Predicate.funcs gate,
      Predicate.ofFuncs (CreateOrUpdateByMetadata (some l1) (some a1)).1]).eval e =
    (Predicate.and [Predicate.funcs gate,
      Predicate.ofFuncs (CreateOrUpdateByMetadata (some l2) (some a2)).1]).eval e := by
  cases h1 : (NewSelector (some l1) (some a1)).2 with
  | none =>
    have h2 := (NewSelector_snd_congr l1 l2 a1 a2 hl ha).mp h1
    rw [CreateOrUpdateByMetadata_accepted _ _ h1, CreateOrUpdateByMetadata_accepted _ _ h2]
    simp only [Matches_congr l1 l2 a1 a2 hl ha]
  | some err =>
    cases h2 : (NewSelector (some l2) (some a2)).2 with
    | none =>
      have := (NewSelector_snd_congr l1 l2 a1 a2 hl ha).mpr h2
      rw [h1] at this
      cases this
    | some err2 =>
      rw [CreateOrUpdateByMetadata_rejected _ _ err h1,
        CreateOrUpdateByMetadata_rejected _ _ err2 h2]

theorem handlerPredicate_Delete_congr (gate : Funcs)
    (l1 l2 a1 a2 : List (String × String))
    (hl : ∀ e, e ∈ l1 ↔ e ∈ l2) (ha : ∀ e, e ∈ a1 ↔ e ∈ a2) (e : Event) :
    (Predicate.and [Predicate.funcs gate,
      Predicate.ofFuncs (DeleteByMetadata (some l1) (some a1)).1]).eval e =
    (Predicate.and [Predicate.funcs gate,
      Predicate.ofFuncs (DeleteByMetadata (some l2) (some a2)).1]).eval e := by
  cases h1 : (NewSelector (some l1) (some a1)).2 with
  | none =>
    have h2 := (NewSelector_snd_congr l1 l2 a1 a2 hl ha).mp h1
    rw [DeleteByMetadata_accepted _ _ h1, DeleteByMetadata_accepted _ _ h2]
    simp only [Matches_congr l1 l2 a1 a2 hl ha]
  | some err =>
    cases h2 : (NewSelector (some l2) (some a2)).2 with
    | none =>
      have := (NewSelector_snd_congr l1 l2 a1 a2 hl ha).mpr h2
      rw [h1] at this
      cases this
    | some err2 =>
      rw [DeleteByMetadata_rejected _ _ err h1, DeleteByMetadata_rejected _ _ err2 h2]

theorem decision_Predicate_congr {X : External} (o1 o2 : operator X) (e : Event)
    (hc : o1.customPredicates = o2.customPredicates)
    (hp : ∃ (ps : List Predicate) (p1 p2 : Predicate), o1.predicates = ps ++ [p1] ∧
      o2.predicates = ps ++ [p2] ∧ p1.eval e = p2.eval e) :
    (o1.Predicate.eval e).decision = (o2.Predicate.eval e).decision := by
  obtain ⟨ps, p1, p2, h1, h2, hev⟩ := hp
  rw [decision_operator_Predicate, decision_operator_Predicate, hc, h1, h2]
  simp only [List.length_append, List.length_singleton, gt_iff_lt, Nat.succ_pos, if_true,
    List.map_append, List.map_cons, List.map_nil, hev, Nat.lt_add_one_iff, Nat.zero_le,
    Nat.lt_succ_iff]

theorem merged_mem_iff (a b m : List (String × String))
    (ha : (a.map Prod.fst).Nodup) (hb : (b.map Prod.fst).Nodup) (hm : (m.map Prod.fst).Nodup)
    (hget : ∀ k, get? m k =
      match get? b k with
      | some v => some v
      | none => get? a k) (e : String × String) :
    e ∈ assignAll (assignAll [] a) b ↔ e ∈ assignAll [] m := by
  obtain ⟨k, v⟩ := e
  have hn1 : ((assignAll (assignAll [] a) b).map Prod.fst).Nodup :=
    nodup_keys_assignAll _ _ (nodup_keys_assignAll _ _ List.nodup_nil)
  have hn2 : ((assignAll [] m).map Prod.fst).Nodup :=
    nodup_keys_assignAll _ _ List.nodup_nil
  rw [mem_iff_get? _ k v hn1, mem_iff_get? _ k v hn2, get?_assignAll _ _ k hb,
    get?_assignAll _ _ k ha, get?_assignAll _ _ k hm, hget k]
  cases get? b k with
  | some vb => simp
  | none => cases get? a k <;> simp [get?]

/-- C34: repeated handler options merge by union.  Applying `WithLabels(a)` and then
`WithLabels(b)` to handler options gives a label map that holds, under every key, the value
of `b` if `b` has the key, else the value of `a` if `a` has it, else what the options held
before, and leaves the annotation map unchanged; symmetrically for `WithAnnotations`; none of
the options returns an error.  A handler registered with the two calls admits exactly the
events admitted by one registered with a single call on a merged map `m`, for
`OnCreateOrUpdate` and `OnDelete` alike. -/
theorem C34_repeated_options_merge_by_union (a b : StringMap) (opts : handlerOptions)
    (ha : UniqueKeys a) (hb : UniqueKeys b) :
    (∃ l, (WithLabels b (WithLabels a opts).1).1.labels = some l ∧
      ∀ k, get? l k =
        match get? (entries b) k with
        | some v => some v
        | none =>
          match get? (entries a) k with
          | some v => some v
          | none => get? (entries opts.labels) k) ∧
    (WithLabels b (WithLabels a opts).1).1.annotations = opts.annotations ∧
    (∃ l, (WithAnnotations b (WithAnnotations a opts).1).1.annotations = some l ∧
      ∀ k, get? l k =
        match get? (entries b) k with
        | some v => some v
        | none =>
          match get? (entries a) k with
          | some v => some v
          | none => get? (entries opts.annotations) k) ∧
    (WithAnnotations b (WithAnnotations a opts).1).1.labels = opts.labels ∧
    (WithLabels a opts).2 = none ∧ (WithAnnotations a opts).2 = none ∧
    (∀ (X : External) (o : operator X) (fn : Option X.Handler) (m : StringMap) (e : Event),
      UniqueKeys m →
      (∀ k, get? (entries m) k =
        match get? (entries b) k with
        | some v => some v
        | none => get? (entries a) k) →
      ((o.OnCreateOrUpdate fn [WithLabels a, WithLabels b]).Predicate.eval e).decision =
        ((o.OnCreateOrUpdate fn [WithLabels m]).Predicate.eval e).decision ∧
      ((o.OnCreateOrUpdate fn [WithAnnotations a, WithAnnotations b]).Predicate.eval
        e).decision =
        ((o.OnCreateOrUpdate fn [WithAnnotations m]).Predicate.eval e).decision ∧
      ((o.OnDelete fn [WithLabels a, WithLabels b]).Predicate.eval e).decision =
        ((o.OnDelete fn [WithLabels m]).Predicate.eval e).decision ∧
      ((o.OnDelete fn [WithAnnotations a, WithAnnotations b]).Predicate.eval e).decision =
        ((o.OnDelete fn [WithAnnotations m]).Predicate.eval e).decision) := by
  have hget : ∀ own : StringMap, ∀ k,
      get? (assignAll (assignAll (entries (orEmpty own)) (entries a)) (entries b)) k =
        match get? (entries b) k with
        | some v => some v
        | none =>
          match get? (entries a) k with
          | some v => some v
          | none => get? (entries own) k := by
    intro own k
    rw [get?_assignAll _ _ k hb, get?_assignAll _ _ k ha]
    cases own <;> rfl
  refine ⟨⟨_, rfl, hget opts.labels⟩, rfl, ⟨_, rfl, hget opts.annotations⟩, rfl, rfl, rfl, ?_⟩
  intro X o fn m e hm hmget
  have hmem := merged_mem_iff (entries a) (entries b) (entries m) ha hb hm hmget
  have hid : ∀ e : String × String, e ∈ ([] : List (String × String)) ↔ e ∈ [] :=
    fun _ => Iff.rfl
  refine ⟨?_, ?_, ?_, ?_⟩
  · exact decision_Predicate_congr _ _ e rfl ⟨o.predicates, _, _, rfl, rfl,
      handlerPredicate_CreateOrUpdate_congr _ _ _ [] [] hmem hid e⟩
  · exact decision_Predicate_congr _ _ e rfl ⟨o.predicates, _, _, rfl, rfl,
      handlerPredicate_CreateOrUpdate_congr _ [] [] _ _ hid hmem e⟩
  · exact decision_Predicate_congr _ _ e rfl ⟨o.predicates, _, _, rfl, rfl,
      handlerPredicate_Delete_congr _ _ _ [] [] hmem hid e⟩
  · exact decision_Predicate_congr _ _ e rfl ⟨o.predicates, _, _, rfl, rfl,
      handlerPredicate_Delete_congr _ [] [] _ _ hid hmem e⟩


set_option maxRecDepth 100000 in
/-- Witness for C34: `WithLabels` of `a: 1, k: old` and then of `k: new, b: 2` on fresh
handler options. -/
theorem C34_repeated_options_merge_by_union_witness :
    UniqueKeys (some [("a", "1"), ("k", "old")]) ∧
    UniqueKeys (some [("k", "new"), ("b", "2")]) ∧
    (WithLabels (some [("k", "new"), ("b", "2")])
      (WithLabels (some [("a", "1"), ("k", "old")]) ⟨some [], some []⟩).1).1.labels =
      some [("a", "1"), ("k", "new"), ("b", "2")] ∧
    (WithLabels (some [("k", "new"), ("b", "2")])
      (WithLabels (some [("a", "1"), ("k", "old")]) ⟨some [], some []⟩).1).1.annotations =
      some [] :=
  ⟨by unfold UniqueKeys; decide, by unfold UniqueKeys; decide, by decide,
    (C34_repeated_options_merge_by_union (some [("a", "1"), ("k", "old")])
      (some [("k", "new"), ("b", "2")]) ⟨some [], some []⟩
      (by unfold UniqueKeys; decide) (by unfold UniqueKeys; decide)).2.1⟩

/-! ## Lemmas on the stored handler predicates -/

theorem decideAnd_append_singleton (xs : List (Option Bool)) (b : Bool) :
    decideAnd (xs ++ [some b]) = none ↔ decideAnd xs = none := by
  induction xs with
  | nil => cases b <;> simp [decideAnd]
  | cons x rest ih =>
    cases x with
    | none => simp [decideAnd]
    | some d => cases d <;> simp [decideAnd, ih]

theorem decision_eq_none (r : Outcome) : r.decision = none ↔ r = none := by
  cases r <;> simp [Outcome.decision]

theorem eval_and_funcs_funcs (gate m : Funcs) (e : Event) :
    (Predicate.and [Predicate.funcs gate, Predicate.funcs m]).eval e ≠ none := by
  have h := decision_and_funcs [gate, m] e
  intro hnone
  rw [List.map_cons, List.map_cons, List.map_nil, hnone] at h
  cases h

theorem register_stores {X : External} (o : operator X) (r : Registration X) :
    ∃ (gate : Funcs) (m : Option Funcs),
      (o.register r).predicates =
        o.predicates ++ [Predicate.and [Predicate.funcs gate, Predicate.ofFuncs m]] ∧
      (m = none → r.selectorError ≠ none) := by
  cases r with
  | OnCreateOrUpdate fn opts =>
    refine ⟨_, _, rfl, ?_⟩
    intro hm hsel
    have hsel' : (NewSelector
        (applyHandlerOptions opts ⟨some [], some []⟩ o.errs).1.labels
        (applyHandlerOptions opts ⟨some [], some []⟩ o.errs).1.annotations).2 = none := by
      rw [applyHandlerOptions_fst]
      exact hsel
    rw [CreateOrUpdateByMetadata_accepted _ _ hsel'] at hm
    cases hm
  | OnDelete fn opts =>
    refine ⟨_, _, rfl, ?_⟩
    intro hm hsel
    have hsel' : (NewSelector
        (applyHandlerOptions opts ⟨some [], some []⟩ o.errs).1.labels
        (applyHandlerOptions opts ⟨some [], some []⟩ o.errs).1.annotations).2 = none := by
      rw [applyHandlerOptions_fst]
      exact hsel
    rw [DeleteByMetadata_accepted _ _ hsel'] at hm
    cases hm

theorem register_stored_invariant {X : External} (o : operator X) (r : Registration X)
    (h : ∀ p ∈ o.predicates, ∃ (gate : Funcs) (m : Option Funcs),
      p = Predicate.and [Predicate.funcs gate, Predicate.ofFuncs m] ∧
      (m = none → o.errs ≠ none)) :
    ∀ p ∈ (o.register r).predicates, ∃ (gate : Funcs) (m : Option Funcs),
      p = Predicate.and [Predicate.funcs gate, Predicate.ofFuncs m] ∧
      (m = none → (o.register r).errs ≠ none) := by
  obtain ⟨gate, m, hps, hm⟩ := register_stores o r
  intro p hp
  rw [hps] at hp
  rcases List.mem_append.mp hp with hold | hnew
  · obtain ⟨g, m', hp', hm'⟩ := h p hold
    exact ⟨g, m', hp', fun hnone herr =>
      hm' hnone ((register_errs_none_iff o r).mp herr).1⟩
  · rw [List.mem_singleton] at hnew
    exact ⟨gate, m, hnew, fun hnone herr =>
      hm hnone ((register_errs_none_iff o r).mp herr).2.2⟩

theorem foldl_register_stored_invariant {X : External} (regs : List (Registration X))
    (o : operator X)
    (h : ∀ p ∈ o.predicates, ∃ (gate : Funcs) (m : Option Funcs),
      p = Predicate.and [Predicate.funcs gate, Predicate.ofFuncs m] ∧
      (m = none → o.errs ≠ none)) :
    ∀ p ∈ (regs.foldl operator.register o).predicates, ∃ (gate : Funcs) (m : Option Funcs),
      p = Predicate.and [Predicate.funcs gate, Predicate.ofFuncs m] ∧
      (m = none → (regs.foldl operator.register o).errs ≠ none) := by
  induction regs generalizing o with
  | nil => exact h
  | cons r rest ih => exact ih _ (register_stored_invariant o r h)

theorem eval_Predicate_none_iff {X : External} (o0 : operator X)
    (regs : List (Registration X)) (e : Event) (hp : o0.predicates = [])
    (herr : (regs.foldl operator.register o0).errs = none) :
    (regs.foldl operator.register o0).Predicate.eval e = none ↔
      (Predicate.and o0.customPredicates).eval e = none := by
  obtain ⟨hcust, ps, hps, hev⟩ := foldl_register_spec regs o0
  obtain ⟨_, hmap⟩ := hev herr
  rw [← decision_eq_none, ← decision_eq_none, decision_operator_Predicate, hcust, hps, hp,
    List.nil_append, hmap e, Predicate.eval, decision_evalAnd]
  have hor : decideOr (regs.map (fun r => some (r.accepts e))) =
      some (regs.any (fun r => r.accepts e)) := by
    have := decideOr_map_some (regs.map (fun r => r.accepts e))
    rw [List.map_map] at this
    rw [any_map_id] at this
    exact this
  by_cases hlen : ps.length > 0
  · rw [if_pos hlen, hor, decideAnd_append_singleton]
  · rw [if_neg hlen, List.append_nil]

/-! ## Claims on the stored handler predicates -/

/-- C39, as claimed, fails: an operator built by `New` with `WithCustomPredicate(nil)` and
one registration without options has a nil accumulated error, and evaluating the predicate
returned by `Predicate()` on a Create event calls the nil predicate. -/
theorem C39_nil_custom_predicate_is_called :
    ∃ o : operator unitExternal,
      New unitExternal () [WithCustomPredicate Predicate.nil] = (some o, none) ∧
      (o.OnCreateOrUpdate (some ()) []).errs = none ∧
      (o.OnCreateOrUpdate (some ()) []).Predicate.eval (Event.Create ⟨testPod⟩) = none :=
  ⟨_, rfl, rfl, rfl⟩

/-- C39, amended: on an operator without handler predicates, after any sequence of
`OnCreateOrUpdate` and `OnDelete` calls: if the accumulated error is nil, every stored
handler predicate is the conjunction of an event-kind gate with a non-nil metadata predicate
and its evaluation returns on every event; a stored handler predicate whose metadata
predicate is nil implies a non-nil accumulated error; and if the accumulated error is nil,
the evaluation of the predicate returned by `Predicate()` panics on an event exactly when the
conjunction of the custom predicates does, so it returns on every event when the custom
predicates are `predicate.Funcs` values or when there is none. -/
theorem C39_handler_predicates_are_total_without_error {X : External} (o0 : operator X)
    (regs : List (Registration X)) (hp : o0.predicates = []) :
    ((regs.foldl operator.register o0).errs = none →
      ∀ p ∈ (regs.foldl operator.register o0).predicates,
        (∃ gate m : Funcs, p = Predicate.and [Predicate.funcs gate, Predicate.funcs m]) ∧
        ∀ e : Event, p.eval e ≠ none) ∧
    (∀ p ∈ (regs.foldl operator.register o0).predicates, ∀ gate : Funcs,
      p = Predicate.and [Predicate.funcs gate, Predicate.nil] →
      (regs.foldl operator.register o0).errs ≠ none) ∧
    ((regs.foldl operator.register o0).errs = none → ∀ e : Event,
      ((regs.foldl operator.register o0).Predicate.eval e = none ↔
        (Predicate.and o0.customPredicates).eval e = none)) ∧
    ((regs.foldl operator.register o0).errs = none → ∀ fs : List Funcs,
      o0.customPredicates = fs.map Predicate.funcs →
      ∀ e : Event, (regs.foldl operator.register o0).Predicate.eval e ≠ none) := by
  have hinv := foldl_register_stored_invariant regs o0 (by rw [hp]; simp)
  refine ⟨?_, ?_, ?_, ?_⟩
  · intro herr p hmem
    obtain ⟨gate, m, hpeq, hm⟩ := hinv p hmem
    cases m with
    | none => exact absurd herr (hm rfl)
    | some f =>
      subst hpeq
      exact ⟨⟨gate, f, rfl⟩, fun e => eval_and_funcs_funcs gate f e⟩
  · intro p hmem gate hpeq
    obtain ⟨gate', m, hpeq', hm⟩ := hinv p hmem
    cases m with
    | none => exact hm rfl
    | some f =>
      rw [hpeq] at hpeq'
      simp [Predicate.ofFuncs] at hpeq'
  · intro herr e
    exact eval_Predicate_none_iff o0 regs e hp herr
  · intro herr fs hfs e hnone
    have h := (eval_Predicate_none_iff o0 regs e hp herr).mp hnone
    have hd := decision_and_funcs fs e
    rw [← hfs, h] at hd
    cases hd

set_option maxRecDepth 100000 in
/-- Witness for C39: two registrations with valid options on the fresh operator. -/
theorem C39_handler_predicates_are_total_without_error_witness :
    freshOperator.predicates = [] ∧
    ([@Registration.OnCreateOrUpdate unitExternal (some ())
        [WithLabels (some [("labelkey", "labelvalue")])],
      @Registration.OnDelete unitExternal (some ()) []].foldl operator.register
        freshOperator).errs = none ∧
    ([@Registration.OnCreateOrUpdate unitExternal (some ())
        [WithLabels (some [("labelkey", "labelvalue")])],
      @Registration.OnDelete unitExternal (some ()) []].foldl operator.register
        freshOperator).Predicate.eval (Event.Create ⟨testPod⟩) ≠ none :=
  ⟨rfl, Option.isNone_iff_eq_none.mp (by decide),
    (C39_handler_predicates_are_total_without_error freshOperator
      [@Registration.OnCreateOrUpdate unitExternal (some ())
        [WithLabels (some [("labelkey", "labelvalue")])],
      @Registration.OnDelete unitExternal (some ()) []] rfl).2.2.2
      (Option.isNone_iff_eq_none.mp (by decide)) [] rfl (Event.Create ⟨testPod⟩)⟩

end Lot
